import Mathlib

/-!
# PhoneMarket scraping core: a shallow embedding

Definitions are transcribed from the JavaScript sources under `backend/`:

* `scrapers/BaseScraper.js`  (run wrapper, price and text normalisation helpers)
* `scheduler/jobManager.js`  (single-flight job scheduler and run history)
* `services/phoneService.js` (fuzzy matching of catalog entries)

Conventions.
* An `async` method that can reject is a function returning `Except JsError α`
  together with the object state after the call; `await` is sequencing.
* Collaborators (the marketplace extractor, the database driver, the clock,
  the string-similarity library, the host `toLowerCase`) are explicit
  arguments, so every theorem holds for each of their behaviours.
* JavaScript strings are Lean strings. The sources only use character classes
  and search needles from the Basic Multilingual Plane, for which code-unit and
  code-point views of a well-formed string agree.
-/

namespace PhoneMarket

/-! ## Host language values -/

/-- A thrown JavaScript `Error`; only its `message` is ever read by the sources. -/
structure JsError where
  message : String
  deriving DecidableEq, Repr

/-- Duration in whole seconds, `Math.floor((end - start) / 1000)`. -/
def elapsedSeconds (startTime endTime : Int) : Int :=
  (endTime - startTime) / 1000

/-! ## BaseScraper: session teardown and the `run` wrapper -/

namespace BaseScraper

/-- The fields of a `BaseScraper` instance that `run` and `closeBrowser` touch.
`browser` is `none` for the JavaScript `null`. -/
structure Scraper where
  marketplaceName : String
  browser : Option Nat
  deriving DecidableEq, Repr

/-- The `stats` member of a run result. `itemsScraped` is absent on failure;
the listing counters are filled in later by `runScraper`. -/
structure Stats where
  itemsScraped : Option Nat
  duration : Int
  newListings : Option Nat := none
  updatedListings : Option Nat := none
  deriving DecidableEq, Repr

/-- The object returned by `run`: `{success, marketplace, data | error, stats}`. -/
structure RunResult (α : Type) where
  success : Bool
  marketplace : String
  data : Option (List α)
  error : Option String
  stats : Stats
  deriving DecidableEq, Repr

/-- `closeBrowser()`: when a session is open, await `browser.close()` (which
rejects with `closeError` when that is `some`), then clear the field. -/
def closeBrowser (self : Scraper) (closeError : Option JsError) :
    Except JsError Unit × Scraper :=
  match self.browser with
  | none => (.ok (), self)
  | some _ =>
    match closeError with
    | some e => (.error e, self)
    | none => (.ok (), { self with browser := none })

/-- `run()`: `try { scrape } catch { failure object } finally { closeBrowser }`.
`scrape` is the subclass extractor; it may open a session, so it returns the
instance state along with its outcome. `startTime` and `endTime` are the two
clock readings. A rejection inside `finally` replaces the pending return. -/
def run {α : Type} (self : Scraper) (startTime endTime : Int)
    (scrape : Scraper → Except JsError (List α) × Scraper)
    (closeError : Option JsError) : Except JsError (RunResult α) × Scraper :=
  let attempt := scrape self
  let self1 := attempt.2
  let duration := elapsedSeconds startTime endTime
  let pending : RunResult α :=
    match attempt.1 with
    | .ok results =>
      { success := true
        marketplace := self1.marketplaceName
        data := some results
        error := none
        stats := { itemsScraped := some results.length, duration := duration } }
    | .error error =>
      { success := false
        marketplace := self1.marketplaceName
        data := none
        error := some error.message
        stats := { itemsScraped := none, duration := duration } }
  match closeBrowser self1 closeError with
  | (.error e, self2) => (.error e, self2)
  | (.ok _, self2) => (.ok pending, self2)

/-! ### Text normalisation helpers -/

/-- Needle test at the head of the text, on characters. -/
def startsWithChars : List Char → List Char → Bool
  | _, [] => true
  | [], _ :: _ => false
  | c :: text, d :: needle => c == d && startsWithChars text needle

/-- Substring search on characters: is `needle` a contiguous run of `text`? -/
def includesChars : List Char → List Char → Bool
  | [], needle => needle.isEmpty
  | c :: text, needle => startsWithChars (c :: text) needle || includesChars text needle

/-- `text.includes(needle)` of the host language. -/
def includes (text needle : String) : Bool :=
  includesChars text.toList needle.toList

/-- The character class kept by `replace(/[^\d.,]/g, '')`: ASCII digits, dot, comma. -/
def keepPriceChar (c : Char) : Bool :=
  c.isDigit || c == '.' || c == ','

/-- `s.replace(target, replacement)` with a one-character string pattern: only the
first occurrence is replaced. -/
def replaceFirst (target replacement : Char) : List Char → List Char
  | [] => []
  | c :: cs => if c = target then replacement :: cs else c :: replaceFirst target replacement cs

/-- Value of a run of ASCII digits read in base ten. -/
def digitsToNat (ds : List Char) : Nat :=
  ds.foldl (fun n c => 10 * n + (c.toNat - 48)) 0

/-- A JavaScript number as far as `normalizePrice` can tell: `NaN`, or a value.
The value is the exact decimal that was read; the host rounds it to the nearest
double (and to `Infinity` beyond the double range), which is a function of it. -/
inductive JsNumber where
  | nan
  | finite (value : ℚ)
  deriving DecidableEq

/-- `parseFloat` on text over the alphabet digits, dot, comma (all that survives the
character filter, so no sign, exponent, `Infinity` or white space can occur): the
longest leading literal `digits [. digits]` or `. digits`; `NaN` if there is none. -/
def parseFloat (s : List Char) : JsNumber :=
  let intPart := s.takeWhile Char.isDigit
  match s.dropWhile Char.isDigit with
  | '.' :: rest =>
    let fracPart := rest.takeWhile Char.isDigit
    if intPart.isEmpty && fracPart.isEmpty then .nan
    else .finite (mkRat (digitsToNat intPart * 10 ^ fracPart.length + digitsToNat fracPart)
                        (10 ^ fracPart.length))
  | _ => if intPart.isEmpty then .nan else .finite (digitsToNat intPart)

/-- `normalizePrice(priceString)`; `none` on the argument side is `null`/`undefined`,
on the result side `null`. -/
def normalizePrice (priceString : Option String) : Option ℚ :=
  match priceString with
  | none => none
  | some s =>
    if s = "" then none
    else
      let cleaned := s.toList.filter keepPriceChar
      let normalized := replaceFirst ',' '.' cleaned
      match parseFloat normalized with
      | .nan => none
      | .finite price => some price

/-- `detectCategory(title, description = '')`. -/
def detectCategory (toLowerCase : String → String) (title : String)
    (description : String := "") : String :=
  let text := toLowerCase (title ++ " " ++ description)
  if includes text "tablet" || includes text "tablette" then "tablet"
  else if includes text "feature phone" || includes text "téléphone basique" then
    "feature_phone"
  else if includes text "accessoire" || includes text "accessory" ||
      includes text "case" || includes text "charger" then "accessory"
  else "smartphone"

/-- `detectCondition(title, description = '')`. -/
def detectCondition (toLowerCase : String → String) (title : String)
    (description : String := "") : String :=
  let text := toLowerCase (title ++ " " ++ description)
  if includes text "neuf" || includes text "new" || includes text "nouveau" then "new"
  else if includes text "comme neuf" || includes text "like new" ||
      includes text "excellent" then "like_new"
  else if includes text "pièces" || includes text "parts" ||
      includes text "défectueux" then "for_parts"
  else "used"

/-- An ASCII-only stand-in for the host `toLowerCase`, used to evaluate the text
helpers on concrete ASCII titles. -/
def asciiLowerCase (s : String) : String :=
  String.mk (s.toList.map Char.toLower)

/-- Keyword rules as the specification words them: an ordered table of
`(label, keywords)`; the first row with a keyword occurring in the text wins. -/
def firstMatchingRule (rules : List (String × List String)) (fallback : String)
    (text : String) : String :=
  match rules.find? (fun rule => rule.2.any (fun kw => includes text kw)) with
  | some rule => rule.1
  | none => fallback

/-- The category priority list of the specification:
tablet > feature_phone > accessory, smartphone otherwise. -/
def categoryRules : List (String × List String) :=
  [ ("tablet", ["tablet", "tablette"]),
    ("feature_phone", ["feature phone", "téléphone basique"]),
    ("accessory", ["accessoire", "accessory", "case", "charger"]) ]

/-- The condition priority list of the specification:
new > like_new > for_parts, used otherwise. -/
def conditionRules : List (String × List String) :=
  [ ("new", ["neuf", "new", "nouveau"]),
    ("like_new", ["comme neuf", "like new", "excellent"]),
    ("for_parts", ["pièces", "parts", "défectueux"]) ]

end BaseScraper

/-! ## PhoneService: fuzzy matching -/

namespace PhoneService

/-- A row of the `phones` table. -/
structure Phone where
  id : Nat
  model : String
  brand : String
  category : String
  price : Option ℚ
  currency : String
  condition : String
  image_url : Option String
  source_url : Option String
  marketplace_name : String
  listing_count : Nat
  stock_level : Option Int
  availability_status : Option String
  scraped_at : Int
  created_at : Int
  updated_at : Int
  deriving DecidableEq

/-- The `for (const phone of phones)` loop of `findSimilarPhone`, with its early return. -/
def findSimilarPhoneLoop (ratio : String → String → Nat) (toLowerCase : String → String)
    (model : String) : List Phone → Option Phone
  | [] => none
  | phone :: rest =>
    if ratio (toLowerCase model) (toLowerCase phone.model) > 85 then some phone
    else findSimilarPhoneLoop ratio toLowerCase model rest

/-- `findSimilarPhone(model, brand, marketplace)` once the candidate query has
answered with `phones` (at most 20 rows of that brand and marketplace, newest first).
`ratio` is the similarity library (`fuzzball.ratio`, a score from 0 to 100). -/
def findSimilarPhone (ratio : String → String → Nat) (toLowerCase : String → String)
    (model : String) (phones : List Phone) : Option Phone :=
  if phones.length = 0 then none
  else findSimilarPhoneLoop ratio toLowerCase model phones

end PhoneService

/-! ## JobManager: the scheduler -/

namespace JobManager

/-- Values of the `status` column of `scraping_jobs`. -/
inductive JobStatus where
  | idle
  | running
  | completed
  | failed
  deriving DecidableEq, Repr

/-- A row of `scraping_jobs`. Times are epoch milliseconds. -/
structure JobRecord where
  job_id : String
  marketplace_name : String
  schedule_frequency : Int
  next_run : Int
  last_run : Option Int
  status : JobStatus
  items_scraped : Int
  duration : Int
  error_message : Option String
  updated_at : Int
  deriving DecidableEq, Repr

/-- The object that `logJob` serialises into the `details` column. -/
structure LogDetails where
  status : JobStatus
  items_scraped : Int
  duration : Int
  error : Option String
  deriving DecidableEq, Repr

/-- A row of `scraping_logs`. -/
structure LogRow where
  job_id : String
  marketplace_name : String
  log_level : String
  message : String
  details : LogDetails
  deriving DecidableEq, Repr

/-- An entry of `scraperConfig.marketplaces`, as far as the scheduler reads it. -/
structure MarketplaceConfig where
  scheduleHours : Int
  enabled : Bool
  deriving DecidableEq, Repr

/-- The table `scraperConfig.marketplaces`: `none` is `undefined`. -/
abbrev Config := String → Option MarketplaceConfig

/-- The configuration of `config/scraper.config.js` with no environment overrides. -/
def defaultConfig : Config := fun marketplace =>
  if marketplace = "ouedkniss" then some { scheduleHours := 6, enabled := true }
  else if marketplace = "jumia" then some { scheduleHours := 4, enabled := true }
  else if marketplace = "facebook" then some { scheduleHours := 8, enabled := false }
  else none

/-- One successful `UPDATE ... SET status = ?` as the store saw it: the marketplace,
the status each matching row held just before the write, and the status written. -/
structure StatusWrite where
  marketplace : String
  before : List JobStatus
  written : JobStatus
  deriving DecidableEq, Repr

/-- The `JobManager` singleton together with the two tables it writes.
`jobs` maps a marketplace to its registered timer (kept as the hour interval),
`runningJobs` is the in-memory `Set`. The last two fields are observation
records only: every invocation of the extractor, and every status write. -/
structure Manager where
  jobs : List (String × Int)
  runningJobs : List String
  scraping_jobs : List JobRecord
  scraping_logs : List LogRow
  extractorCalls : List String
  statusWrites : List StatusWrite
  deriving DecidableEq, Repr

/-- `Set.prototype.add`. -/
def setAdd (s : List String) (x : String) : List String :=
  if s.contains x then s else s ++ [x]

/-- `Set.prototype.delete`. -/
def setDelete (s : List String) (x : String) : List String :=
  s.filter (fun y => y != x)

/-- The rows touched by `UPDATE scraping_jobs SET ... WHERE marketplace_name = ?`:
every row of that marketplace is rewritten by `assign`, the others are kept. -/
def updateWhere (rows : List JobRecord) (marketplace : String)
    (assign : JobRecord → JobRecord) : List JobRecord :=
  rows.map (fun r => if r.marketplace_name = marketplace then assign r else r)

/-- Statuses held by the rows of a marketplace. -/
def statusesOf (rows : List JobRecord) (marketplace : String) : List JobStatus :=
  (rows.filter (fun r => r.marketplace_name = marketplace)).map (fun r => r.status)

/-- Statuses currently persisted for a marketplace. -/
def persistedStatuses (w : Manager) (marketplace : String) : List JobStatus :=
  statusesOf w.scraping_jobs marketplace

/-- A successful `UPDATE scraping_jobs SET status = ?, ... WHERE marketplace_name = ?`:
the rows of the marketplace are rewritten and the write is recorded together with
the statuses it found. -/
def applyStatusUpdate (w : Manager) (marketplace : String) (status : JobStatus)
    (assign : JobRecord → JobRecord) : Manager :=
  { w with
    scraping_jobs := updateWhere w.scraping_jobs marketplace assign
    statusWrites := w.statusWrites ++
      [{ marketplace := marketplace, before := persistedStatuses w marketplace,
         written := status }] }

/-- Behaviour of the collaborators during one `updateJobCompletion` call: the clock
reading, the database `NOW()`, and for each of the three queries (the `UPDATE`, the
`SELECT` of `getJobRecord`, the log `INSERT`) the error it rejects with, if any. -/
structure CompletionEnv where
  now : Int
  dbNow : Int
  updateError : Option JsError
  selectError : Option JsError
  insertError : Option JsError
  deriving DecidableEq, Repr

/-- Behaviour of the collaborators during one `executeJob` call: clock readings,
the outcome of the status query, what `runScraper` does (returns the run result or
rejects), and the environments of the completion call in the `try` block and of
the one in the `catch` block. -/
structure RunEnv (α : Type) where
  startTime : Int
  statusDbNow : Int
  statusError : Option JsError
  scraper : Except JsError (BaseScraper.RunResult α)
  endTime : Int
  completion : CompletionEnv
  catchTime : Int
  recovery : CompletionEnv

/-- `updateJobStatus(marketplace, status, errorMessage)`. -/
def updateJobStatus (w : Manager) (marketplace : String) (status : JobStatus)
    (errorMessage : Option String) (dbNow : Int) (queryError : Option JsError) :
    Except JsError Unit × Manager :=
  match queryError with
  | some e => (.error e, w)
  | none =>
    (.ok (),
      applyStatusUpdate w marketplace status (fun r =>
        { r with status := status, error_message := errorMessage, updated_at := dbNow }))

/-- `getJobRecord(marketplace)`: `results[0] || null`. -/
def getJobRecord (w : Manager) (marketplace : String) (queryError : Option JsError) :
    Except JsError (Option JobRecord) :=
  match queryError with
  | some e => .error e
  | none => .ok (w.scraping_jobs.find? (fun r => r.marketplace_name = marketplace))

/-- `logJob(marketplace, status, itemsScraped, duration, errorMessage)`. Reading
`job_id` off a `null` record is a `TypeError`. -/
def logJob (w : Manager) (marketplace : String) (status : JobStatus) (itemsScraped : Int)
    (duration : Int) (errorMessage : Option String) (env : CompletionEnv) :
    Except JsError Unit × Manager :=
  match getJobRecord w marketplace env.selectError with
  | .error e => (.error e, w)
  | .ok jobRecord =>
    let logLevel := if status = .failed then "error" else "info"
    let message :=
      if status = .failed then "Scraping failed: " ++ errorMessage.getD "null"
      else "Scraping completed: " ++ toString itemsScraped ++ " items in " ++
        toString duration ++ "s"
    let details : LogDetails :=
      { status := status, items_scraped := itemsScraped, duration := duration,
        error := errorMessage }
    match jobRecord with
    | none => (.error ⟨"Cannot read properties of null (reading job_id)"⟩, w)
    | some record =>
      match env.insertError with
      | some e => (.error e, w)
      | none =>
        (.ok (),
          { w with
            scraping_logs := w.scraping_logs ++
              [{ job_id := record.job_id, marketplace_name := marketplace,
                 log_level := logLevel, message := message, details := details }] })

/-- `updateJobCompletion(marketplace, status, itemsScraped, duration, errorMessage)`.
Reading `scheduleHours` off an unconfigured marketplace is a `TypeError`. -/
def updateJobCompletion (config : Config) (w : Manager) (marketplace : String)
    (status : JobStatus) (itemsScraped : Int) (duration : Int)
    (errorMessage : Option String) (env : CompletionEnv) : Except JsError Unit × Manager :=
  match config marketplace with
  | none => (.error ⟨"Cannot read properties of undefined (reading scheduleHours)"⟩, w)
  | some cfg =>
    let nextRun := env.now + cfg.scheduleHours * 60 * 60 * 1000
    match env.updateError with
    | some e => (.error e, w)
    | none =>
      let w1 : Manager :=
        applyStatusUpdate w marketplace status (fun r =>
          { r with
            status := status, last_run := some env.dbNow, next_run := nextRun,
            items_scraped := itemsScraped, duration := duration,
            error_message := errorMessage, updated_at := env.dbNow })
      logJob w1 marketplace status itemsScraped duration errorMessage env

/-- The call `await runScraper(marketplace)` as the scheduler sees it: the
invocation is recorded and the extractor answers as the environment says. -/
def callRunScraper {α : Type} (w : Manager) (marketplace : String)
    (outcome : Except JsError (BaseScraper.RunResult α)) :
    Except JsError (BaseScraper.RunResult α) × Manager :=
  (outcome, { w with extractorCalls := w.extractorCalls ++ [marketplace] })

/-- The operand `x || null` for a string that may be absent: an empty string is falsy. -/
def orNull (x : Option String) : Option String :=
  x.filter (fun s => s != "")

/-- The `try` block of `executeJob`. -/
def executeJobBody {α : Type} (config : Config) (w : Manager) (marketplace : String)
    (env : RunEnv α) : Except JsError Unit × Manager :=
  match updateJobStatus w marketplace .running none env.statusDbNow env.statusError with
  | (.error e, w1) => (.error e, w1)
  | (.ok _, w1) =>
    match callRunScraper w1 marketplace env.scraper with
    | (.error e, w2) => (.error e, w2)
    | (.ok result, w2) =>
      let duration := elapsedSeconds env.startTime env.endTime
      updateJobCompletion config w2 marketplace
        (if result.success then .completed else .failed)
        ((result.stats.itemsScraped.getD 0 : Nat) : Int) duration (orNull result.error)
        env.completion

/-- `executeJob(marketplace)`: guard, `try` body, `catch` recording the failure,
`finally` releasing the guard. -/
def executeJob {α : Type} (config : Config) (w : Manager) (marketplace : String)
    (env : RunEnv α) : Except JsError Unit × Manager :=
  if w.runningJobs.contains marketplace then (.ok (), w)
  else
    let w0 : Manager := { w with runningJobs := setAdd w.runningJobs marketplace }
    let handled : Except JsError Unit × Manager :=
      match executeJobBody config w0 marketplace env with
      | (.ok u, w1) => (.ok u, w1)
      | (.error error, w1) =>
        let duration := elapsedSeconds env.startTime env.catchTime
        updateJobCompletion config w1 marketplace .failed 0 duration (some error.message)
          env.recovery
    (handled.1, { handled.2 with runningJobs := setDelete handled.2.runningJobs marketplace })

/-- `triggerJob(marketplace)`. -/
def triggerJob {α : Type} (config : Config) (w : Manager) (marketplace : String)
    (env : RunEnv α) : Except JsError Unit × Manager :=
  match config marketplace with
  | none => (.error ⟨"Unknown marketplace: " ++ marketplace⟩, w)
  | some _ => executeJob config w marketplace env

/-- `updateJobSchedule(marketplace, hours)`: persist the interval, then replace the timer. -/
def updateJobSchedule (w : Manager) (marketplace : String) (hours : Int) (now dbNow : Int)
    (queryError : Option JsError) : Except JsError Unit × Manager :=
  let nextRun := now + hours * 60 * 60 * 1000
  match queryError with
  | some e => (.error e, w)
  | none =>
    (.ok (),
      { w with
        scraping_jobs := updateWhere w.scraping_jobs marketplace (fun r =>
          { r with schedule_frequency := hours, next_run := nextRun, updated_at := dbNow })
        jobs := (w.jobs.filter (fun j => j.1 != marketplace)) ++ [(marketplace, hours)] })

/-- A call on the scheduler's public surface, with the collaborators' behaviour. -/
inductive Call (α : Type) where
  | executeJob (marketplace : String) (env : RunEnv α)
  | triggerJob (marketplace : String) (env : RunEnv α)
  | updateJobSchedule (marketplace : String) (hours : Int) (now dbNow : Int)
      (queryError : Option JsError)

/-- State after one call, whether it returned or rejected. -/
def step {α : Type} (config : Config) (w : Manager) : Call α → Manager
  | .executeJob m env => (executeJob config w m env).2
  | .triggerJob m env => (triggerJob config w m env).2
  | .updateJobSchedule m hours now dbNow queryError =>
    (updateJobSchedule w m hours now dbNow queryError).2

/-- State after a sequence of calls, one after the other. -/
def runCalls {α : Type} (config : Config) (w : Manager) (calls : List (Call α)) : Manager :=
  calls.foldl (step config) w

/-- The transitions the specification allows for a persisted status. -/
def legalMove : JobStatus → JobStatus → Bool
  | .idle, .running => true
  | .completed, .running => true
  | .failed, .running => true
  | .running, .completed => true
  | .running, .failed => true
  | _, _ => false

/-- Every recorded status write was a legal move for each row it changed. -/
def statusDiscipline (w : Manager) : Bool :=
  w.statusWrites.all (fun sw => sw.before.all (fun old => legalMove old sw.written))

/-- Every row whose persisted status is `running` belongs to a marketplace that is
in the running set. -/
def Guarded (w : Manager) : Prop :=
  ∀ r ∈ w.scraping_jobs, r.status = .running → r.marketplace_name ∈ w.runningJobs

/-- The queries that carry the status of a run go through: the `running` update, the
log of a completion whose `UPDATE` was applied, and the `UPDATE` of the failure
handler. The completion `UPDATE` itself and the log of the failure handler may
still reject. -/
def RunEnv.storeHealthy {α : Type} (env : RunEnv α) : Prop :=
  env.statusError = none ∧
  env.completion.selectError = none ∧ env.completion.insertError = none ∧
  env.recovery.updateError = none

/-- A call whose runs have a healthy store, and which executes only a configured
marketplace. Rescheduling may fail freely. -/
def Call.healthy {α : Type} (config : Config) : Call α → Prop
  | .executeJob m env => config m ≠ none ∧ env.storeHealthy
  | .triggerJob _ env => env.storeHealthy
  | .updateJobSchedule _ _ _ _ _ => True

/-! ### Concrete scheduler states and environments -/

/-- A store that answers every query of a completion call. -/
def healthyCompletion : CompletionEnv :=
  { now := 7200000, dbNow := 7200000, updateError := none, selectError := none,
    insertError := none }

/-- A store that rejects the `UPDATE` of a completion call. -/
def brokenCompletion : CompletionEnv :=
  { healthyCompletion with updateError := some ⟨"ECONNRESET"⟩ }

/-- A run in which the extractor returns three items and nothing fails. -/
def quietRun : RunEnv Nat :=
  { startTime := 0, statusDbNow := 0, statusError := none,
    scraper := .ok { success := true, marketplace := "ouedkniss", data := some [1, 2, 3],
                     error := none, stats := { itemsScraped := some 3, duration := 7 } },
    endTime := 7000, completion := healthyCompletion, catchTime := 7000,
    recovery := healthyCompletion }

/-- A run in which the extractor rejects and the store then rejects the `UPDATE`
that should record the failure. -/
def crashedRun : RunEnv Nat :=
  { quietRun with
    scraper := .error ⟨"Navigation timeout"⟩, recovery := brokenCompletion }

/-- The `ouedkniss` job row as `createJobRecord` leaves it. -/
def ouedknissJob : JobRecord :=
  { job_id := "job-1", marketplace_name := "ouedkniss", schedule_frequency := 6,
    next_run := 21600000, last_run := none, status := .idle, items_scraped := 0,
    duration := 0, error_message := none, updated_at := 0 }

/-- A freshly initialised scheduler with the `ouedkniss` job and nothing running. -/
def freshManager : Manager :=
  { jobs := [("ouedkniss", 6)], runningJobs := [], scraping_jobs := [ouedknissJob],
    scraping_logs := [], extractorCalls := [], statusWrites := [] }

/-- A run whose `running` update is rejected by the store. -/
def lostStatusWrite : RunEnv Nat :=
  { quietRun with statusError := some ⟨"ECONNRESET"⟩ }

/-- A run whose completion is written but whose log `INSERT` is rejected. -/
def lostLogInsert : RunEnv Nat :=
  { quietRun with
    completion := { healthyCompletion with insertError := some ⟨"ECONNRESET"⟩ } }

/-- A `facebook` run in which the extractor returns no item and no query fails. -/
def facebookRun : RunEnv Nat :=
  { quietRun with
    scraper := .ok { success := true, marketplace := "facebook", data := some [],
                     error := none, stats := { itemsScraped := some 0, duration := 7 } } }

/-- The same scheduler while an `ouedkniss` run is in flight. -/
def busyManager : Manager :=
  { freshManager with runningJobs := ["ouedkniss"] }

/-- Two scheduled firings in a row: the first run crashes and its failure cannot be
recorded, the second finds a healthy store. -/
def crashThenRetry : List (Call Nat) :=
  [.executeJob "ouedkniss" crashedRun, .executeJob "ouedkniss" quietRun]

/-- A manual trigger followed by a scheduled firing, all on a healthy store; the
extractor rejects in the second run. -/
def quietCalls : List (Call Nat) :=
  [.triggerJob "ouedkniss" quietRun,
   .updateJobSchedule "ouedkniss" 12 7300000 7300000 none,
   .executeJob "ouedkniss" { quietRun with scraper := .error ⟨"Navigation timeout"⟩ }]

end JobManager

namespace PhoneService

/-- A catalog row with the given id and model, other columns arbitrary. -/
def samplePhone (id : Nat) (model : String) : Phone :=
  { id := id, model := model, brand := "Samsung", category := "smartphone",
    price := none, currency := "DZD", condition := "used", image_url := none,
    source_url := none, marketplace_name := "ouedkniss", listing_count := 1,
    stock_level := some 1, availability_status := some "in_stock", scraped_at := 0,
    created_at := 0, updated_at := 0 }

/-- A similarity table standing in for the library on four stored models. -/
def sampleRatio (_incoming stored : String) : Nat :=
  if stored = "galaxy s21" then 100
  else if stored = "galaxy s21 5g" then 86
  else if stored = "galaxy s20" then 85
  else 84

end PhoneService

namespace BaseScraper

/-- The `brands` array of `extractBrand`, in its order. -/
def brands : List String :=
  [ "Samsung", "Apple", "iPhone", "Huawei", "Xiaomi", "Oppo", "Vivo",
    "OnePlus", "Realme", "Nokia", "Sony", "LG", "Motorola", "Google",
    "Pixel", "Asus", "ZTE", "Honor", "Infinix", "Tecno", "Poco",
    "Redmi", "Galaxy", "Condor" ]

/-- The `for (const brand of brands)` loop of `extractBrand`, with its early return. -/
def extractBrandLoop (toUpperCase : String → String) (titleUpper : String) :
    List String → String
  | [] => "Unknown"
  | brand :: rest =>
    if includes titleUpper (toUpperCase brand) then
      if brand = "iPhone" || brand = "Pixel" then
        if brand = "iPhone" then "Apple" else "Google"
      else brand
    else extractBrandLoop toUpperCase titleUpper rest

/-- `extractBrand(title)`. -/
def extractBrand (toUpperCase : String → String) (title : String) : String :=
  let titleUpper := toUpperCase title
  extractBrandLoop toUpperCase titleUpper brands

/-- An ASCII-only stand-in for the host `toUpperCase`, used to evaluate
`extractBrand` on concrete ASCII titles. -/
def asciiUpperCase (s : String) : String :=
  String.mk (s.toList.map Char.toUpper)

/-- The name reported for an entry of the brand list, as the specification words it:
`iPhone` stands for `Apple` and `Pixel` for `Google`. -/
def brandName (entry : String) : String :=
  if entry = "iPhone" then "Apple" else if entry = "Pixel" then "Google" else entry

/-- Brand detection as the specification words it: the first entry of the list
whose upper-cased form occurs in the upper-cased title, `Unknown` when none does. -/
def firstBrand (toUpperCase : String → String) (entries : List String) (title : String) :
    String :=
  match entries.find? (fun b => includes (toUpperCase title) (toUpperCase b)) with
  | some b => brandName b
  | none => "Unknown"

end BaseScraper

namespace PhoneService

/-! ### The catalog store and its writes -/

/-- The object a scraper emits for one listing (`phoneData`); `none` is
`null`/`undefined`. -/
structure Listing where
  model : String
  brand : String
  category : String
  price : Option ℚ
  currency : String
  condition : String
  image_url : Option String
  source_url : Option String
  marketplace_name : String
  listing_count : Option Nat
  stock_level : Option Int
  availability_status : Option String
  deriving DecidableEq

/-- A row of `price_trends`. -/
structure PriceTrend where
  phone_id : Nat
  marketplace_name : String
  price : ℚ
  recorded_date : Int
  availability_count : Int
  deriving DecidableEq

/-- A row of `phone_populations`. -/
structure Population where
  phone_id : Nat
  marketplace_source : String
  total_listings : Int
  stock_count : Int
  recorded_date : Int
  deriving DecidableEq

/-- A row of `marketplace_stats`. -/
structure MarketplaceStats where
  marketplace_name : String
  total_listings : Int
  last_scraped_at : Int
  deriving DecidableEq

/-- The tables written by `PhoneService`. `nextId` is the `AUTO_INCREMENT` counter
of `phones`; `trendCountDefault` is the column default that a fresh `price_trends`
row gets for `availability_count` (the table declaration is not among the sources,
so the default is left open). -/
structure Store where
  phones : List Phone
  price_trends : List PriceTrend
  phone_populations : List Population
  marketplace_stats : List MarketplaceStats
  nextId : Nat
  trendCountDefault : Int
  deriving DecidableEq

/-- Behaviour of the collaborators during one `createPhone` or `updatePhone`: the
database `NOW()` and `CURDATE()`, and for each of the three writes (listing row,
price-trend row, population row) the error it rejects with, if any. -/
structure WriteEnv where
  now : Int
  today : Int
  rowError : Option JsError
  trendError : Option JsError
  populationError : Option JsError
  deriving DecidableEq

/-- Truthiness of a price as `if (phoneData.price)` reads it: `null` and `0` are falsy. -/
def priceTruthy (price : Option ℚ) : Bool :=
  match price with
  | none => false
  | some p => p != 0

/-- The operand `phoneData.listing_count || 1`. -/
def listingCountOr1 (n : Option Nat) : Nat :=
  match n with
  | none => 1
  | some k => if k = 0 then 1 else k

/-- The operand `phoneData.availability_status || 'in_stock'`. -/
def availabilityOrInStock (s : Option String) : String :=
  match s with
  | none => "in_stock"
  | some t => if t = "" then "in_stock" else t

/-- Modelled from the spec: the unique key of `price_trends`, declared in migration
files that are not among the sources. A price-trend point is unique per
(phone, marketplace, date). -/
def sameTrendKey (phoneId : Nat) (marketplace : String) (date : Int) (t : PriceTrend) : Bool :=
  t.phone_id = phoneId && t.marketplace_name = marketplace && t.recorded_date = date

/-- Modelled from the spec: the unique key of `phone_populations`, declared in
migration files that are not among the sources. A population metric is unique per
(phone, marketplace, date). -/
def samePopulationKey (phoneId : Nat) (marketplace : String) (date : Int)
    (r : Population) : Bool :=
  r.phone_id = phoneId && r.marketplace_source = marketplace && r.recorded_date = date

/-- Modelled from the spec: the unique key of `marketplace_stats`, declared in
migration files that are not among the sources: one rollup row per marketplace. -/
def sameStatsKey (marketplace : String) (r : MarketplaceStats) : Bool :=
  r.marketplace_name = marketplace

/-- The statement of `recordPriceTrend` on the table:
`INSERT ... ON DUPLICATE KEY UPDATE price = ?, availability_count = availability_count + 1`. -/
def upsertPriceTrend (rows : List PriceTrend) (countDefault : Int) (phoneId : Nat)
    (marketplace : String) (price : ℚ) (today : Int) : List PriceTrend :=
  if rows.any (sameTrendKey phoneId marketplace today) then
    rows.map (fun t =>
      if sameTrendKey phoneId marketplace today t then
        { t with price := price, availability_count := t.availability_count + 1 }
      else t)
  else
    rows ++ [{ phone_id := phoneId, marketplace_name := marketplace, price := price,
               recorded_date := today, availability_count := countDefault }]

/-- The statement of `recordPopulationMetrics` on the table:
`INSERT ... ON DUPLICATE KEY UPDATE total_listings = total_listings + ?,
stock_count = stock_count + ?`. -/
def upsertPopulation (rows : List Population) (phoneId : Nat) (marketplace : String)
    (totalListings stockCount : Int) (today : Int) : List Population :=
  if rows.any (samePopulationKey phoneId marketplace today) then
    rows.map (fun r =>
      if samePopulationKey phoneId marketplace today r then
        { r with total_listings := r.total_listings + totalListings,
                 stock_count := r.stock_count + stockCount }
      else r)
  else
    rows ++ [{ phone_id := phoneId, marketplace_source := marketplace,
               total_listings := totalListings, stock_count := stockCount,
               recorded_date := today }]

/-- `recordPriceTrend(phoneId, marketplace, price)`. -/
def recordPriceTrend (db : Store) (phoneId : Nat) (marketplace : String) (price : ℚ)
    (today : Int) (queryError : Option JsError) : Except JsError Unit × Store :=
  match queryError with
  | some e => (.error e, db)
  | none =>
    (.ok (),
      { db with
        price_trends :=
          upsertPriceTrend db.price_trends db.trendCountDefault phoneId marketplace price
            today })

/-- `recordPopulationMetrics(phoneId, marketplace, metrics)`. -/
def recordPopulationMetrics (db : Store) (phoneId : Nat) (marketplace : String)
    (totalListings stockCount : Int) (today : Int) (queryError : Option JsError) :
    Except JsError Unit × Store :=
  match queryError with
  | some e => (.error e, db)
  | none =>
    (.ok (),
      { db with
        phone_populations :=
          upsertPopulation db.phone_populations phoneId marketplace totalListings
            stockCount today })

/-- The tail shared by `createPhone` and `updatePhone`: the price-trend point when
the price is truthy, then the population metric. -/
def recordTrendAndPopulation (db : Store) (phoneId : Nat) (phoneData : Listing)
    (env : WriteEnv) : Except JsError Unit × Store :=
  let afterTrend : Except JsError Unit × Store :=
    if priceTruthy phoneData.price then
      recordPriceTrend db phoneId phoneData.marketplace_name (phoneData.price.getD 0)
        env.today env.trendError
    else (.ok (), db)
  match afterTrend with
  | (.error e, db1) => (.error e, db1)
  | (.ok _, db1) =>
    recordPopulationMetrics db1 phoneId phoneData.marketplace_name 1
      (phoneData.stock_level.getD 0) env.today env.populationError

/-- `createPhone(phoneData)`: returns the `insertId`. -/
def createPhone (db : Store) (phoneData : Listing) (env : WriteEnv) :
    Except JsError Nat × Store :=
  match env.rowError with
  | some e => (.error e, db)
  | none =>
    let insertId := db.nextId
    let row : Phone :=
      { id := insertId, model := phoneData.model, brand := phoneData.brand,
        category := phoneData.category, price := phoneData.price,
        currency := phoneData.currency, condition := phoneData.condition,
        image_url := phoneData.image_url, source_url := phoneData.source_url,
        marketplace_name := phoneData.marketplace_name,
        listing_count := listingCountOr1 phoneData.listing_count,
        stock_level := some (phoneData.stock_level.getD 0),
        availability_status := some (availabilityOrInStock phoneData.availability_status),
        scraped_at := env.now, created_at := env.now, updated_at := env.now }
    let db1 : Store := { db with phones := db.phones ++ [row], nextId := insertId + 1 }
    match recordTrendAndPopulation db1 insertId phoneData env with
    | (.error e, db2) => (.error e, db2)
    | (.ok _, db2) => (.ok insertId, db2)

/-- The row rewritten by the `UPDATE phones SET ... = COALESCE(?, ...)` of `updatePhone`. -/
def mergeRow (p : Phone) (phoneData : Listing) (now : Int) : Phone :=
  { p with
    price := phoneData.price.orElse (fun _ => p.price)
    image_url := phoneData.image_url.orElse (fun _ => p.image_url)
    source_url := phoneData.source_url.orElse (fun _ => p.source_url)
    listing_count := p.listing_count + 1
    stock_level := phoneData.stock_level.orElse (fun _ => p.stock_level)
    availability_status :=
      phoneData.availability_status.orElse (fun _ => p.availability_status)
    scraped_at := now
    updated_at := now }

/-- `updatePhone(phoneId, phoneData)`. -/
def updatePhone (db : Store) (phoneId : Nat) (phoneData : Listing) (env : WriteEnv) :
    Except JsError Unit × Store :=
  match env.rowError with
  | some e => (.error e, db)
  | none =>
    let db1 : Store :=
      { db with
        phones := db.phones.map (fun p =>
          if p.id = phoneId then mergeRow p phoneData env.now else p) }
    recordTrendAndPopulation db1 phoneId phoneData env

end PhoneService

namespace PhoneService

/-- The candidate query of `findSimilarPhone`:
`WHERE brand = ? AND marketplace_name = ? ORDER BY created_at DESC LIMIT 20`.
Rows created at the same instant keep their table order. -/
def candidateRows (db : Store) (brand marketplace : String) : List Phone :=
  ((db.phones.filter (fun p => p.brand = brand && p.marketplace_name = marketplace)).insertionSort
    (fun a b => a.created_at ≥ b.created_at)).take 20

/-- `findSimilarPhone(model, brand, marketplace)` on the store: the candidate query
(which may reject) followed by the fuzzy match. -/
def findSimilarPhoneQuery (ratio : String → String → Nat) (toLowerCase : String → String)
    (db : Store) (model brand marketplace : String) (queryError : Option JsError) :
    Except JsError (Option Phone) :=
  match queryError with
  | some e => .error e
  | none => .ok (findSimilarPhone ratio toLowerCase model (candidateRows db brand marketplace))

/-- Behaviour of the store while one item of a batch is saved: the candidate query
and the writes of the create or update that follows. -/
structure ItemEnv where
  findError : Option JsError
  write : WriteEnv
  deriving DecidableEq

/-- Which counter the `try` block of the batch loop increments. -/
inductive Branch where
  | updated
  | created
  deriving DecidableEq, Repr

/-- The `try` block of the loop of `saveScrapedData` for one item: match, then
update the match or create a new row. -/
def saveItem (ratio : String → String → Nat) (toLowerCase : String → String)
    (db : Store) (phoneData : Listing) (env : ItemEnv) : Except JsError Branch × Store :=
  match findSimilarPhoneQuery ratio toLowerCase db phoneData.model phoneData.brand
      phoneData.marketplace_name env.findError with
  | .error e => (.error e, db)
  | .ok (some existingPhone) =>
    match updatePhone db existingPhone.id phoneData env.write with
    | (.error e, db1) => (.error e, db1)
    | (.ok _, db1) => (.ok .updated, db1)
  | .ok none =>
    match createPhone db phoneData env.write with
    | (.error e, db1) => (.error e, db1)
    | (.ok _, db1) => (.ok .created, db1)

/-- The two counters of `saveScrapedData`, as returned. -/
structure SaveCounts where
  newListings : Nat
  updatedListings : Nat
  deriving DecidableEq, Repr

/-- The `for (const phoneData of phonesData)` loop with its `try`/`catch`: a caught
error is logged and the loop goes on. `envs i` is the store's behaviour during the
item at position `i`. -/
def saveLoop (ratio : String → String → Nat) (toLowerCase : String → String)
    (envs : Nat → ItemEnv) : List Listing → Nat → Store → SaveCounts → SaveCounts × Store
  | [], _, db, counts => (counts, db)
  | phoneData :: rest, i, db, counts =>
    match saveItem ratio toLowerCase db phoneData (envs i) with
    | (.ok .updated, db1) =>
      saveLoop ratio toLowerCase envs rest (i + 1) db1
        { counts with updatedListings := counts.updatedListings + 1 }
    | (.ok .created, db1) =>
      saveLoop ratio toLowerCase envs rest (i + 1) db1
        { counts with newListings := counts.newListings + 1 }
    | (.error _, db1) => saveLoop ratio toLowerCase envs rest (i + 1) db1 counts

/-- `updateMarketplaceStats(marketplace, stats)`. -/
def updateMarketplaceStats (db : Store) (marketplace : String) (totalListings : Int)
    (lastScrapedAt : Int) (queryError : Option JsError) : Except JsError Unit × Store :=
  match queryError with
  | some e => (.error e, db)
  | none =>
    (.ok (),
      { db with
        marketplace_stats :=
          if db.marketplace_stats.any (sameStatsKey marketplace) then
            db.marketplace_stats.map (fun r =>
              if sameStatsKey marketplace r then
                { r with total_listings := r.total_listings + totalListings,
                         last_scraped_at := lastScrapedAt }
              else r)
          else
            db.marketplace_stats ++
              [{ marketplace_name := marketplace, total_listings := totalListings,
                 last_scraped_at := lastScrapedAt }] })

/-- `saveScrapedData(phonesData, marketplace)`: the loop, then the marketplace
rollup (outside any `try`), then the counts. -/
def saveScrapedData (ratio : String → String → Nat) (toLowerCase : String → String)
    (db : Store) (phonesData : List Listing) (marketplace : String) (envs : Nat → ItemEnv)
    (clock : Int) (statsError : Option JsError) : Except JsError SaveCounts × Store :=
  let looped := saveLoop ratio toLowerCase envs phonesData 0 db
    { newListings := 0, updatedListings := 0 }
  let counts := looped.1
  match updateMarketplaceStats looped.2 marketplace
      ((counts.newListings + counts.updatedListings : Nat) : Int) clock statsError with
  | (.error e, db1) => (.error e, db1)
  | (.ok _, db1) => (.ok counts, db1)

/-- The store after the items of a batch have been saved one by one, each against
the store left by the one before it, whether it failed or not. -/
def storeAfterItems (ratio : String → String → Nat) (toLowerCase : String → String)
    (envs : Nat → ItemEnv) : List Listing → Nat → Store → Store
  | [], _, db => db
  | phoneData :: rest, i, db =>
    storeAfterItems ratio toLowerCase envs rest (i + 1)
      (saveItem ratio toLowerCase db phoneData (envs i)).2

/-- What became of one item of a batch. -/
inductive ItemOutcome where
  | created
  | updated
  | failed
  deriving DecidableEq, Repr

/-- The outcome of the `try` block for one item. -/
def outcomeOf (r : Except JsError Branch) : ItemOutcome :=
  match r with
  | .ok .created => .created
  | .ok .updated => .updated
  | .error _ => .failed

/-- The batch seen item by item: each item is matched and saved against the store
left by the items before it, whatever became of them; the list records what became
of each item, in batch order. -/
def itemOutcomes (ratio : String → String → Nat) (toLowerCase : String → String)
    (envs : Nat → ItemEnv) : List Listing → Nat → Store → List (Listing × ItemOutcome)
  | [], _, _ => []
  | phoneData :: rest, i, db =>
    (phoneData, outcomeOf (saveItem ratio toLowerCase db phoneData (envs i)).1) ::
      itemOutcomes ratio toLowerCase envs rest (i + 1)
        (saveItem ratio toLowerCase db phoneData (envs i)).2

end PhoneService

namespace BaseScraper

/-! ### Retry loops -/

/-- What a retry loop did: how many attempts it made and the sleeps it took, in
order, in milliseconds. -/
structure RetryTrace where
  attempts : Nat
  sleeps : List Nat
  deriving DecidableEq, Repr

/-- The `for (let attempt = 1; attempt <= maxRetries; attempt++)` loop of
`makeRequest` and the `throw lastError` after it. `remaining` counts the iterations
left, `attempt` is the loop variable, `axios attempt` is the outcome of the request
made in that iteration. The thrown value is `lastError`, `none` while it is still
`undefined`. -/
def makeRequestLoop {ρ : Type} (maxRetries : Nat) (axios : Nat → Except JsError ρ) :
    Nat → Nat → Option JsError → RetryTrace → Except (Option JsError) ρ × RetryTrace
  | 0, _, lastError, trace => (.error lastError, trace)
  | remaining + 1, attempt, _, trace =>
    match axios attempt with
    | .ok response => (.ok response, { trace with attempts := trace.attempts + 1 })
    | .error error =>
      let trace1 : RetryTrace := { trace with attempts := trace.attempts + 1 }
      let trace2 : RetryTrace :=
        if attempt < maxRetries then
          { trace1 with sleeps := trace1.sleeps ++ [2 ^ attempt * 1000] }
        else trace1
      makeRequestLoop maxRetries axios remaining (attempt + 1) (some error) trace2

/-- `makeRequest(url, options)` with `scraperConfig.maxRetries = maxRetries`. No proxy
is ever selected (`currentProxy` stays `null`), so building the request cannot fail. -/
def makeRequest {ρ : Type} (maxRetries : Nat) (axios : Nat → Except JsError ρ) :
    Except (Option JsError) ρ × RetryTrace :=
  makeRequestLoop maxRetries axios maxRetries 1 none { attempts := 0, sleeps := [] }

/-- The `for (let attempt = 1; attempt <= 3; attempt++)` loop of `initBrowser` and the
`throw` after it. `launch attempt` is the outcome of `puppeteer.launch` in that
iteration; a launched browser is stored in the instance. -/
def launchLoop (launch : Nat → Except JsError Nat) :
    Nat → Nat → Option JsError → Scraper → RetryTrace →
      Except JsError Nat × Scraper × RetryTrace
  | 0, _, lastError, self, trace =>
    (.error ⟨"Failed to launch browser after 3 attempts: " ++
        (lastError.map (fun e => e.message)).getD "undefined"⟩, self, trace)
  | remaining + 1, attempt, _, self, trace =>
    match launch attempt with
    | .ok browser =>
      (.ok browser, { self with browser := some browser },
        { trace with attempts := trace.attempts + 1 })
    | .error error =>
      let trace1 : RetryTrace := { trace with attempts := trace.attempts + 1 }
      let trace2 : RetryTrace :=
        if attempt < 3 then { trace1 with sleeps := trace1.sleeps ++ [2000 * attempt] }
        else trace1
      launchLoop launch remaining (attempt + 1) (some error) self trace2

/-- `initBrowser()`: the stored session if there is one, else up to three launches.
The choice of executable and of launch flags only shapes the options handed to
`puppeteer.launch`. -/
def initBrowser (self : Scraper) (launch : Nat → Except JsError Nat) :
    Except JsError Nat × Scraper × RetryTrace :=
  match self.browser with
  | some browser => (.ok browser, self, { attempts := 0, sleeps := [] })
  | none => launchLoop launch 3 1 none self { attempts := 0, sleeps := [] }

end BaseScraper

/-! ## AIService: the rule-based fallback -/

namespace AIService

/-- The fields of a product record that `fallbackCategorization` reads. `price` is
`parseFloat(product.price)`: `NaN` when the field is missing or does not start with
a number. -/
structure Product where
  model : Option String
  title : Option String
  price : BaseScraper.JsNumber
  category : Option String
  brand : Option String
  deriving DecidableEq

/-- The object returned by `fallbackCategorization`. -/
structure Analysis where
  category : String
  brand : String
  isValidPrice : Bool
  priceReason : String
  cleanedTitle : Option String
  confidence : ℚ
  deriving DecidableEq

/-- The operand `a || b` on strings that may be absent: `a` when it is a non-empty
string, else `b`. -/
def orElseTruthy (a b : Option String) : Option String :=
  match a with
  | some s => if s = "" then b else some s
  | none => b

/-- The operand `parseFloat(product.price) || 0`. -/
def priceOr0 (p : BaseScraper.JsNumber) : ℚ :=
  match p with
  | .nan => 0
  | .finite v => v

/-- Category detection of `fallbackCategorization` on the lower-cased title,
starting from `product.category || 'smartphone'`. -/
def fallbackCategory (title : String) (current : Option String) : String :=
  let category := (orElseTruthy current (some "smartphone")).getD "smartphone"
  if BaseScraper.includes title "écran" || BaseScraper.includes title "screen" ||
      BaseScraper.includes title "display" || BaseScraper.includes title "afficheur" ||
      BaseScraper.includes title "lcd" then "display"
  else if BaseScraper.includes title "laptop" || BaseScraper.includes title "macbook" ||
      BaseScraper.includes title "pc portable" ||
      BaseScraper.includes title "ordinateur" then "laptop"
  else if BaseScraper.includes title "tablet" || BaseScraper.includes title "tablette" ||
      BaseScraper.includes title "ipad" then "tablet"
  else if BaseScraper.includes title "buds" || BaseScraper.includes title "ecouteur" ||
      BaseScraper.includes title "earphone" || BaseScraper.includes title "case" ||
      BaseScraper.includes title "coque" || BaseScraper.includes title "charger" ||
      BaseScraper.includes title "cable" || BaseScraper.includes title "câble" ||
      BaseScraper.includes title "protection" ||
      BaseScraper.includes title "chargeur" then "accessory"
  else category

/-- Price validation of `fallbackCategorization`: the flag and the reason. -/
def fallbackPriceCheck (category : String) (price : ℚ) : Bool × String :=
  if price ≤ 1 ∨ price ≥ 1000000 then
    (false, "Price is unrealistic (too low or too high)")
  else if category = "smartphone" ∧ price < 5000 then
    (false, "Price too low for a smartphone")
  else if category = "tablet" ∧ price < 10000 then
    (false, "Price too low for a tablet")
  else if category = "laptop" ∧ price < 50000 then
    (false, "Price too low for a laptop")
  else (true, "")

/-- The `brands` array of `fallbackCategorization`. -/
def fallbackBrands : List String :=
  [ "samsung", "iphone", "apple", "xiaomi", "oppo", "realme", "tecno",
    "infinix", "huawei", "honor", "nokia", "motorola", "oneplus", "vivo",
    "anker", "boya", "jbl", "sony", "lg", "dell", "hp", "lenovo", "asus" ]

/-- The brand loop of `fallbackCategorization`: the first entry occurring in the
title, with its first letter upper-cased, `iphone` giving `Apple`. -/
def fallbackBrandLoop (toUpperCase : String → String) (title : String) (brand : String) :
    List String → String
  | [] => brand
  | b :: rest =>
    if BaseScraper.includes title b then
      if b = "iphone" then "Apple"
      else toUpperCase (String.mk (b.toList.take 1)) ++ String.mk (b.toList.drop 1)
    else fallbackBrandLoop toUpperCase title brand rest

/-- `fallbackCategorization(product)`. -/
def fallbackCategorization (toLowerCase toUpperCase : String → String)
    (product : Product) : Analysis :=
  let title := toLowerCase ((orElseTruthy product.model
    (orElseTruthy product.title (some ""))).getD "")
  let price := priceOr0 product.price
  let category := fallbackCategory title product.category
  let check := fallbackPriceCheck category price
  let brand := fallbackBrandLoop toUpperCase title
    ((orElseTruthy product.brand (some "Unknown")).getD "Unknown") fallbackBrands
  { category := category
    brand := brand
    isValidPrice := check.1
    priceReason := check.2
    cleanedTitle := orElseTruthy product.model product.title
    confidence := mkRat 7 10 }

end AIService

namespace PhoneService

/-! ### Concrete listings, stores and write environments -/

/-- A listing as the general-search scraper emits it, without an image. -/
def sampleListing : Listing :=
  { model := "Galaxy S21", brand := "Samsung", category := "smartphone",
    price := some 45000, currency := "DZD", condition := "used", image_url := none,
    source_url := some "https://www.ouedkniss.com/annonce/1", marketplace_name := "ouedkniss",
    listing_count := some 1, stock_level := some 1, availability_status := some "in_stock" }

/-- The same listing with no price, as `normalizePrice` leaves a text without a number. -/
def unpricedListing : Listing :=
  { sampleListing with price := none }

/-- The same listing with the price 0, as `normalizePrice` reads `"0 DA"`. -/
def zeroPricedListing : Listing :=
  { sampleListing with price := some 0 }

/-- A store holding one catalog row (id 1) and no time series yet. -/
def sampleStore : Store :=
  { phones := [{ samplePhone 1 "Galaxy S21" with
                 price := some 47000, image_url := some "https://img/1.jpg" }],
    price_trends := [], phone_populations := [], marketplace_stats := [], nextId := 2,
    trendCountDefault := 1 }

/-- A store that accepts every write, on day 20000. -/
def quietWrite : WriteEnv :=
  { now := 1728000000000, today := 20000, rowError := none, trendError := none,
    populationError := none }

/-- A store that rejects the price-trend write. -/
def trendFails : WriteEnv :=
  { quietWrite with trendError := some ⟨"ER_LOCK_DEADLOCK"⟩ }

/-- A store that rejects the population write. -/
def populationFails : WriteEnv :=
  { quietWrite with populationError := some ⟨"ER_LOCK_DEADLOCK"⟩ }

/-- A store that rejects the listing-row write. -/
def rowFails : WriteEnv :=
  { quietWrite with rowError := some ⟨"ER_LOCK_DEADLOCK"⟩ }

end PhoneService

namespace PhoneService

/-- Repeated `updatePhone` saves of one item for one phone, one per environment. -/
def updateRepeatedly (db : Store) (phoneId : Nat) (phoneData : Listing) :
    List WriteEnv → Store
  | [] => db
  | env :: rest =>
    updateRepeatedly (updatePhone db phoneId phoneData env).2 phoneId phoneData rest

/-- A save during which the store accepts all three writes, on the given day. -/
def WriteEnv.acceptsOn (env : WriteEnv) (today : Int) : Prop :=
  env.rowError = none ∧ env.trendError = none ∧ env.populationError = none ∧
  env.today = today

end PhoneService

namespace PhoneService

/-- A batch of three listings for the sample store: one that matches row 1, one new
model, and one more new model. -/
def sampleBatch : List Listing :=
  [ sampleListing,
    { sampleListing with model := "Galaxy A54" },
    { sampleListing with model := "Galaxy Z Flip" } ]

/-- A similarity score for the sample batch: 100 for equal texts, 40 otherwise. -/
def exactRatio (a b : String) : Nat :=
  if a = b then 100 else 40

/-- The store during the sample batch: every query is answered, except that the
listing-row write of the second item (position 1) is rejected. -/
def secondItemFails (i : Nat) : ItemEnv :=
  if i = 1 then { findError := none, write := rowFails }
  else { findError := none, write := quietWrite }

end PhoneService

namespace BaseScraper

/-- A server that fails every request with a numbered error. -/
def alwaysDown (attempt : Nat) : Except JsError String :=
  .error ⟨"ECONNREFUSED #" ++ toString attempt⟩

/-- A server that answers from the third request on. -/
def upAtThird (attempt : Nat) : Except JsError String :=
  if attempt < 3 then .error ⟨"ECONNREFUSED #" ++ toString attempt⟩ else .ok "<html>"

/-- A browser that never launches. -/
def launchNever (attempt : Nat) : Except JsError Nat :=
  .error ⟨"spawn ENOENT #" ++ toString attempt⟩

/-- A scraper instance without a session. -/
def idleScraper : Scraper :=
  { marketplaceName := "jumia", browser := none }

end BaseScraper

namespace AIService

/-- The keyword rules of the fallback classifier as the specification words them:
display > laptop > tablet > accessory, each with the keywords of the source. -/
def fallbackRules : List (String × List String) :=
  [ ("display", ["écran", "screen", "display", "afficheur", "lcd"]),
    ("laptop", ["laptop", "macbook", "pc portable", "ordinateur"]),
    ("tablet", ["tablet", "tablette", "ipad"]),
    ("accessory", ["buds", "ecouteur", "earphone", "case", "coque", "charger", "cable",
                   "câble", "protection", "chargeur"]) ]

/-- The lower-cased title that `fallbackCategorization` reads:
`(product.model || product.title || '').toLowerCase()`. -/
def titleOf (toLowerCase : String → String) (product : Product) : String :=
  toLowerCase ((orElseTruthy product.model (orElseTruthy product.title (some ""))).getD "")

/-- A stored accessory whose title holds none of the keywords. -/
def strapProduct : Product :=
  { model := some "Bracelet Galaxy Watch 4", title := none, price := .finite 2500,
    category := some "accessory", brand := some "Samsung" }

/-- A phone record without a stored category. -/
def phoneProduct : Product :=
  { model := some "Redmi Note 12", title := none, price := .finite 3000,
    category := none, brand := none }

end AIService

namespace BaseScraper

/-- Price normalisation as the specification words it: strip every character except
digits, dot and comma, turn every comma into a dot, and read the longest leading
decimal literal (`null` when there is none). -/
def normalizePriceReference (priceString : Option String) : Option ℚ :=
  match priceString with
  | none => none
  | some s =>
    let stripped := s.toList.filter keepPriceChar
    let dotted := stripped.map (fun c => if c = ',' then '.' else c)
    match parseFloat dotted with
    | .nan => none
    | .finite price => some price

end BaseScraper

namespace BaseScraper

/-- Count of low bits of `M` that do not fit a 53-bit significand: 0 when
`M < 2^53`, else `⌊log₂ M⌋ - 52`. The first argument bounds the halvings. -/
def excessBits : Nat → Nat → Nat
  | 0, _ => 0
  | fuel + 1, M => if M < 2 ^ 53 then 0 else excessBits fuel (M / 2) + 1

/-- Rounding of the host's number type (IEEE 754 binary64, to nearest, ties to even)
on a magnitude counted in units of a fixed power of two not below `2^-1074`, below
the overflow threshold: the nearest magnitude with at most 53 significant bits. -/
def roundBits (M : Nat) : Nat :=
  let s := excessBits M M
  if s = 0 then M
  else
    let q := M / 2 ^ s
    let rem := M % 2 ^ s
    let half := 2 ^ (s - 1)
    if rem < half then q * 2 ^ s
    else if half < rem then (q + 1) * 2 ^ s
    else if q % 2 = 0 then q * 2 ^ s
    else (q + 1) * 2 ^ s

/-- The same rounding on signed values. -/
def roundInt (z : Int) : Int :=
  if 0 ≤ z then (roundBits z.toNat : Int) else -(roundBits (-z).toNat : Int)

/-- `getRandomDelay()`: `Math.floor(Math.random() * (max - min + 1)) + min` in the
host's arithmetic, every operation rounded to a double. `min` and `max` are the
configured bounds, integers that the host's number type holds exactly; the value
drawn by `Math.random()` is the double `m / 2^k` (every double in `[0, 1)` is of this
form with `m < 2^53` and `53 ≤ k ≤ 1074`). The product is counted in units of
`2^-k`, and `Math.floor` is the division by `2^k` rounded down. -/
def getRandomDelay (min max : Int) (m k : Nat) : Int :=
  let span := roundInt (roundInt (max - min) + 1)
  let product := roundInt ((m : Int) * span)
  roundInt (product / ((2 ^ k : Nat) : Int) + min)

end BaseScraper

namespace JobManager

/-- An operator changes the `ouedkniss` interval from the configured 6 hours to 12,
one hour after start; the next scheduled run then completes on a healthy store. -/
def rescheduleThenRun : List (Call Nat) :=
  [.updateJobSchedule "ouedkniss" 12 3600000 3600000 none,
   .executeJob "ouedkniss" quietRun]

/-- The change of interval alone. -/
def rescheduleOnly : List (Call Nat) :=
  [.updateJobSchedule "ouedkniss" 12 3600000 3600000 none]

/-- The expression `scheduleJob(marketplace, hours)` hands to `cron.schedule`. -/
def cronExpression (hours : Nat) : String :=
  "0 */" ++ toString hours ++ " * * *"

/-- The instants the timer registered for `0 */hours * * *` fires at, by the rules
of cron: minute 0 of every hour of the day (0 to 23) that is a multiple of `hours`,
on every day. `t` counts the minutes of local time from a midnight; the zone
`Africa/Algiers` has a fixed offset. -/
def cronFires (hours t : Nat) : Bool :=
  decide (t % 60 = 0 ∧ (t / 60 % 24) % hours = 0)

/-- Two firings `t < t'` of the timer with no firing in between. -/
def consecutiveFirings (hours t t' : Nat) : Prop :=
  cronFires hours t = true ∧ cronFires hours t' = true ∧ t < t' ∧
    ∀ s, t < s → s < t' → cronFires hours s = false

end JobManager

namespace BaseScraper

/-- The array `removeWords` of `cleanModelName`, in its order. -/
def removeWords : List String :=
  ["neuf", "new", "used", "occasion", "comme neuf", "original", "authentic"]

/-- Match of the literal pattern `word` at the head of the text under the flag `i`:
characters are compared up to ASCII letter case (the words are ASCII, and without
the flag `u` no character outside ASCII is folded onto an ASCII character). -/
def matchesIgnoreCase : List Char → List Char → Bool
  | _, [] => true
  | [], _ :: _ => false
  | c :: text, d :: word => c.toLower == d.toLower && matchesIgnoreCase text word

/-- The scan of `text.replace(new RegExp(word, 'gi'), '')` for a non-empty literal
`word`: from left to right, a match at the current position is dropped and the scan
resumes behind it, otherwise the character is kept. `skip` counts the characters of
a match that are still to be dropped. -/
def removeMatches (word : List Char) : Nat → List Char → List Char
  | _, [] => []
  | skip + 1, _ :: cs => removeMatches word skip cs
  | 0, c :: cs =>
    if matchesIgnoreCase (c :: cs) word then removeMatches word (word.length - 1) cs
    else c :: removeMatches word 0 cs

/-- The characters `String.prototype.trim` strips: white space and line terminators. -/
def jsWhiteSpace (c : Char) : Bool :=
  let n := c.toNat
  n == 0x09 || n == 0x0A || n == 0x0B || n == 0x0C || n == 0x0D || n == 0x20 ||
  n == 0xA0 || n == 0x1680 || (0x2000 ≤ n && n ≤ 0x200A) || n == 0x2028 ||
  n == 0x2029 || n == 0x202F || n == 0x205F || n == 0x3000 || n == 0xFEFF

/-- `s.trim()` on characters. -/
def trim (s : List Char) : List Char :=
  (s.dropWhile jsWhiteSpace).rdropWhile jsWhiteSpace

/-- The text after the `forEach` of `cleanModelName` has removed each word in turn. -/
def removeAllWords (words : List String) (title : List Char) : List Char :=
  words.foldl (fun cleaned word => removeMatches word.toList 0 cleaned) title

/-- `cleanModelName(title)` for a string `title`. -/
def cleanModelName (title : String) : String :=
  String.mk (trim (removeAllWords removeWords title.toList))

end BaseScraper

namespace BaseScraper

/-- The object a scraper pushes for one listing: the fields the catalog service
reads, and `location`, which only the general-search scraper sets. -/
structure ScrapedPhone extends PhoneService.Listing where
  location : Option String
  deriving DecidableEq

end BaseScraper

namespace OuedknissScraper

open BaseScraper

/-- An entry of the `items` array that `page.evaluate` returns: the texts read off
one listing element. `image` is `none` when the expression yields `undefined` or
`null`; a missing element gives the empty string for the other fields. -/
structure Item where
  title : String
  price : String
  link : String
  image : Option String
  location : String
  deriving DecidableEq, Repr

/-- The expression `u.startsWith('http') ? u : 'https://www.ouedkniss.com' + u`. -/
def absoluteUrl (u : String) : String :=
  if startsWithChars u.toList "http".toList then u else "https://www.ouedkniss.com" ++ u

/-- The `phone` object built for one item in `items.forEach`. -/
def toPhone (toLowerCase toUpperCase : String → String) (item : Item) : ScrapedPhone :=
  { model := (cleanModelName item.title)
    brand := extractBrand toUpperCase item.title
    category := detectCategory toLowerCase item.title
    price := normalizePrice (some item.price)
    currency := "DZD"
    condition := detectCondition toLowerCase item.title
    image_url :=
      match item.image with
      | none => none
      | some image => if image = "" then none else some (absoluteUrl image)
    source_url := if item.link = "" then none else some (absoluteUrl item.link)
    marketplace_name := "ouedkniss"
    listing_count := some 1
    stock_level := some 1
    availability_status := some "in_stock"
    location := some item.location }

/-- What happens inside the inner `try` for one page number: an awaited call before
the content is read (`goto`, `screenshot`, `content`) rejects; or the content is
read and `evaluate` then rejects; or the page content and the extracted `items`
array are both obtained. -/
inductive PageVisit where
  | failed (error : JsError)
  | failedAfterContent (pageContent : String) (error : JsError)
  | loaded (pageContent : String) (items : List Item)

/-- The test that guards the anti-bot warning. -/
def antiBotSignature (pageContent : String) : Bool :=
  includes pageContent "captcha" || includes pageContent "blocked" ||
    includes pageContent "Access Denied"

/-- The array `phones` together with two observation records: the page numbers
whose iteration was entered, and those for which the anti-bot warning was logged. -/
structure PageTrace where
  phones : List ScrapedPhone
  visited : List Nat
  warnings : List Nat
  deriving DecidableEq

/-- The statement `if (signature) logger.warn(...)`. -/
def noteWarning (pageNum : Nat) (pageContent : String) (tr : PageTrace) : PageTrace :=
  if antiBotSignature pageContent then { tr with warnings := tr.warnings ++ [pageNum] }
  else tr

/-- The `for (pageNum ...)` loop over the page numbers still to come. A rejected
page is logged and the loop goes on (the anti-bot warning is logged first when the
content had been read); a page with no items ends the loop. -/
def pageLoop (process : Item → ScrapedPhone) (visit : Nat → PageVisit) :
    List Nat → PageTrace → PageTrace
  | [], tr => tr
  | pageNum :: rest, tr =>
    let tr0 : PageTrace := { tr with visited := tr.visited ++ [pageNum] }
    match visit pageNum with
    | .failed _ => pageLoop process visit rest tr0
    | .failedAfterContent pageContent _ =>
      pageLoop process visit rest (noteWarning pageNum pageContent tr0)
    | .loaded pageContent items =>
      let tr1 := noteWarning pageNum pageContent tr0
      if items.isEmpty then tr1
      else pageLoop process visit rest { tr1 with phones := tr1.phones ++ items.map process }

/-- The constant `maxPages`. -/
def maxPages : Nat := 5

/-- Behaviour of the browser during one `scrape()`: the error with which the setup
before the loop rejects, if any; the outcome of each page visit; the error with
which the final `page.close()` rejects, if any. -/
structure ScrapeEnv where
  setupError : Option JsError
  visit : Nat → PageVisit
  closeError : Option JsError

/-- `scrape()` of the general-search scraper: the outcome and the trace of the loop. -/
def scrape (toLowerCase toUpperCase : String → String) (env : ScrapeEnv) :
    Except JsError (List ScrapedPhone) × PageTrace :=
  match env.setupError with
  | some e => (.error e, { phones := [], visited := [], warnings := [] })
  | none =>
    let tr := pageLoop (toPhone toLowerCase toUpperCase) env.visit (List.range' 1 maxPages)
      { phones := [], visited := [], warnings := [] }
    match env.closeError with
    | some e => (.error e, tr)
    | none => (.ok tr.phones, tr)

/-- The items of a page visit; none for a rejected one. -/
def PageVisit.items : PageVisit → List Item
  | .failed _ => []
  | .failedAfterContent _ _ => []
  | .loaded _ items => items

/-- Whether the anti-bot warning is logged for a page visit. -/
def PageVisit.flagged : PageVisit → Bool
  | .failed _ => false
  | .failedAfterContent pageContent _ => antiBotSignature pageContent
  | .loaded pageContent _ => antiBotSignature pageContent

/-- Whether a page visit ends the loop: the page loaded and `items` is empty. -/
def PageVisit.stops : PageVisit → Bool
  | .failed _ => false
  | .failedAfterContent _ _ => false
  | .loaded _ items => items.isEmpty

/-- The same page visits with every page content that was read replaced. -/
def withContent (content : Nat → String) (visit : Nat → PageVisit) : Nat → PageVisit :=
  fun pageNum =>
    match visit pageNum with
    | .failed e => .failed e
    | .failedAfterContent _ e => .failedAfterContent (content pageNum) e
    | .loaded _ items => .loaded (content pageNum) items

/-! ### Concrete page visits -/

/-- A listing element of the search page. -/
def galaxyItem : Item :=
  { title := "Samsung Galaxy S21 neuf", price := "45 000 DA", link := "/annonce/1",
    image := none, location := "Alger" }

/-- Another listing element. -/
def redmiItem : Item :=
  { title := "Redmi Note 9", price := "23,5", link := "https://www.ouedkniss.com/annonce/2",
    image := some "/img/2.jpg", location := "Oran" }

/-- Pages 1 and 2 carry one listing each, page 3 none, page 4 one again. -/
def threePages : ScrapeEnv :=
  { setupError := none
    visit := fun pageNum =>
      if pageNum = 1 then .loaded "<html>1</html>" [galaxyItem]
      else if pageNum = 2 then .loaded "<html>2</html>" [redmiItem]
      else if pageNum = 3 then .loaded "<html>3</html>" []
      else .loaded "<html>4</html>" [galaxyItem]
    closeError := none }

/-- Page 1 shows a block notice and its extraction rejects, page 2 carries one
listing, page 3 rejects before its content is read, page 4 is empty. -/
def blockedThenOpen : ScrapeEnv :=
  { setupError := none
    visit := fun pageNum =>
      if pageNum = 1 then
        .failedAfterContent "<html>Access Denied</html>" ⟨"Execution context was destroyed"⟩
      else if pageNum = 2 then .loaded "<html>2</html>" [redmiItem]
      else if pageNum = 3 then .failed ⟨"Navigation timeout"⟩
      else .loaded "<html></html>" []
    closeError := none }

/-- Page 1 shows a captcha notice beside one listing, page 2 is empty. -/
def captchaFirstPage : ScrapeEnv :=
  { setupError := none
    visit := fun pageNum =>
      if pageNum = 1 then .loaded "<html>Please solve the captcha</html>" [galaxyItem]
      else .loaded "<html></html>" []
    closeError := none }

end OuedknissScraper

namespace FacebookScraper

open BaseScraper

/-- An entry of the array the first `page.evaluate` of a scroll returns. `price`
and `image` are `none` for `null`. -/
structure Item where
  title : String
  price : Option String
  link : String
  image : Option String
  deriving DecidableEq, Repr

/-- The `phone` object built for one new item in `newPhones.forEach`. -/
def toPhone (toLowerCase toUpperCase : String → String) (item : Item) : ScrapedPhone :=
  { model := (cleanModelName item.title)
    brand := extractBrand toUpperCase item.title
    category := detectCategory toLowerCase item.title
    price := normalizePrice item.price
    currency := "DZD"
    condition := detectCondition toLowerCase item.title
    image_url := item.image
    source_url := some item.link
    marketplace_name := "facebook"
    listing_count := some 1
    stock_level := some 1
    availability_status := some "in_stock"
    location := none }

/-- The body of `newPhones.forEach`: an item whose link is the `source_url` of a
phone already collected is skipped, any other is processed and pushed. -/
def addNew (process : Item → ScrapedPhone) (phones : List ScrapedPhone)
    (newPhones : List Item) : List ScrapedPhone :=
  newPhones.foldl
    (fun acc item =>
      if acc.any (fun p => p.source_url == some item.link) then acc
      else acc ++ [process item])
    phones

/-- Observation record of the scroll loop: the number of iterations entered and
every item extracted, in extraction order. -/
structure ScrollTrace where
  iterations : Nat
  seen : List Item
  deriving DecidableEq, Repr

/-- The `while (scrollCount < maxScrolls)` loop; `fuel` is `maxScrolls - scrollCount`.
`scroll i` is what the two `page.evaluate` calls of the iteration with
`scrollCount = i` give: the items extracted and the page height after scrolling, or
the error with which one of them rejects. -/
def scrollLoop (process : Item → ScrapedPhone)
    (scroll : Nat → Except JsError (List Item × Nat)) :
    Nat → Nat → Nat → List ScrapedPhone → ScrollTrace →
      Except JsError (List ScrapedPhone) × ScrollTrace
  | 0, _, _, phones, tr => (.ok phones, tr)
  | fuel + 1, scrollCount, previousHeight, phones, tr =>
    match scroll scrollCount with
    | .error e => (.error e, { tr with iterations := tr.iterations + 1 })
    | .ok (newPhones, currentHeight) =>
      let phones1 := addNew process phones newPhones
      let tr1 : ScrollTrace :=
        { iterations := tr.iterations + 1, seen := tr.seen ++ newPhones }
      if currentHeight = previousHeight then (.ok phones1, tr1)
      else scrollLoop process scroll fuel (scrollCount + 1) currentHeight phones1 tr1

/-- The constant `maxScrolls`. -/
def maxScrolls : Nat := 20

/-- Behaviour of the browser during one `scrape()`: the error with which the setup
and navigation before the loop reject, if any; the outcome of each scroll; the
error with which the final `page.close()` rejects, if any. -/
structure ScrapeEnv where
  setupError : Option JsError
  scroll : Nat → Except JsError (List Item × Nat)
  closeError : Option JsError

/-- `scrape()` of the infinite-scroll scraper: the outcome and the trace of the loop. -/
def scrape (toLowerCase toUpperCase : String → String) (env : ScrapeEnv) :
    Except JsError (List ScrapedPhone) × ScrollTrace :=
  match env.setupError with
  | some e => (.error e, { iterations := 0, seen := [] })
  | none =>
    match scrollLoop (toPhone toLowerCase toUpperCase) env.scroll maxScrolls 0 0 []
        { iterations := 0, seen := [] } with
    | (.error e, tr) => (.error e, tr)
    | (.ok phones, tr) =>
      match env.closeError with
      | some e => (.error e, tr)
      | none => (.ok phones, tr)

/-- Deduplication as the specification words it: of the items extracted, the first
with each link is kept, in extraction order. -/
def keepFirstByLink : List Item → List Item
  | [] => []
  | item :: rest => item :: (keepFirstByLink rest).filter (fun later => later.link != item.link)

/-! ### Concrete scrolls -/

/-- A listing of the marketplace feed. -/
def pixelItem : Item :=
  { title := "Google Pixel 6", price := some "60000 DA",
    link := "https://www.facebook.com/marketplace/item/1", image := none }

/-- The same listing, re-extracted later under another title. -/
def pixelItemAgain : Item :=
  { pixelItem with title := "Pixel 6 used" }

/-- Another listing. -/
def nokiaItem : Item :=
  { title := "Nokia 3310", price := none,
    link := "https://www.facebook.com/marketplace/item/2", image := none }

/-- Two scrolls: the second extraction repeats the first listing and adds one; the
page height stops growing at the second scroll. -/
def twoScrolls : ScrapeEnv :=
  { setupError := none
    scroll := fun i =>
      if i = 0 then .ok ([pixelItem], 1000)
      else .ok ([pixelItemAgain, nokiaItem, nokiaItem], 1000)
    closeError := none }

/-- A feed that grows at every scroll and always shows the same listing. -/
def endlessFeed : ScrapeEnv :=
  { setupError := none
    scroll := fun i => .ok ([pixelItem], 1000 * (i + 1))
    closeError := none }

end FacebookScraper

namespace AIService

/-- A JSON value as far as the analysis object is concerned; the contents of arrays
and nested objects are not read. -/
inductive JsonValue where
  | null
  | bool (b : Bool)
  | number (value : ℚ)
  | string (s : String)
  | array
  | object
  deriving DecidableEq

/-- The six properties of the object `JSON.parse` returns for the AI reply; `none`
is a property the reply does not have (`undefined`). -/
structure AiAnalysis where
  category : Option JsonValue
  brand : Option JsonValue
  isValidPrice : Option JsonValue
  priceReason : Option JsonValue
  cleanedTitle : Option JsonValue
  confidence : Option JsonValue
  deriving DecidableEq

/-- The array `validCategories` of `analyzeProduct`. -/
def validCategories : List String :=
  ["smartphone", "tablet", "feature_phone", "accessory", "display", "laptop", "other"]

/-- The match of `/\{[\s\S]*\}/` in a text: from the first opening brace to the last
closing brace behind it. -/
def jsonSpan (aiResponse : List Char) : Option (List Char) :=
  match aiResponse.dropWhile (fun c => c != '\x7b') with
  | [] => none
  | open_ :: rest =>
    let body := rest.rdropWhile (fun c => c != '\x7d')
    if body.isEmpty then none else some (open_ :: body)

/-- Behaviour of the AI collaborator and of `JSON.parse` during one call: the status
of `GET /api/tags` or the error it rejects with; for a product, the text
`response.data.response` of `POST /api/generate` (`none` when it is not a string) or
the error the request rejects with; the object `JSON.parse` returns for a text, or
the error it throws. -/
structure AiEnv where
  tags : Except JsError Nat
  generate : Product → Except JsError (Option String)
  jsonParse : String → Except JsError AiAnalysis

/-- `checkOllamaAvailability()`. -/
def checkOllamaAvailability (env : AiEnv) : Bool :=
  match env.tags with
  | .ok status => status == 200
  | .error _ => false

/-- The statement `if (!validCategories.includes(analysis.category))
analysis.category = 'other'`. -/
def validateCategory (analysis : AiAnalysis) : AiAnalysis :=
  match analysis.category with
  | some (.string c) =>
    if validCategories.contains c then analysis
    else { analysis with category := some (.string "other") }
  | _ => { analysis with category := some (.string "other") }

/-- `analyzeProduct(product)`; `none` is `null`. Every exception inside the `try` is
caught: a rejected request, a reply that is not a string, a text `JSON.parse` throws on. -/
def analyzeProduct (env : AiEnv) (product : Product) : Option AiAnalysis :=
  match env.generate product with
  | .error _ => none
  | .ok none => none
  | .ok (some aiResponse) =>
    match jsonSpan aiResponse.toList with
    | none => none
    | some jsonMatch =>
      match env.jsonParse (String.mk jsonMatch) with
      | .error _ => none
      | .ok analysis => some (validateCategory analysis)

/-- What `analyzeWithFallback` returns: the object of the AI, or the object built by
`fallbackCategorization`. -/
inductive AnalysisResult where
  | ai (analysis : AiAnalysis)
  | rules (analysis : Analysis)
  deriving DecidableEq

/-- `analyzeWithFallback(product)`. An object is truthy, so every non-null AI
analysis is returned. -/
def analyzeWithFallback (toLowerCase toUpperCase : String → String) (env : AiEnv)
    (product : Product) : AnalysisResult :=
  if checkOllamaAvailability env then
    match analyzeProduct env product with
    | some aiAnalysis => .ai aiAnalysis
    | none => .rules (fallbackCategorization toLowerCase toUpperCase product)
  else .rules (fallbackCategorization toLowerCase toUpperCase product)

/-- Whether all six fields `category`, `brand`, `isValidPrice`, `priceReason`,
`cleanedTitle`, `confidence` of a result are defined. In the object of
`fallbackCategorization` only `cleanedTitle` can be `undefined`. -/
def AnalysisResult.populated : AnalysisResult → Bool
  | .ai a =>
    a.category.isSome && a.brand.isSome && a.isValidPrice.isSome && a.priceReason.isSome &&
      a.cleanedTitle.isSome && a.confidence.isSome
  | .rules r => r.cleanedTitle.isSome

/-! ### Concrete AI behaviours -/

/-- A `JSON.parse` stand-in that knows one text. -/
def parseTabletOnly (text : String) : Except JsError AiAnalysis :=
  if text = "\x7b\"category\": \"tablet\"\x7d" then
    .ok { category := some (.string "tablet"), brand := none, isValidPrice := none,
          priceReason := none, cleanedTitle := none, confidence := none }
  else .error ⟨"Unexpected token"⟩

/-- The AI is reachable and answers with an object that has a category only. -/
def terseAi : AiEnv :=
  { tags := .ok 200
    generate := fun _ => .ok (some "Here you are: \x7b\"category\": \"tablet\"\x7d.")
    jsonParse := parseTabletOnly }

/-- The AI is unreachable. -/
def unreachableAi : AiEnv :=
  { tags := .error ⟨"ECONNREFUSED"⟩
    generate := fun _ => .error ⟨"ECONNREFUSED"⟩
    jsonParse := parseTabletOnly }

/-- The AI is reachable and answers with prose. -/
def chattyAi : AiEnv :=
  { terseAi with generate := fun _ => .ok (some "I cannot tell.") }

/-- A record with neither a model nor a title. -/
def untitledProduct : Product :=
  { model := none, title := none, price := .finite 45000, category := none, brand := none }

end AIService

namespace BaseScraper

/-- The scan of `removeMatches` on characters that carry a tag; `key` reads the
character of an entry. The entries kept are the entries of the characters kept. -/
def removeMatchesOn {α : Type} (key : α → Char) (word : List Char) :
    Nat → List α → List α
  | _, [] => []
  | skip + 1, _ :: cs => removeMatchesOn key word skip cs
  | 0, c :: cs =>
    if matchesIgnoreCase ((c :: cs).map key) word then
      removeMatchesOn key word (word.length - 1) cs
    else c :: removeMatchesOn key word 0 cs

/-- The characters of the title that make up the returned model name, each with its
position in the title: the passes and the trim of `cleanModelName`, run on the title
with every character tagged by its index. -/
def cleanTrace (title : String) : List (Nat × Char) :=
  ((removeWords.foldl (fun cleaned word => removeMatchesOn Prod.snd word.toList 0 cleaned)
      title.toList.enum).dropWhile (fun x => jsWhiteSpace x.2)).rdropWhile
    (fun x => jsWhiteSpace x.2)

end BaseScraper

/-! # Theorems -/

namespace BaseScraper

/-- When `closeBrowser` does not reject, `run` returns a result object: its
success flag tells whether `scrape` returned, it carries the marketplace name, and
it has the data on success and the error message on failure. -/
theorem run_ok_of_closeBrowser_ok {α : Type} (self : Scraper) (startTime endTime : Int)
    (scrape : Scraper → Except JsError (List α) × Scraper) (closeError : Option JsError)
    (hclose : (scrape self).2.browser = none ∨ closeError = none) :
    ∃ result, (run self startTime endTime scrape closeError).1 = .ok result ∧
      result.marketplace = (scrape self).2.marketplaceName ∧
      (∀ items, (scrape self).1 = .ok items →
        result.success = true ∧ result.data = some items ∧ result.error = none) ∧
      (∀ e, (scrape self).1 = .error e →
        result.success = false ∧ result.data = none ∧ result.error = some e.message) := by
  unfold run closeBrowser
  rcases h : scrape self with ⟨outcome, self1⟩
  rw [h] at hclose
  simp only at hclose ⊢
  cases hb : self1.browser with
  | none => cases outcome <;> simp
  | some b =>
    rcases hclose with hclose | hclose
    · simp [hb] at hclose
    · subst hclose
      cases outcome <;> simp

/-- When a session is open after `scrape` and `browser.close()` rejects, `run`
rejects with that error, whatever `scrape` did. -/
theorem run_error_of_closeBrowser_error {α : Type} (self : Scraper)
    (startTime endTime : Int) (scrape : Scraper → Except JsError (List α) × Scraper)
    (e : JsError) (b : Nat) (hopen : (scrape self).2.browser = some b) :
    (run self startTime endTime scrape (some e)).1 = .error e := by
  unfold run closeBrowser
  simp [hopen]

/-- C1, evaluated at the failing input: `scrape` opens a session and returns two
items, then `browser.close()` rejects. `run` does not return a result object: it
rejects with the error of `closeBrowser`, and the scraped data is lost. -/
theorem run_rejects_when_closeBrowser_rejects :
    (run (α := Nat) { marketplaceName := "jumia", browser := none } 0 5000
        (fun s => (.ok [1, 2], { s with browser := some 1 }))
        (some ⟨"Protocol error: Target closed"⟩)).1
      = .error ⟨"Protocol error: Target closed"⟩ := by
  rfl

end BaseScraper

namespace JobManager

/-! ### The running set is touched only at the ends of `executeJob` -/

theorem updateJobStatus_runningJobs (w : Manager) (m : String) (s : JobStatus)
    (msg : Option String) (dbNow : Int) (err : Option JsError) :
    (updateJobStatus w m s msg dbNow err).2.runningJobs = w.runningJobs := by
  unfold updateJobStatus
  cases err <;> rfl

theorem logJob_runningJobs (w : Manager) (m : String) (s : JobStatus) (items duration : Int)
    (msg : Option String) (env : CompletionEnv) :
    (logJob w m s items duration msg env).2.runningJobs = w.runningJobs := by
  unfold logJob getJobRecord
  cases env.selectError with
  | some e => rfl
  | none =>
    simp only
    cases w.scraping_jobs.find? (fun r => r.marketplace_name = m) with
    | none => rfl
    | some r => cases env.insertError <;> rfl

theorem updateJobCompletion_runningJobs (config : Config) (w : Manager) (m : String)
    (s : JobStatus) (items duration : Int) (msg : Option String) (env : CompletionEnv) :
    (updateJobCompletion config w m s items duration msg env).2.runningJobs
      = w.runningJobs := by
  unfold updateJobCompletion
  cases config m with
  | none => rfl
  | some cfg =>
    cases env.updateError with
    | some e => rfl
    | none => simp only [logJob_runningJobs]; rfl

theorem executeJobBody_runningJobs {α : Type} (config : Config) (w : Manager) (m : String)
    (env : RunEnv α) :
    (executeJobBody config w m env).2.runningJobs = w.runningJobs := by
  unfold executeJobBody
  have h1 := updateJobStatus_runningJobs w m .running none env.statusDbNow env.statusError
  rcases hs : updateJobStatus w m .running none env.statusDbNow env.statusError with ⟨r1, w1⟩
  rw [hs] at h1
  cases r1 with
  | error e => exact h1
  | ok u =>
    unfold callRunScraper
    cases env.scraper with
    | error e => exact h1
    | ok result =>
      simp only [updateJobCompletion_runningJobs]
      exact h1

/-- The running set after a run that passed the guard: the entry set, with the
marketplace added and then deleted. -/
theorem executeJob_runningJobs {α : Type} (config : Config) (w : Manager) (m : String)
    (env : RunEnv α) (h : w.runningJobs.contains m = false) :
    (executeJob config w m env).2.runningJobs
      = setDelete (setAdd w.runningJobs m) m := by
  unfold executeJob
  rw [if_neg (by rw [h]; exact Bool.false_ne_true)]
  simp only
  have hb := executeJobBody_runningJobs config
    { w with runningJobs := setAdd w.runningJobs m } m env
  rcases hbody : executeJobBody config
    { w with runningJobs := setAdd w.runningJobs m } m env with ⟨r, w1⟩
  rw [hbody] at hb
  cases r with
  | ok u => simp only; rw [hb]
  | error e => simp only [updateJobCompletion_runningJobs]; rw [hb]

/-- C2. Single-flight guard: when the marketplace is in the running set,
`executeJob` returns at once and the whole scheduler state is unchanged: the
extractor is not invoked, no status or log row is written, the running set is the
same. `triggerJob` leaves the state unchanged as well, and returns normally for
every configured marketplace. -/
theorem executeJob_skips_when_running {α : Type} (config : Config) (w : Manager)
    (m : String) (env : RunEnv α) (h : m ∈ w.runningJobs) :
    executeJob config w m env = (.ok (), w) ∧
    (triggerJob config w m env).2 = w ∧
    (config m ≠ none → triggerJob config w m env = (.ok (), w)) := by
  have hc : w.runningJobs.contains m = true := by simpa using h
  have he : executeJob config w m env = (.ok (), w) := by
    unfold executeJob
    rw [if_pos hc]
  refine ⟨he, ?_, ?_⟩
  · unfold triggerJob
    cases config m with
    | none => rfl
    | some c => simp only [he]
  · intro hcfg
    unfold triggerJob
    cases hm : config m with
    | none => exact absurd hm hcfg
    | some c => simp only [he]

/-- Witness for C2: a second `ouedkniss` trigger while a run is in flight. -/
theorem executeJob_skips_when_running_witness :
    "ouedkniss" ∈ busyManager.runningJobs ∧
    executeJob defaultConfig busyManager "ouedkniss" quietRun = (.ok (), busyManager) ∧
    (triggerJob defaultConfig busyManager "ouedkniss" quietRun).2 = busyManager ∧
    (defaultConfig "ouedkniss" ≠ none →
      triggerJob defaultConfig busyManager "ouedkniss" quietRun = (.ok (), busyManager)) :=
  ⟨by decide,
   executeJob_skips_when_running defaultConfig busyManager "ouedkniss" quietRun (by decide)⟩

/-- C3. For a marketplace that is not in the running set, after `executeJob` has
finished, on every path (whatever the extractor and each persistence query do,
and whether `executeJob` returns or rejects), the marketplace is not in the
running set and the membership of every other marketplace is as before. -/
theorem executeJob_releases_guard {α : Type} (config : Config) (w : Manager) (m : String)
    (env : RunEnv α) (h : m ∉ w.runningJobs) :
    m ∉ (executeJob config w m env).2.runningJobs ∧
    ∀ other, other ≠ m →
      (other ∈ (executeJob config w m env).2.runningJobs ↔ other ∈ w.runningJobs) := by
  have hc : w.runningJobs.contains m = false := by simpa using h
  rw [executeJob_runningJobs config w m env hc]
  unfold setDelete setAdd
  rw [if_neg (by rw [hc]; exact Bool.false_ne_true)]
  constructor
  · simp
  · intro other hne
    simp [hne]

/-- Witness for C3: a run whose extractor rejects and whose failure record cannot
be written still releases the guard. -/
theorem executeJob_releases_guard_witness :
    "ouedkniss" ∉ freshManager.runningJobs ∧
    "ouedkniss" ∉ (executeJob defaultConfig freshManager "ouedkniss" crashedRun).2.runningJobs ∧
    ∀ other, other ≠ "ouedkniss" →
      (other ∈ (executeJob defaultConfig freshManager "ouedkniss" crashedRun).2.runningJobs ↔
        other ∈ freshManager.runningJobs) :=
  ⟨by decide,
   executeJob_releases_guard defaultConfig freshManager "ouedkniss" crashedRun (by decide)⟩

/-- C5, evaluated at the failing input: the extractor rejects and, in the `catch`
block, the `UPDATE` of `updateJobCompletion` rejects too. `executeJob` does not
complete normally: it rejects with the store error, and the persisted status of
the job stays `running` instead of reporting the failed run. -/
theorem executeJob_rejects_when_recording_fails :
    (executeJob defaultConfig freshManager "ouedkniss" crashedRun).1
      = .error ⟨"ECONNRESET"⟩ ∧
    persistedStatuses (executeJob defaultConfig freshManager "ouedkniss" crashedRun).2
      "ouedkniss" = [.running] :=
  ⟨rfl, by decide⟩

/-- A second way past the boundary, with no failing collaborator: `facebook` is
configured but disabled, so `initializeJobs` created no row for it; a manual trigger
then makes `logJob` read `job_id` off `null`, in the `try` block and again in the
`catch` block, and `triggerJob` rejects after the extractor has run. -/
theorem triggerJob_rejects_without_job_row :
    (triggerJob defaultConfig freshManager "facebook" facebookRun).1
      = .error ⟨"Cannot read properties of null (reading job_id)"⟩ ∧
    (triggerJob defaultConfig freshManager "facebook" facebookRun).2.extractorCalls
      = ["facebook"] ∧
    (triggerJob defaultConfig freshManager "facebook" facebookRun).2.scraping_logs = [] :=
  ⟨rfl, by decide, by decide⟩

/-! ### Status writes of a run whose store is healthy -/

theorem mem_statusesOf {rows : List JobRecord} {m : String} {x : JobStatus} :
    x ∈ statusesOf rows m ↔ ∃ r ∈ rows, r.marketplace_name = m ∧ r.status = x := by
  unfold statusesOf
  simp only [List.mem_map, List.mem_filter, decide_eq_true_eq]
  constructor
  · rintro ⟨r, ⟨hr, hm⟩, hx⟩
    exact ⟨r, hr, hm, hx⟩
  · rintro ⟨r, hr, hm, hx⟩
    exact ⟨r, ⟨hr, hm⟩, hx⟩

theorem mem_updateWhere {rows : List JobRecord} {m : String}
    {assign : JobRecord → JobRecord} {r : JobRecord} :
    r ∈ updateWhere rows m assign ↔
      ∃ r0 ∈ rows, r = if r0.marketplace_name = m then assign r0 else r0 := by
  unfold updateWhere
  simp only [List.mem_map]
  constructor
  · rintro ⟨r0, h0, rfl⟩
    exact ⟨r0, h0, rfl⟩
  · rintro ⟨r0, h0, rfl⟩
    exact ⟨r0, h0, rfl⟩

/-- After a status `UPDATE` for a marketplace, each of its rows holds the new status. -/
theorem statusesOf_updateWhere_same (rows : List JobRecord) (m : String)
    (assign : JobRecord → JobRecord) (s : JobStatus)
    (hstatus : ∀ r, (assign r).status = s) :
    ∀ x ∈ statusesOf (updateWhere rows m assign) m, x = s := by
  intro x hx
  obtain ⟨r, hr, hm, rfl⟩ := mem_statusesOf.mp hx
  obtain ⟨r0, _, rfl⟩ := mem_updateWhere.mp hr
  by_cases h0 : r0.marketplace_name = m
  · simp only [h0, if_true]
    exact hstatus r0
  · simp only [h0, if_false] at hm

/-- A row that is `running` after a status `UPDATE` for `m` either belongs to `m`
or was `running` before, unchanged. -/
theorem running_after_updateWhere (rows : List JobRecord) (m : String)
    (assign : JobRecord → JobRecord)
    (hname : ∀ r, (assign r).marketplace_name = r.marketplace_name)
    (r : JobRecord) (hr : r ∈ updateWhere rows m assign) :
    r.marketplace_name = m ∨ r ∈ rows := by
  obtain ⟨r0, h0, rfl⟩ := mem_updateWhere.mp hr
  by_cases hm : r0.marketplace_name = m
  · left
    simp only [hm, if_true]
    rw [hname, hm]
  · right
    simpa only [hm, if_false] using h0

theorem statusesOf_eq_nil_of_find_none (rows : List JobRecord) (m : String)
    (h : rows.find? (fun r => decide (r.marketplace_name = m)) = none) :
    statusesOf rows m = [] := by
  unfold statusesOf
  rw [List.map_eq_nil_iff, List.filter_eq_nil_iff]
  intro r hr hm
  have := List.find?_eq_none.mp h r hr
  exact this hm

theorem statusDiscipline_append (w : Manager) (m : String) (s : JobStatus)
    (assign : JobRecord → JobRecord) :
    statusDiscipline (applyStatusUpdate w m s assign) = true ↔
      statusDiscipline w = true ∧ ∀ x ∈ persistedStatuses w m, legalMove x s = true := by
  unfold statusDiscipline applyStatusUpdate
  simp [List.all_append]

/-- A status write keeps the discipline and the guard relation when it is a legal
move for every row it finds and `running` is written only under the guard. -/
theorem applyStatusUpdate_keeps (w : Manager) (m : String) (s : JobStatus)
    (assign : JobRecord → JobRecord)
    (hname : ∀ r, (assign r).marketplace_name = r.marketplace_name)
    (hstatus : ∀ r, (assign r).status = s)
    (hd : statusDiscipline w = true) (hg : Guarded w)
    (hlegal : ∀ x ∈ persistedStatuses w m, legalMove x s = true)
    (hrun : m ∈ w.runningJobs) :
    statusDiscipline (applyStatusUpdate w m s assign) = true ∧
    Guarded (applyStatusUpdate w m s assign) ∧
    (applyStatusUpdate w m s assign).runningJobs = w.runningJobs ∧
    ∀ x ∈ persistedStatuses (applyStatusUpdate w m s assign) m, x = s := by
  refine ⟨(statusDiscipline_append w m s assign).mpr ⟨hd, hlegal⟩, ?_, rfl, ?_⟩
  · intro r hr hst
    rcases running_after_updateWhere w.scraping_jobs m assign hname r hr with h | h
    · rw [h]; exact hrun
    · exact hg r h hst
  · exact statusesOf_updateWhere_same w.scraping_jobs m assign s hstatus

/-- The three facts about a state that the status discipline depends on. -/
theorem logJob_frame (w : Manager) (m : String) (s : JobStatus) (items duration : Int)
    (msg : Option String) (env : CompletionEnv) :
    (logJob w m s items duration msg env).2.scraping_jobs = w.scraping_jobs ∧
    (logJob w m s items duration msg env).2.statusWrites = w.statusWrites ∧
    (logJob w m s items duration msg env).2.runningJobs = w.runningJobs := by
  unfold logJob getJobRecord
  cases env.selectError with
  | some e => exact ⟨rfl, rfl, rfl⟩
  | none =>
    simp only
    cases w.scraping_jobs.find? (fun r => r.marketplace_name = m) with
    | none => exact ⟨rfl, rfl, rfl⟩
    | some r => cases env.insertError <;> exact ⟨rfl, rfl, rfl⟩

/-- With a healthy store `logJob` rejects only when the marketplace has no row. -/
theorem logJob_error_healthy (w : Manager) (m : String) (s : JobStatus)
    (items duration : Int) (msg : Option String) (env : CompletionEnv)
    (hs : env.selectError = none) (hi : env.insertError = none) (e : JsError)
    (he : (logJob w m s items duration msg env).1 = .error e) :
    persistedStatuses w m = [] := by
  unfold logJob getJobRecord at he
  rw [hs, hi] at he
  simp only at he
  cases hf : w.scraping_jobs.find? (fun r => decide (r.marketplace_name = m)) with
  | none => exact statusesOf_eq_nil_of_find_none w.scraping_jobs m hf
  | some r =>
    rw [hf] at he
    simp at he

theorem statusDiscipline_congr {w w' : Manager} (h : w'.statusWrites = w.statusWrites) :
    statusDiscipline w' = statusDiscipline w := by
  unfold statusDiscipline
  rw [h]

theorem Guarded_congr {w w' : Manager} (hj : w'.scraping_jobs = w.scraping_jobs)
    (hr : w'.runningJobs = w.runningJobs) (hg : Guarded w) : Guarded w' := by
  unfold Guarded at *
  rw [hj, hr]
  exact hg

/-- A completion call whose `UPDATE` is applied, for a configured marketplace that
holds the guard: the write is recorded and each row of the marketplace holds the
new status, whatever the log queries do. -/
theorem updateJobCompletion_recorded (config : Config) (w : Manager) (m : String)
    (s : JobStatus) (items duration : Int) (msg : Option String) (env : CompletionEnv)
    (hcfg : config m ≠ none) (hu : env.updateError = none)
    (hd : statusDiscipline w = true) (hg : Guarded w)
    (hlegal : ∀ x ∈ persistedStatuses w m, legalMove x s = true)
    (hrun : m ∈ w.runningJobs) :
    statusDiscipline (updateJobCompletion config w m s items duration msg env).2 = true ∧
    Guarded (updateJobCompletion config w m s items duration msg env).2 ∧
    (∀ x ∈ persistedStatuses (updateJobCompletion config w m s items duration msg env).2 m,
      x = s) := by
  unfold updateJobCompletion
  cases hc : config m with
  | none => exact absurd hc hcfg
  | some cfg =>
    simp only [hu]
    generalize hassign : (fun r : JobRecord =>
      ({ r with
          status := s, last_run := some env.dbNow,
          next_run := env.now + cfg.scheduleHours * 60 * 60 * 1000,
          items_scraped := items, duration := duration,
          error_message := msg, updated_at := env.dbNow } : JobRecord)) = assign
    have hname : ∀ r, (assign r).marketplace_name = r.marketplace_name := by
      intro r; rw [← hassign]
    have hstatus : ∀ r, (assign r).status = s := by
      intro r; rw [← hassign]
    obtain ⟨k1, k2, _, k4⟩ :=
      applyStatusUpdate_keeps w m s assign hname hstatus hd hg hlegal hrun
    obtain ⟨f1, f2, f3⟩ := logJob_frame (applyStatusUpdate w m s assign) m s items duration msg env
    have hp : persistedStatuses
        (logJob (applyStatusUpdate w m s assign) m s items duration msg env).2 m
        = persistedStatuses (applyStatusUpdate w m s assign) m := by
      unfold persistedStatuses; rw [f1]
    refine ⟨?_, ?_, ?_⟩
    · rw [statusDiscipline_congr f2]; exact k1
    · exact Guarded_congr f1 f3 k2
    · rw [hp]; exact k4

/-- A completion call all of whose queries are answered rejects only for a
marketplace without a row. -/
theorem updateJobCompletion_error_no_row (config : Config) (w : Manager) (m : String)
    (s : JobStatus) (items duration : Int) (msg : Option String) (env : CompletionEnv)
    (hcfg : config m ≠ none) (hu : env.updateError = none) (hs : env.selectError = none)
    (hi : env.insertError = none) (e : JsError)
    (he : (updateJobCompletion config w m s items duration msg env).1 = .error e) :
    persistedStatuses (updateJobCompletion config w m s items duration msg env).2 m
      = [] := by
  unfold updateJobCompletion at he ⊢
  cases hc : config m with
  | none => exact absurd hc hcfg
  | some cfg =>
    rw [hc] at he
    simp only [hu] at he ⊢
    generalize applyStatusUpdate w m s _ = w1 at he ⊢
    have hp := (logJob_frame w1 m s items duration msg env).1
    have hnil := logJob_error_healthy w1 m s items duration msg env hs hi e he
    unfold persistedStatuses at hnil ⊢
    rw [hp]
    exact hnil

/-- A completion call whose `UPDATE` rejects changes nothing. -/
theorem updateJobCompletion_update_rejected (config : Config) (w : Manager) (m : String)
    (s : JobStatus) (items duration : Int) (msg : Option String) (env : CompletionEnv)
    (e : JsError) (hu : env.updateError = some e) :
    (updateJobCompletion config w m s items duration msg env).2 = w ∧
    ∃ e', (updateJobCompletion config w m s items duration msg env).1 = .error e' := by
  unfold updateJobCompletion
  cases config m with
  | none => simp
  | some cfg => simp [hu]

/-- The `try` block on a healthy store, entered with the guard held and with no
row of the marketplace `running`: every write is a legal move; if the block
completes no row of the marketplace is left `running`, and if it rejects, recording
`failed` is a legal move for each of them. -/
theorem executeJobBody_healthy {α : Type} (config : Config) (w : Manager) (m : String)
    (env : RunEnv α) (hcfg : config m ≠ none) (hh : env.storeHealthy)
    (hd : statusDiscipline w = true) (hg : Guarded w) (hrun : m ∈ w.runningJobs)
    (hlegal : ∀ x ∈ persistedStatuses w m, legalMove x .running = true) :
    statusDiscipline (executeJobBody config w m env).2 = true ∧
    Guarded (executeJobBody config w m env).2 ∧
    (∀ u, (executeJobBody config w m env).1 = .ok u →
      ∀ x ∈ persistedStatuses (executeJobBody config w m env).2 m, x ≠ .running) ∧
    (∀ e, (executeJobBody config w m env).1 = .error e →
      ∀ x ∈ persistedStatuses (executeJobBody config w m env).2 m,
        legalMove x .failed = true) := by
  obtain ⟨h1, h3, h4, _⟩ := hh
  unfold executeJobBody updateJobStatus callRunScraper
  simp only [h1]
  generalize hassign : (fun r : JobRecord =>
    ({ r with status := .running, error_message := none,
              updated_at := env.statusDbNow } : JobRecord)) = assign
  have hname : ∀ r, (assign r).marketplace_name = r.marketplace_name := by
    intro r; rw [← hassign]
  have hstatus : ∀ r, (assign r).status = .running := by
    intro r; rw [← hassign]
  obtain ⟨k1, k2, k3, k4⟩ :=
    applyStatusUpdate_keeps w m .running assign hname hstatus hd hg hlegal hrun
  cases hsc : env.scraper with
  | error e =>
    refine ⟨k1, k2, ?_, ?_⟩
    · intro u hu
      simp at hu
    · intro e' _ x hx
      rw [k4 x hx]
      rfl
  | ok result =>
    simp only
    have hrun1 : m ∈ ({ applyStatusUpdate w m .running assign with
        extractorCalls := (applyStatusUpdate w m .running assign).extractorCalls ++ [m] }
          : Manager).runningJobs := by
      show m ∈ (applyStatusUpdate w m .running assign).runningJobs
      rw [k3]; exact hrun
    have hmove : ∀ x ∈ persistedStatuses ({ applyStatusUpdate w m .running assign with
        extractorCalls := (applyStatusUpdate w m .running assign).extractorCalls ++ [m] }
          : Manager) m,
        legalMove x (if result.success = true then .completed else .failed) = true := by
      intro x hx
      rw [k4 x hx]
      cases result.success <;> rfl
    cases h2 : env.completion.updateError with
    | some e0 =>
      obtain ⟨r1, e1, r2⟩ := updateJobCompletion_update_rejected config
        { applyStatusUpdate w m .running assign with
          extractorCalls := (applyStatusUpdate w m .running assign).extractorCalls ++ [m] }
        m (if result.success = true then .completed else .failed)
        ((result.stats.itemsScraped.getD 0 : Nat) : Int)
        (elapsedSeconds env.startTime env.endTime) (orNull result.error) env.completion
        e0 h2
      rw [r1]
      refine ⟨k1, k2, ?_, ?_⟩
      · intro u hu
        rw [r2] at hu
        simp at hu
      · intro e' _ x hx
        rw [k4 x hx]
        rfl
    | none =>
      obtain ⟨c1, c2, c3⟩ := updateJobCompletion_recorded config
        { applyStatusUpdate w m .running assign with
          extractorCalls := (applyStatusUpdate w m .running assign).extractorCalls ++ [m] }
        m (if result.success = true then .completed else .failed)
        ((result.stats.itemsScraped.getD 0 : Nat) : Int)
        (elapsedSeconds env.startTime env.endTime) (orNull result.error) env.completion
        hcfg h2 k1 k2 hmove hrun1
      have c4 := updateJobCompletion_error_no_row config
        { applyStatusUpdate w m .running assign with
          extractorCalls := (applyStatusUpdate w m .running assign).extractorCalls ++ [m] }
        m (if result.success = true then .completed else .failed)
        ((result.stats.itemsScraped.getD 0 : Nat) : Int)
        (elapsedSeconds env.startTime env.endTime) (orNull result.error) env.completion
        hcfg h2 h3 h4
      refine ⟨c1, c2, ?_, ?_⟩
      · intro u _ x hx
        rw [c3 x hx]
        cases result.success <;> simp
      · intro e he x hx
        rw [c4 e he] at hx
        simp at hx

/-- One `executeJob` on a healthy store, for a configured marketplace, keeps the
status discipline and the guard relation. -/
theorem executeJob_healthy {α : Type} (config : Config) (w : Manager) (m : String)
    (env : RunEnv α) (hcfg : config m ≠ none) (hh : env.storeHealthy)
    (hd : statusDiscipline w = true) (hg : Guarded w) :
    statusDiscipline (executeJob config w m env).2 = true ∧
    Guarded (executeJob config w m env).2 := by
  by_cases hc : w.runningJobs.contains m = true
  · unfold executeJob
    rw [if_pos hc]
    exact ⟨hd, hg⟩
  · have hnot : m ∉ w.runningJobs := by simpa using hc
    have hadd : ∀ x, x ∈ w.runningJobs → x ∈ setAdd w.runningJobs m := by
      intro x hx
      unfold setAdd
      rw [if_neg hc]
      simp [hx]
    have hmadd : m ∈ setAdd w.runningJobs m := by
      unfold setAdd
      rw [if_neg hc]
      simp
    have hdel : ∀ x, x ≠ m → x ∈ setAdd w.runningJobs m →
        x ∈ setDelete (setAdd w.runningJobs m) m := by
      intro x hx hmem
      unfold setDelete
      simp [hmem, hx]
    have hg0 : Guarded ({ w with runningJobs := setAdd w.runningJobs m } : Manager) :=
      fun r hr hst => hadd _ (hg r hr hst)
    have hlegal0 : ∀ x ∈ persistedStatuses
        ({ w with runningJobs := setAdd w.runningJobs m } : Manager) m,
        legalMove x .running = true := by
      intro x hx
      obtain ⟨r, hr, hm, hx'⟩ := mem_statusesOf.mp hx
      have hne : x ≠ .running := by
        intro hrun
        apply hnot
        rw [← hm]
        exact hg r hr (hx'.trans hrun)
      cases x <;> first | rfl | exact absurd rfl hne
    obtain ⟨b1, b2, b3, b4⟩ := executeJobBody_healthy config
      { w with runningJobs := setAdd w.runningJobs m } m env hcfg hh hd hg0 hmadd hlegal0
    have hbrun := executeJobBody_runningJobs config
      ({ w with runningJobs := setAdd w.runningJobs m } : Manager) m env
    unfold executeJob
    rw [if_neg hc]
    simp only
    rcases hbody : executeJobBody config
      { w with runningJobs := setAdd w.runningJobs m } m env with ⟨res, w1⟩
    rw [hbody] at b1 b2 b3 b4 hbrun
    simp only at b1 b2 b3 b4 hbrun
    cases res with
    | ok u =>
      simp only
      refine ⟨b1, ?_⟩
      intro r hr hst
      have hmem := b2 r hr hst
      rw [hbrun] at hmem
      show r.marketplace_name ∈ setDelete w1.runningJobs m
      rw [hbrun]
      apply hdel _ _ hmem
      intro hrm
      exact b3 u rfl r.status (mem_statusesOf.mpr ⟨r, hr, hrm, rfl⟩) hst
    | error e =>
      simp only
      obtain ⟨_, _, _, h5⟩ := hh
      have hrun1 : m ∈ w1.runningJobs := by rw [hbrun]; exact hmadd
      obtain ⟨c1, c2, c3⟩ := updateJobCompletion_recorded config w1 m .failed 0
        (elapsedSeconds env.startTime env.catchTime) (some e.message) env.recovery
        hcfg h5 b1 b2 (b4 e rfl) hrun1
      refine ⟨c1, ?_⟩
      intro r hr hst
      have hmem := c2 r hr hst
      rw [updateJobCompletion_runningJobs, hbrun] at hmem
      show r.marketplace_name ∈ setDelete (updateJobCompletion config w1 m .failed 0
        (elapsedSeconds env.startTime env.catchTime) (some e.message)
        env.recovery).2.runningJobs m
      rw [updateJobCompletion_runningJobs, hbrun]
      apply hdel _ _ hmem
      intro hrm
      have := c3 r.status (mem_statusesOf.mpr ⟨r, hr, hrm, rfl⟩)
      rw [hst] at this
      exact absurd this (by decide)

/-- Rescheduling writes no status and leaves the running set alone. -/
theorem updateJobSchedule_keeps (w : Manager) (m : String) (hours now dbNow : Int)
    (err : Option JsError) (hd : statusDiscipline w = true) (hg : Guarded w) :
    statusDiscipline (updateJobSchedule w m hours now dbNow err).2 = true ∧
    Guarded (updateJobSchedule w m hours now dbNow err).2 := by
  unfold updateJobSchedule
  cases err with
  | some e => exact ⟨hd, hg⟩
  | none =>
    refine ⟨hd, ?_⟩
    intro r hr hst
    obtain ⟨r0, h0, rfl⟩ := mem_updateWhere.mp hr
    by_cases hm : r0.marketplace_name = m
    · simp only [hm, if_true] at hst ⊢
      rw [← hm]
      exact hg r0 h0 hst
    · simp only [hm, if_false] at hst ⊢
      exact hg r0 h0 hst

theorem step_healthy {α : Type} (config : Config) (w : Manager) (c : Call α)
    (hc : c.healthy config) (hd : statusDiscipline w = true) (hg : Guarded w) :
    statusDiscipline (step config w c) = true ∧ Guarded (step config w c) := by
  cases c with
  | executeJob m env => exact executeJob_healthy config w m env hc.1 hc.2 hd hg
  | triggerJob m env =>
    show statusDiscipline (triggerJob config w m env).2 = true ∧
      Guarded (triggerJob config w m env).2
    unfold triggerJob
    cases hcfg : config m with
    | none => exact ⟨hd, hg⟩
    | some cfg =>
      exact executeJob_healthy config w m env (by rw [hcfg]; simp) hc hd hg
  | updateJobSchedule m hours now dbNow err =>
    exact updateJobSchedule_keeps w m hours now dbNow err hd hg

theorem runCalls_healthy {α : Type} (config : Config) (calls : List (Call α)) :
    ∀ w : Manager, (∀ c ∈ calls, c.healthy config) → statusDiscipline w = true →
      Guarded w →
      statusDiscipline (runCalls config w calls) = true ∧
      Guarded (runCalls config w calls) := by
  induction calls with
  | nil => intro w _ hd hg; exact ⟨hd, hg⟩
  | cons c rest ih =>
    intro w hall hd hg
    obtain ⟨d1, g1⟩ := step_healthy config w c (hall c (List.mem_cons_self _ _)) hd hg
    exact ih (step config w c) (fun c' hc' => hall c' (List.mem_cons_of_mem _ hc')) d1 g1

/-- Counterexample to C4 as stated. Starting from an idle job, a run whose extractor
rejects and whose failure record cannot be written leaves the persisted status at
`running`; the next run then writes `running` over `running`. -/
theorem running_written_over_running :
    persistedStatuses freshManager "ouedkniss" = [.idle] ∧
    ({ marketplace := "ouedkniss", before := [.running], written := .running } : StatusWrite)
      ∈ (runCalls defaultConfig freshManager crashThenRetry).statusWrites ∧
    statusDiscipline (runCalls defaultConfig freshManager crashThenRetry) = false := by
  decide

/-- The other two store hypotheses of the amended C4 are needed as well: a rejected
`running` update lets the failure handler move idle → failed, and a rejected log
`INSERT` lets it move completed → failed within one run. -/
theorem status_discipline_needs_healthy_store :
    ({ marketplace := "ouedkniss", before := [.idle], written := .failed } : StatusWrite)
      ∈ (runCalls defaultConfig freshManager
          [.executeJob "ouedkniss" lostStatusWrite]).statusWrites ∧
    ({ marketplace := "ouedkniss", before := [.completed], written := .failed } : StatusWrite)
      ∈ (runCalls defaultConfig freshManager
          [.executeJob "ouedkniss" lostLogInsert]).statusWrites := by
  decide

/-- C4 as amended. Over every sequence of `executeJob` / `triggerJob` /
`updateJobSchedule` calls, one after the other, in which the queries that carry a
run's status go through (the `running` update, the log of an applied completion,
the `UPDATE` of the failure handler; every other query may fail) and `executeJob`
is called for configured marketplaces only, started in a state where every row with
persisted status `running` belongs to a marketplace in the running set: every
status write moves each row it changes idle/completed/failed → running or
running → completed/failed, and `running` is never written over `running`. -/
theorem status_moves_legal_when_store_healthy {α : Type} (config : Config) (w : Manager)
    (calls : List (Call α)) (hcalls : ∀ c ∈ calls, c.healthy config)
    (hd : statusDiscipline w = true) (hg : Guarded w) :
    statusDiscipline (runCalls config w calls) = true ∧
    ∀ sw ∈ (runCalls config w calls).statusWrites,
      (∀ old ∈ sw.before, legalMove old sw.written = true) ∧
      (sw.written = .running → JobStatus.running ∉ sw.before) := by
  obtain ⟨d, _⟩ := runCalls_healthy config calls w hcalls hd hg
  refine ⟨d, ?_⟩
  intro sw hsw
  have hall : ∀ old ∈ sw.before, legalMove old sw.written = true := by
    unfold statusDiscipline at d
    rw [List.all_eq_true] at d
    have := d sw hsw
    rw [List.all_eq_true] at this
    exact this
  refine ⟨hall, ?_⟩
  intro hw hmem
  have := hall _ hmem
  rw [hw] at this
  exact absurd this (by decide)

/-- Witness for the amended C4: a manual trigger, a reschedule and a scheduled run
whose extractor rejects, on a healthy store. -/
theorem status_moves_legal_when_store_healthy_witness :
    (∀ c ∈ quietCalls, c.healthy defaultConfig) ∧
    statusDiscipline freshManager = true ∧ Guarded freshManager ∧
    statusDiscipline (runCalls defaultConfig freshManager quietCalls) = true ∧
    ∀ sw ∈ (runCalls defaultConfig freshManager quietCalls).statusWrites,
      (∀ old ∈ sw.before, legalMove old sw.written = true) ∧
      (sw.written = .running → JobStatus.running ∉ sw.before) :=
  have hcalls : ∀ c ∈ quietCalls, c.healthy defaultConfig := by
    intro c hc
    simp only [quietCalls, List.mem_cons, List.mem_singleton, List.not_mem_nil,
      or_false] at hc
    rcases hc with rfl | rfl | rfl
    · exact ⟨rfl, rfl, rfl, rfl⟩
    · trivial
    · exact ⟨by decide, rfl, rfl, rfl, rfl⟩
  have hg : Guarded freshManager := by
    unfold Guarded
    decide
  ⟨hcalls, by decide, hg,
   status_moves_legal_when_store_healthy defaultConfig freshManager quietCalls hcalls
     (by decide) hg⟩

end JobManager

namespace PhoneService

/-- The loop returns the first candidate scoring above 85. -/
theorem findSimilarPhoneLoop_eq_some (ratio : String → String → Nat)
    (lower : String → String) (model : String) (phones : List Phone) (p : Phone) :
    findSimilarPhoneLoop ratio lower model phones = some p ↔
      ∃ before after, phones = before ++ p :: after ∧
        85 < ratio (lower model) (lower p.model) ∧
        ∀ q ∈ before, ratio (lower model) (lower q.model) ≤ 85 := by
  induction phones with
  | nil => simp [findSimilarPhoneLoop]
  | cons head rest ih =>
    unfold findSimilarPhoneLoop
    by_cases hgt : ratio (lower model) (lower head.model) > 85
    · rw [if_pos hgt]
      constructor
      · intro h
        cases h
        exact ⟨[], rest, rfl, hgt, by simp⟩
      · rintro ⟨before, after, heq, _, hall⟩
        cases before with
        | nil =>
          simp only [List.nil_append, List.cons.injEq] at heq
          rw [heq.1]
        | cons b bs =>
          simp only [List.cons_append, List.cons.injEq] at heq
          have := hall b (List.mem_cons_self _ _)
          rw [← heq.1] at this
          omega
    · rw [if_neg hgt, ih]
      constructor
      · rintro ⟨before, after, heq, hp, hall⟩
        refine ⟨head :: before, after, by rw [heq]; rfl, hp, ?_⟩
        intro q hq
        rcases List.mem_cons.mp hq with rfl | hq
        · omega
        · exact hall q hq
      · rintro ⟨before, after, heq, hp, hall⟩
        cases before with
        | nil =>
          simp only [List.nil_append, List.cons.injEq] at heq
          rw [heq.1] at hgt
          exact absurd hp hgt
        | cons b bs =>
          simp only [List.cons_append, List.cons.injEq] at heq
          exact ⟨bs, after, heq.2, hp, fun q hq => hall q (List.mem_cons_of_mem _ hq)⟩

/-- The loop returns `null` exactly when no candidate scores above 85. -/
theorem findSimilarPhoneLoop_eq_none (ratio : String → String → Nat)
    (lower : String → String) (model : String) (phones : List Phone) :
    findSimilarPhoneLoop ratio lower model phones = none ↔
      ∀ q ∈ phones, ratio (lower model) (lower q.model) ≤ 85 := by
  induction phones with
  | nil => simp [findSimilarPhoneLoop]
  | cons head rest ih =>
    unfold findSimilarPhoneLoop
    by_cases hgt : ratio (lower model) (lower head.model) > 85
    · rw [if_pos hgt]
      constructor
      · intro h
        cases h
      · intro h
        have := h head (List.mem_cons_self _ _)
        omega
    · rw [if_neg hgt, ih]
      simp only [List.mem_cons, forall_eq_or_imp, iff_and_self]
      intro _
      omega

theorem findSimilarPhone_eq_loop (ratio : String → String → Nat)
    (lower : String → String) (model : String) (phones : List Phone) :
    findSimilarPhone ratio lower model phones
      = findSimilarPhoneLoop ratio lower model phones := by
  unfold findSimilarPhone
  cases phones with
  | nil => rfl
  | cons head rest => simp

/-- C6. `findSimilarPhone` returns the first candidate, in the order of the candidate
list, whose ratio with the incoming model is strictly greater than 85, and `null`
when there is none. A single candidate at 84 or at exactly 85 does not match, one at
86 matches, and an earlier candidate at 86 is returned though a later one scores 100. -/
theorem findSimilarPhone_first_above_85 (ratio : String → String → Nat)
    (lower : String → String) (model : String) (phones : List Phone) :
    (∀ p, findSimilarPhone ratio lower model phones = some p ↔
      ∃ before after, phones = before ++ p :: after ∧
        85 < ratio (lower model) (lower p.model) ∧
        ∀ q ∈ before, ratio (lower model) (lower q.model) ≤ 85) ∧
    (findSimilarPhone ratio lower model phones = none ↔
      ∀ q ∈ phones, ratio (lower model) (lower q.model) ≤ 85) ∧
    (∀ p : Phone, ratio (lower model) (lower p.model) = 84 ∨
        ratio (lower model) (lower p.model) = 85 →
      findSimilarPhone ratio lower model [p] = none) ∧
    (∀ p : Phone, ratio (lower model) (lower p.model) = 86 →
      findSimilarPhone ratio lower model [p] = some p) ∧
    (∀ p q : Phone, ratio (lower model) (lower p.model) = 86 →
      ratio (lower model) (lower q.model) = 100 →
      findSimilarPhone ratio lower model [p, q] = some p) := by
  refine ⟨?_, ?_, ?_, ?_, ?_⟩
  · intro p
    rw [findSimilarPhone_eq_loop]
    exact findSimilarPhoneLoop_eq_some ratio lower model phones p
  · rw [findSimilarPhone_eq_loop]
    exact findSimilarPhoneLoop_eq_none ratio lower model phones
  · intro p hp
    rw [findSimilarPhone_eq_loop, findSimilarPhoneLoop_eq_none]
    intro q hq
    rw [List.mem_singleton.mp hq]
    omega
  · intro p hp
    rw [findSimilarPhone_eq_loop, findSimilarPhoneLoop_eq_some]
    exact ⟨[], [], rfl, by omega, by simp⟩
  · intro p q hp _
    rw [findSimilarPhone_eq_loop, findSimilarPhoneLoop_eq_some]
    exact ⟨[], [q], rfl, by omega, by simp⟩

/-- Witness for C6: candidates scoring 84, 85, 86 and 100, newest first; the one at
86 is returned. -/
theorem findSimilarPhone_first_above_85_witness :
    sampleRatio "galaxy s21" "galaxy s21 5g" = 86 ∧
    sampleRatio "galaxy s21" "galaxy s21" = 100 ∧
    findSimilarPhone sampleRatio BaseScraper.asciiLowerCase "Galaxy S21"
        [samplePhone 4 "Galaxy S21 5G", samplePhone 1 "Galaxy S21"]
      = some (samplePhone 4 "Galaxy S21 5G") :=
  ⟨by decide, by decide,
   (findSimilarPhone_first_above_85 sampleRatio BaseScraper.asciiLowerCase "Galaxy S21"
      [samplePhone 4 "Galaxy S21 5G", samplePhone 1 "Galaxy S21"]).2.2.2.2
      (samplePhone 4 "Galaxy S21 5G") (samplePhone 1 "Galaxy S21")
      (by decide) (by decide)⟩

end PhoneService

namespace BaseScraper

/-! ### Price normalisation -/

theorem keepPriceChar_of_isDigit {c : Char} (h : c.isDigit = true) :
    keepPriceChar c = true := by
  unfold keepPriceChar
  simp [h]

theorem ne_comma_of_isDigit {c : Char} (h : c.isDigit = true) : c ≠ ',' := by
  rintro rfl
  exact absurd h (by decide)

/-- Replacing the first comma leaves a text without commas as it is. -/
theorem replaceFirst_of_not_mem (t r : Char) (l : List Char) (h : t ∉ l) :
    replaceFirst t r l = l := by
  induction l with
  | nil => rfl
  | cons c cs ih =>
    unfold replaceFirst
    have hc : c ≠ t := fun hct => h (hct ▸ List.mem_cons_self _ _)
    rw [if_neg hc, ih (fun hm => h (List.mem_cons_of_mem _ hm))]

/-- Replacing the first comma after a comma-free head. -/
theorem replaceFirst_append (t r : Char) (a rest : List Char) (h : t ∉ a) :
    replaceFirst t r (a ++ t :: rest) = a ++ r :: rest := by
  induction a with
  | nil => simp [replaceFirst]
  | cons c cs ih =>
    have hc : c ≠ t := fun hct => h (hct ▸ List.mem_cons_self _ _)
    rw [List.cons_append]
    unfold replaceFirst
    rw [if_neg hc, ih (fun hm => h (List.mem_cons_of_mem _ hm))]
    rfl

/-- The literal `a.b`, with `a` a non-empty run of digits and `b` a run of digits,
parses to the decimal number it denotes. -/
theorem parseFloat_decimal (a b : List Char) (ha : a ≠ [])
    (hda : ∀ c ∈ a, c.isDigit = true) (hdb : ∀ c ∈ b, c.isDigit = true) :
    parseFloat (a ++ '.' :: b)
      = .finite ((digitsToNat a : ℚ) + (digitsToNat b : ℚ) / 10 ^ b.length) := by
  unfold parseFloat
  have htake : (a ++ '.' :: b).takeWhile Char.isDigit = a := by
    rw [List.takeWhile_append_of_pos hda, List.takeWhile_cons]
    simp
  have hdrop : (a ++ '.' :: b).dropWhile Char.isDigit = '.' :: b := by
    rw [List.dropWhile_append_of_pos hda, List.dropWhile_cons]
    simp
  have hfrac : b.takeWhile Char.isDigit = b := List.takeWhile_eq_self_iff.mpr hdb
  rw [hdrop]
  simp only [htake, hfrac]
  have hne : a.isEmpty = false := by
    cases a with
    | nil => exact absurd rfl ha
    | cons c cs => rfl
  simp only [hne, Bool.false_and, Bool.false_eq_true, if_false]
  congr 1
  rw [Rat.mkRat_eq_div]
  have hpow : ((10 : ℚ) ^ b.length) ≠ 0 := by positivity
  push_cast
  field_simp

/-- A text without digits parses to `NaN`. -/
theorem parseFloat_nan_of_no_digit (l : List Char)
    (h : ∀ c ∈ l, c.isDigit = false) : parseFloat l = .nan := by
  unfold parseFloat
  cases l with
  | nil => rfl
  | cons c cs =>
    have hc : c.isDigit = false := h c (List.mem_cons_self _ _)
    have htake : (c :: cs).takeWhile Char.isDigit = [] := by
      rw [List.takeWhile_cons]; simp [hc]
    have hdrop : (c :: cs).dropWhile Char.isDigit = c :: cs := by
      rw [List.dropWhile_cons]; simp [hc]
    rw [hdrop]
    simp only [htake]
    by_cases hdot : c = '.'
    · subst hdot
      have hfrac : cs.takeWhile Char.isDigit = [] := by
        cases cs with
        | nil => rfl
        | cons d ds =>
          rw [List.takeWhile_cons]
          simp [h d (List.mem_cons_of_mem _ (List.mem_cons_self _ _))]
      simp [hfrac]
    · split
      · next heq =>
        simp only [List.cons.injEq] at heq
        exact absurd heq.1 hdot
      · rfl

theorem replaceFirst_no_digit (l : List Char) (h : ∀ c ∈ l, c.isDigit = false) :
    ∀ c ∈ replaceFirst ',' '.' l, c.isDigit = false := by
  induction l with
  | nil => simp [replaceFirst]
  | cons d ds ih =>
    unfold replaceFirst
    have hds : ∀ c ∈ ds, c.isDigit = false := fun c hc => h c (List.mem_cons_of_mem _ hc)
    by_cases hd : d = ','
    · rw [if_pos hd]
      intro c hc
      rcases List.mem_cons.mp hc with rfl | hc
      · decide
      · exact hds c hc
    · rw [if_neg hd]
      intro c hc
      rcases List.mem_cons.mp hc with rfl | hc
      · exact h c (List.mem_cons_self _ _)
      · exact ih hds c hc

theorem digitsToNat_zeros (n : Nat) : digitsToNat (List.replicate n '0') = 0 := by
  unfold digitsToNat
  induction n with
  | zero => rfl
  | succ k ih =>
    rw [List.replicate_succ, List.foldl_cons]
    exact ih

theorem parseFloat_zeros (n : Nat) :
    parseFloat (List.replicate (n + 1) '0') = .finite 0 := by
  unfold parseFloat
  have hall : ∀ c ∈ List.replicate (n + 1) '0', c.isDigit = true := by
    intro c hc
    rw [(List.mem_replicate.mp hc).2]
    decide
  have htake : (List.replicate (n + 1) '0').takeWhile Char.isDigit
      = List.replicate (n + 1) '0' := List.takeWhile_eq_self_iff.mpr hall
  have hdrop : (List.replicate (n + 1) '0').dropWhile Char.isDigit = [] :=
    List.dropWhile_eq_nil_iff.mpr hall
  rw [hdrop]
  simp only [htake, digitsToNat_zeros]
  simp [List.replicate_succ]

/-- The text kept by the character filter when a decimal `a sep b` stands between
two runs of characters that the filter drops. -/
theorem cleaned_decimal (pre a b post : List Char) (sep : Char)
    (hsep : keepPriceChar sep = true)
    (hda : ∀ c ∈ a, c.isDigit = true) (hdb : ∀ c ∈ b, c.isDigit = true)
    (hpre : ∀ c ∈ pre, keepPriceChar c = false)
    (hpost : ∀ c ∈ post, keepPriceChar c = false) :
    (pre ++ a ++ [sep] ++ b ++ post).filter keepPriceChar = a ++ sep :: b := by
  have h1 : pre.filter keepPriceChar = [] :=
    List.filter_eq_nil_iff.mpr (fun c hc => by simp [hpre c hc])
  have h2 : post.filter keepPriceChar = [] :=
    List.filter_eq_nil_iff.mpr (fun c hc => by simp [hpost c hc])
  have h3 : a.filter keepPriceChar = a :=
    List.filter_eq_self.mpr (fun c hc => keepPriceChar_of_isDigit (hda c hc))
  have h4 : b.filter keepPriceChar = b :=
    List.filter_eq_self.mpr (fun c hc => keepPriceChar_of_isDigit (hdb c hc))
  simp only [List.filter_append, h1, h2, h3, h4, List.filter_cons, hsep, if_true,
    List.filter_nil, List.nil_append, List.append_nil, List.append_assoc,
    List.singleton_append]

theorem keepPriceChar_eq_false {c : Char}
    (h : c.isDigit = false ∧ c ≠ '.' ∧ c ≠ ',') : keepPriceChar c = false := by
  unfold keepPriceChar
  simp [h.1, h.2.1, h.2.2]

/-- C7. For all digit strings `a` (non-empty) and `b` and every surrounding text
`pre`, `post` without digits, dots and commas, `normalizePrice` gives the same
number for `pre a , b post` as for `pre a . b post`: the decimal number `a.b`. -/
theorem normalizePrice_comma_same_as_dot (pre a b post : String) (ha : a ≠ "")
    (hda : ∀ c ∈ a.toList, c.isDigit = true) (hdb : ∀ c ∈ b.toList, c.isDigit = true)
    (hpre : ∀ c ∈ pre.toList, c.isDigit = false ∧ c ≠ '.' ∧ c ≠ ',')
    (hpost : ∀ c ∈ post.toList, c.isDigit = false ∧ c ≠ '.' ∧ c ≠ ',') :
    normalizePrice (some (pre ++ a ++ "," ++ b ++ post))
      = some ((digitsToNat a.toList : ℚ) +
          (digitsToNat b.toList : ℚ) / 10 ^ b.toList.length) ∧
    normalizePrice (some (pre ++ a ++ "." ++ b ++ post))
      = some ((digitsToNat a.toList : ℚ) +
          (digitsToNat b.toList : ℚ) / 10 ^ b.toList.length) := by
  have hane : a.toList ≠ [] := fun h => ha (String.ext h)
  have hnonempty : ∀ sep : String, pre ++ a ++ sep ++ b ++ post ≠ "" := by
    intro sep h
    have := congrArg String.data h
    simp only [String.data_append] at this
    have hnil : a.data = [] := by
      simp only [List.append_eq_nil] at this
      exact this.1.1.1.2
    exact hane hnil
  have hnocomma : (',' : Char) ∉ a.toList := fun h => ne_comma_of_isDigit (hda _ h) rfl
  have hnocomma_b : (',' : Char) ∉ b.toList := fun h => ne_comma_of_isDigit (hdb _ h) rfl
  have hpre2 : ∀ c ∈ pre.toList, keepPriceChar c = false :=
    fun c hc => keepPriceChar_eq_false (hpre c hc)
  have hpost2 : ∀ c ∈ post.toList, keepPriceChar c = false :=
    fun c hc => keepPriceChar_eq_false (hpost c hc)
  constructor
  · unfold normalizePrice
    simp only [if_neg (hnonempty ",")]
    have hl : (pre ++ a ++ "," ++ b ++ post).toList
        = pre.toList ++ a.toList ++ [','] ++ b.toList ++ post.toList := by
      simp only [String.toList, String.data_append]
    rw [hl, cleaned_decimal pre.toList a.toList b.toList post.toList ',' (by decide)
      hda hdb hpre2 hpost2, replaceFirst_append ',' '.' a.toList b.toList hnocomma,
      parseFloat_decimal a.toList b.toList hane hda hdb]
  · unfold normalizePrice
    simp only [if_neg (hnonempty ".")]
    have hl : (pre ++ a ++ "." ++ b ++ post).toList
        = pre.toList ++ a.toList ++ ['.'] ++ b.toList ++ post.toList := by
      simp only [String.toList, String.data_append]
    have hno : (',' : Char) ∉ a.toList ++ '.' :: b.toList := by
      intro h
      rcases List.mem_append.mp h with h | h
      · exact hnocomma h
      · rcases List.mem_cons.mp h with h | h
        · exact absurd h (by decide)
        · exact hnocomma_b h
    rw [hl, cleaned_decimal pre.toList a.toList b.toList post.toList '.' (by decide)
      hda hdb hpre2 hpost2, replaceFirst_of_not_mem ',' '.' _ hno,
      parseFloat_decimal a.toList b.toList hane hda hdb]

/-- Witness for C7: `"DA 12,50 DZD"` and `"DA 12.50 DZD"` both give 12.5. -/
theorem normalizePrice_comma_same_as_dot_witness :
    normalizePrice (some ("DA " ++ "12" ++ "," ++ "50" ++ " DZD"))
      = some ((digitsToNat "12".toList : ℚ) +
          (digitsToNat "50".toList : ℚ) / 10 ^ "50".toList.length) ∧
    normalizePrice (some ("DA " ++ "12" ++ "." ++ "50" ++ " DZD"))
      = some ((digitsToNat "12".toList : ℚ) +
          (digitsToNat "50".toList : ℚ) / 10 ^ "50".toList.length) :=
  normalizePrice_comma_same_as_dot "DA " "12" "50" " DZD" (by decide) (by decide)
    (by decide) (by decide) (by decide)

/-- C8. `normalizePrice` tells "no number" from zero. It returns `null` for `null`,
for the empty string and for every input without a digit; and whenever the
stripped, comma-normalised text parses to the number zero it returns 0, which is
not `null`: so for every input whose kept characters are one or more zeros, and
for `"0 DA"`. -/
theorem normalizePrice_null_is_not_zero :
    normalizePrice none = none ∧
    normalizePrice (some "") = none ∧
    (∀ s : String, (∀ c ∈ s.toList, c.isDigit = false) → normalizePrice (some s) = none) ∧
    (∀ s : String,
      parseFloat (replaceFirst ',' '.' (s.toList.filter keepPriceChar)) = .finite 0 →
      normalizePrice (some s) = some 0) ∧
    (∀ (s : String) (n : Nat),
      s.toList.filter keepPriceChar = List.replicate (n + 1) '0' →
      normalizePrice (some s) = some 0) ∧
    normalizePrice (some "0 DA") = some 0 ∧
    (some (0 : ℚ) ≠ none) := by
  have hzero : ∀ s : String,
      parseFloat (replaceFirst ',' '.' (s.toList.filter keepPriceChar)) = .finite 0 →
      normalizePrice (some s) = some 0 := by
    intro s h
    unfold normalizePrice
    by_cases hs : s = ""
    · subst hs
      exact absurd h (by decide)
    · simp only [if_neg hs, h]
  have hzeros : ∀ (s : String) (n : Nat),
      s.toList.filter keepPriceChar = List.replicate (n + 1) '0' →
      normalizePrice (some s) = some 0 := by
    intro s n h
    apply hzero
    rw [h, replaceFirst_of_not_mem]
    · exact parseFloat_zeros n
    · intro hm
      exact absurd (List.mem_replicate.mp hm).2 (by decide)
  refine ⟨rfl, rfl, ?_, hzero, hzeros, ?_, by simp⟩
  · intro s h
    unfold normalizePrice
    by_cases hs : s = ""
    · simp only [if_pos hs]
    · simp only [if_neg hs]
      have hclean : ∀ c ∈ s.toList.filter keepPriceChar, c.isDigit = false :=
        fun c hc => h c (List.mem_filter.mp hc).1
      rw [parseFloat_nan_of_no_digit _ (replaceFirst_no_digit _ hclean)]
  · exact hzeros "0 DA" 0 (by decide)

/-- Witness for C8: a text without digits is `null`, a text whose kept characters
are zeros is 0. -/
theorem normalizePrice_null_is_not_zero_witness :
    normalizePrice (some "Prix: DA") = none ∧
    normalizePrice (some "00 DA") = some 0 :=
  ⟨normalizePrice_null_is_not_zero.2.2.1 "Prix: DA" (by decide),
   normalizePrice_null_is_not_zero.2.2.2.2.1 "00 DA" 1 (by decide)⟩

/-- Both separators on a concrete price text (the fraction 25/2 is 12.5), a price
with a thousands gap, a price with two commas, and a text without a number. -/
theorem normalizePrice_examples :
    normalizePrice (some "DA 12,50 DZD") = some (mkRat 25 2) ∧
    normalizePrice (some "DA 12.50 DZD") = some (mkRat 25 2) ∧
    normalizePrice (some "45 000 DA") = some 45000 ∧
    normalizePrice (some "1,234,56") = some (mkRat 1234 1000) ∧
    normalizePrice (some "Prix sur demande") = none := by
  decide

/-! ### Keyword rules -/

theorem startsWithChars_iff (text needle : List Char) :
    startsWithChars text needle = true ↔ ∃ post, text = needle ++ post := by
  induction needle generalizing text with
  | nil =>
    cases text <;> simp [startsWithChars]
  | cons d ds ih =>
    cases text with
    | nil => simp [startsWithChars]
    | cons c cs =>
      simp only [startsWithChars, Bool.and_eq_true, beq_iff_eq, ih, List.cons_append,
        List.cons.injEq]
      constructor
      · rintro ⟨rfl, post, rfl⟩
        exact ⟨post, rfl, rfl⟩
      · rintro ⟨post, rfl, rfl⟩
        exact ⟨rfl, post, rfl⟩

/-- The search `includes` finds exactly the contiguous occurrences of the needle. -/
theorem includes_iff (text needle : String) :
    includes text needle = true ↔
      ∃ pre post, text.toList = pre ++ needle.toList ++ post := by
  unfold includes
  generalize text.toList = t
  generalize needle.toList = n
  induction t with
  | nil =>
    cases n with
    | nil => simp [includesChars]
    | cons d ds => simp [includesChars]
  | cons c cs ih =>
    unfold includesChars
    rw [Bool.or_eq_true, startsWithChars_iff, ih]
    constructor
    · rintro (⟨post, h⟩ | ⟨pre, post, h⟩)
      · exact ⟨[], post, by simpa using h⟩
      · exact ⟨c :: pre, post, by simp [h]⟩
    · rintro ⟨pre, post, h⟩
      cases pre with
      | nil => exact Or.inl ⟨post, by simpa using h⟩
      | cons p ps =>
        simp only [List.cons_append, List.cons.injEq] at h
        exact Or.inr ⟨ps, post, h.2⟩

/-- C9. `detectCategory` is the first matching rule of the priority table
tablet > feature_phone > accessory > smartphone, read on the lower-cased
`title + ' ' + description`. A text with a tablet keyword is a tablet whatever
other keywords it holds and wherever they stand, and so on down the list. -/
theorem detectCategory_first_matching_rule (toLowerCase : String → String)
    (title description : String) :
    detectCategory toLowerCase title description
      = firstMatchingRule categoryRules "smartphone"
          (toLowerCase (title ++ " " ++ description)) ∧
    ((includes (toLowerCase (title ++ " " ++ description)) "tablet" = true ∨
      includes (toLowerCase (title ++ " " ++ description)) "tablette" = true) →
      detectCategory toLowerCase title description = "tablet") ∧
    (includes (toLowerCase (title ++ " " ++ description)) "tablet" = false →
      includes (toLowerCase (title ++ " " ++ description)) "tablette" = false →
      (includes (toLowerCase (title ++ " " ++ description)) "feature phone" = true ∨
       includes (toLowerCase (title ++ " " ++ description)) "téléphone basique" = true) →
      detectCategory toLowerCase title description = "feature_phone") ∧
    (includes (toLowerCase (title ++ " " ++ description)) "tablet" = false →
      includes (toLowerCase (title ++ " " ++ description)) "tablette" = false →
      includes (toLowerCase (title ++ " " ++ description)) "feature phone" = false →
      includes (toLowerCase (title ++ " " ++ description)) "téléphone basique" = false →
      (includes (toLowerCase (title ++ " " ++ description)) "accessoire" = true ∨
       includes (toLowerCase (title ++ " " ++ description)) "accessory" = true ∨
       includes (toLowerCase (title ++ " " ++ description)) "case" = true ∨
       includes (toLowerCase (title ++ " " ++ description)) "charger" = true) →
      detectCategory toLowerCase title description = "accessory") ∧
    (includes (toLowerCase (title ++ " " ++ description)) "tablet" = false →
      includes (toLowerCase (title ++ " " ++ description)) "tablette" = false →
      includes (toLowerCase (title ++ " " ++ description)) "feature phone" = false →
      includes (toLowerCase (title ++ " " ++ description)) "téléphone basique" = false →
      includes (toLowerCase (title ++ " " ++ description)) "accessoire" = false →
      includes (toLowerCase (title ++ " " ++ description)) "accessory" = false →
      includes (toLowerCase (title ++ " " ++ description)) "case" = false →
      includes (toLowerCase (title ++ " " ++ description)) "charger" = false →
      detectCategory toLowerCase title description = "smartphone") := by
  simp only [detectCategory, firstMatchingRule, categoryRules, List.find?, List.any,
    Bool.or_false]
  generalize toLowerCase (title ++ " " ++ description) = text
  generalize includes text "tablet" = b1
  generalize includes text "tablette" = b2
  generalize includes text "feature phone" = b3
  generalize includes text "téléphone basique" = b4
  generalize includes text "accessoire" = b5
  generalize includes text "accessory" = b6
  generalize includes text "case" = b7
  generalize includes text "charger" = b8
  cases b1 <;> cases b2 <;> cases b3 <;> cases b4 <;> cases b5 <;> cases b6 <;>
    cases b7 <;> cases b8 <;> simp

/-- Keyword order in the text does not matter: two titles holding an accessory
keyword and a tablet keyword in either order, in mixed case. -/
theorem detectCategory_examples :
    detectCategory asciiLowerCase "Charger for Samsung TABLET" = "tablet" ∧
    detectCategory asciiLowerCase "Tablet Samsung" "with charger" = "tablet" ∧
    detectCategory asciiLowerCase "Feature Phone case" = "feature_phone" ∧
    detectCategory asciiLowerCase "iPhone 12 CASE" = "accessory" ∧
    detectCategory asciiLowerCase "iPhone 12" = "smartphone" := by
  decide

/-- C10. `detectCondition` resolves by the priority new > like_new > for_parts > used
on the lower-cased `title + ' ' + description`: `new` whenever the text contains
`neuf`, `new` or `nouveau`; otherwise `like_new` when it contains `comme neuf`,
`like new` or `excellent`; otherwise `for_parts` when it contains `pièces`, `parts`
or `défectueux`; otherwise `used`. -/
theorem detectCondition_priority (toLowerCase : String → String)
    (title description : String) :
    detectCondition toLowerCase title description
      = firstMatchingRule conditionRules "used"
          (toLowerCase (title ++ " " ++ description)) ∧
    ((includes (toLowerCase (title ++ " " ++ description)) "neuf" = true ∨
      includes (toLowerCase (title ++ " " ++ description)) "new" = true ∨
      includes (toLowerCase (title ++ " " ++ description)) "nouveau" = true) →
      detectCondition toLowerCase title description = "new") ∧
    (includes (toLowerCase (title ++ " " ++ description)) "neuf" = false →
      includes (toLowerCase (title ++ " " ++ description)) "new" = false →
      includes (toLowerCase (title ++ " " ++ description)) "nouveau" = false →
      (includes (toLowerCase (title ++ " " ++ description)) "comme neuf" = true ∨
       includes (toLowerCase (title ++ " " ++ description)) "like new" = true ∨
       includes (toLowerCase (title ++ " " ++ description)) "excellent" = true) →
      detectCondition toLowerCase title description = "like_new") ∧
    (includes (toLowerCase (title ++ " " ++ description)) "neuf" = false →
      includes (toLowerCase (title ++ " " ++ description)) "new" = false →
      includes (toLowerCase (title ++ " " ++ description)) "nouveau" = false →
      includes (toLowerCase (title ++ " " ++ description)) "comme neuf" = false →
      includes (toLowerCase (title ++ " " ++ description)) "like new" = false →
      includes (toLowerCase (title ++ " " ++ description)) "excellent" = false →
      (includes (toLowerCase (title ++ " " ++ description)) "pièces" = true ∨
       includes (toLowerCase (title ++ " " ++ description)) "parts" = true ∨
       includes (toLowerCase (title ++ " " ++ description)) "défectueux" = true) →
      detectCondition toLowerCase title description = "for_parts") ∧
    (includes (toLowerCase (title ++ " " ++ description)) "neuf" = false →
      includes (toLowerCase (title ++ " " ++ description)) "new" = false →
      includes (toLowerCase (title ++ " " ++ description)) "nouveau" = false →
      includes (toLowerCase (title ++ " " ++ description)) "comme neuf" = false →
      includes (toLowerCase (title ++ " " ++ description)) "like new" = false →
      includes (toLowerCase (title ++ " " ++ description)) "excellent" = false →
      includes (toLowerCase (title ++ " " ++ description)) "pièces" = false →
      includes (toLowerCase (title ++ " " ++ description)) "parts" = false →
      includes (toLowerCase (title ++ " " ++ description)) "défectueux" = false →
      detectCondition toLowerCase title description = "used") := by
  simp only [detectCondition, firstMatchingRule, conditionRules, List.find?, List.any,
    Bool.or_false]
  generalize toLowerCase (title ++ " " ++ description) = text
  generalize includes text "neuf" = b1
  generalize includes text "new" = b2
  generalize includes text "nouveau" = b3
  generalize includes text "comme neuf" = b4
  generalize includes text "like new" = b5
  generalize includes text "excellent" = b6
  generalize includes text "pièces" = b7
  generalize includes text "parts" = b8
  generalize includes text "défectueux" = b9
  cases b1 <;> cases b2 <;> cases b3 <;> cases b4 <;> cases b5 <;> cases b6 <;>
    cases b7 <;> cases b8 <;> cases b9 <;> simp

/-- The four outcomes of `detectCondition` on concrete titles. -/
theorem detectCondition_examples :
    detectCondition asciiLowerCase "Samsung A12 NEUF sous blister" = "new" ∧
    detectCondition asciiLowerCase "Redmi Note 9" "Excellent etat" = "like_new" ∧
    detectCondition asciiLowerCase "iPhone X for Parts" = "for_parts" ∧
    detectCondition asciiLowerCase "Nokia 3310" "occasion" = "used" := by
  decide

end BaseScraper

namespace BaseScraper

/-! ### Brand detection -/

theorem extractBrandLoop_eq_firstBrand (toUpperCase : String → String) (title : String)
    (entries : List String) :
    extractBrandLoop toUpperCase (toUpperCase title) entries
      = firstBrand toUpperCase entries title := by
  induction entries with
  | nil => rfl
  | cons b rest ih =>
    unfold extractBrandLoop firstBrand
    by_cases hb : includes (toUpperCase title) (toUpperCase b) = true
    · simp only [hb, if_true, List.find?_cons_of_pos]
      unfold brandName
      by_cases h1 : b = "iPhone"
      · simp [h1]
      · by_cases h2 : b = "Pixel"
        · simp [h2]
        · simp [h1, h2]
    · have hb' : includes (toUpperCase title) (toUpperCase b) = false := by
        simpa using hb
      rw [if_neg hb, ih]
      unfold firstBrand
      rw [List.find?_cons_of_neg _ (by simp [hb'])]

/-- The first match in a list split at that entry. -/
theorem firstBrand_split (toUpperCase : String → String) (title : String)
    (before after : List String) (b : String)
    (hb : includes (toUpperCase title) (toUpperCase b) = true)
    (hbefore : ∀ q ∈ before, includes (toUpperCase title) (toUpperCase q) = false) :
    firstBrand toUpperCase (before ++ b :: after) title = brandName b := by
  unfold firstBrand
  have hnone : before.find? (fun b => includes (toUpperCase title) (toUpperCase b)) = none :=
    List.find?_eq_none.mpr (fun q hq => by simp [hbefore q hq])
  rw [List.find?_append, hnone, Option.none_or]
  simp only [List.find?, hb]

/-- C11. `extractBrand` returns, for every title, the name of the first entry of the
fixed brand list whose upper-cased form occurs in the upper-cased title, with
`iPhone` reported as `Apple` and `Pixel` as `Google`, and `Unknown` when no entry
occurs. So an entry wins over every later one, wherever each stands in the title. -/
theorem extractBrand_first_entry (toUpperCase : String → String) (title : String) :
    extractBrand toUpperCase title = firstBrand toUpperCase brands title ∧
    (∀ before after b, brands = before ++ b :: after →
      includes (toUpperCase title) (toUpperCase b) = true →
      (∀ q ∈ before, includes (toUpperCase title) (toUpperCase q) = false) →
      extractBrand toUpperCase title = brandName b) ∧
    ((∀ q ∈ brands, includes (toUpperCase title) (toUpperCase q) = false) →
      extractBrand toUpperCase title = "Unknown") ∧
    brandName "iPhone" = "Apple" ∧ brandName "Pixel" = "Google" ∧
    (∀ b ∈ brands, b ≠ "iPhone" → b ≠ "Pixel" → brandName b = b) := by
  have heq : extractBrand toUpperCase title = firstBrand toUpperCase brands title :=
    extractBrandLoop_eq_firstBrand toUpperCase title brands
  refine ⟨heq, ?_, ?_, by decide, by decide, ?_⟩
  · intro before after b hsplit hb hbefore
    rw [heq, hsplit]
    exact firstBrand_split toUpperCase title before after b hb hbefore
  · intro hnone
    rw [heq]
    unfold firstBrand
    rw [List.find?_eq_none.mpr (fun q hq => by simp [hnone q hq])]
  · intro b _ h1 h2
    unfold brandName
    rw [if_neg h1, if_neg h2]

/-- Witness for C11: a title naming `iPhone` before `Samsung` resolves to `Samsung`,
which stands earlier in the list. -/
theorem extractBrand_first_entry_witness :
    extractBrand asciiUpperCase "Coque iPhone 12 compatible Samsung" = brandName "Samsung" :=
  (extractBrand_first_entry asciiUpperCase "Coque iPhone 12 compatible Samsung").2.1
    [] (brands.drop 1) "Samsung" (by decide) (by decide) (by simp)

/-- Brand detection on concrete titles: list order decides, not the position in
the title; the two remapped entries; no match. -/
theorem extractBrand_examples :
    extractBrand asciiUpperCase "Coque iPhone 12 compatible Samsung" = "Samsung" ∧
    extractBrand asciiUpperCase "Samsung cable for iphone" = "Samsung" ∧
    extractBrand asciiUpperCase "iphone 13 pro max" = "Apple" ∧
    extractBrand asciiUpperCase "PIXEL 7a" = "Google" ∧
    extractBrand asciiUpperCase "Redmi Note 12 Xiaomi" = "Xiaomi" ∧
    extractBrand asciiUpperCase "Telephone portable" = "Unknown" := by
  decide

end BaseScraper

namespace PhoneService

/-! ### Writes of one create or update -/

theorem recordPriceTrend_frame (db : Store) (phoneId : Nat) (marketplace : String)
    (price : ℚ) (today : Int) (err : Option JsError) :
    (recordPriceTrend db phoneId marketplace price today err).2.phones = db.phones ∧
    (recordPriceTrend db phoneId marketplace price today err).2.phone_populations
      = db.phone_populations ∧
    (recordPriceTrend db phoneId marketplace price today err).2.trendCountDefault
      = db.trendCountDefault := by
  unfold recordPriceTrend
  cases err <;> exact ⟨rfl, rfl, rfl⟩

theorem recordPopulationMetrics_frame (db : Store) (phoneId : Nat) (marketplace : String)
    (total stock : Int) (today : Int) (err : Option JsError) :
    (recordPopulationMetrics db phoneId marketplace total stock today err).2.phones
      = db.phones ∧
    (recordPopulationMetrics db phoneId marketplace total stock today err).2.price_trends
      = db.price_trends ∧
    (recordPopulationMetrics db phoneId marketplace total stock today err).2.trendCountDefault
      = db.trendCountDefault := by
  unfold recordPopulationMetrics
  cases err <;> exact ⟨rfl, rfl, rfl⟩

/-- The time-series writes never touch the catalog rows. -/
theorem recordTrendAndPopulation_phones (db : Store) (phoneId : Nat) (phoneData : Listing)
    (env : WriteEnv) :
    (recordTrendAndPopulation db phoneId phoneData env).2.phones = db.phones ∧
    (recordTrendAndPopulation db phoneId phoneData env).2.trendCountDefault
      = db.trendCountDefault := by
  unfold recordTrendAndPopulation
  by_cases hp : priceTruthy phoneData.price = true
  · simp only [hp, if_true]
    obtain ⟨f1, _, f3⟩ := recordPriceTrend_frame db phoneId phoneData.marketplace_name
      (phoneData.price.getD 0) env.today env.trendError
    rcases h : recordPriceTrend db phoneId phoneData.marketplace_name
      (phoneData.price.getD 0) env.today env.trendError with ⟨r, db1⟩
    rw [h] at f1 f3
    cases r with
    | error e => exact ⟨f1, f3⟩
    | ok u =>
      obtain ⟨g1, _, g3⟩ := recordPopulationMetrics_frame db1 phoneId
        phoneData.marketplace_name 1 (phoneData.stock_level.getD 0) env.today
        env.populationError
      exact ⟨g1.trans f1, g3.trans f3⟩
  · simp only [hp]
    obtain ⟨g1, _, g3⟩ := recordPopulationMetrics_frame db phoneId
      phoneData.marketplace_name 1 (phoneData.stock_level.getD 0) env.today
      env.populationError
    exact ⟨g1, g3⟩

/-- The catalog rows after an `updatePhone` whose row `UPDATE` is applied. -/
theorem updatePhone_phones (db : Store) (phoneId : Nat) (phoneData : Listing)
    (env : WriteEnv) (hrow : env.rowError = none) :
    (updatePhone db phoneId phoneData env).2.phones
      = db.phones.map (fun p => if p.id = phoneId then mergeRow p phoneData env.now else p) := by
  unfold updatePhone
  simp only [hrow]
  exact (recordTrendAndPopulation_phones _ phoneId phoneData env).1

/-- C12. `updatePhone(id, item)` merges into the stored row. When its row `UPDATE` is
applied (whatever the later time-series writes do), the catalog keeps its rows in
place; the row with that id takes, for each of price, image_url, source_url,
stock_level and availability_status, the incoming value when that is non-null and
keeps the stored one when it is null; its listing_count grows by exactly 1; its
model, brand, category, condition and marketplace are unchanged; every other row
is unchanged. -/
theorem updatePhone_merges_row (db : Store) (phoneId : Nat) (phoneData : Listing)
    (env : WriteEnv) (hrow : env.rowError = none) :
    List.Forall₂
      (fun p p' =>
        (p.id ≠ phoneId → p' = p) ∧
        (p.id = phoneId →
          (∀ v, phoneData.price = some v → p'.price = some v) ∧
          (phoneData.price = none → p'.price = p.price) ∧
          (∀ v, phoneData.image_url = some v → p'.image_url = some v) ∧
          (phoneData.image_url = none → p'.image_url = p.image_url) ∧
          (∀ v, phoneData.source_url = some v → p'.source_url = some v) ∧
          (phoneData.source_url = none → p'.source_url = p.source_url) ∧
          (∀ v, phoneData.stock_level = some v → p'.stock_level = some v) ∧
          (phoneData.stock_level = none → p'.stock_level = p.stock_level) ∧
          (∀ v, phoneData.availability_status = some v →
            p'.availability_status = some v) ∧
          (phoneData.availability_status = none →
            p'.availability_status = p.availability_status) ∧
          p'.listing_count = p.listing_count + 1 ∧
          p'.id = p.id ∧ p'.model = p.model ∧ p'.brand = p.brand ∧
          p'.category = p.category ∧ p'.condition = p.condition ∧
          p'.marketplace_name = p.marketplace_name ∧ p'.currency = p.currency ∧
          p'.created_at = p.created_at))
      db.phones (updatePhone db phoneId phoneData env).2.phones := by
  rw [updatePhone_phones db phoneId phoneData env hrow, List.forall₂_map_right_iff]
  apply List.forall₂_same.mpr
  intro p _
  by_cases hid : p.id = phoneId
  · simp only [hid, if_true, ne_eq, not_true_eq_false, false_imp_iff, true_and,
      forall_true_left]
    unfold mergeRow
    refine ⟨?_, ?_, ?_, ?_, ?_, ?_, ?_, ?_, ?_, ?_, rfl, hid, rfl, rfl, rfl, rfl, rfl,
      rfl, rfl⟩ <;>
    · intro h
      try intro h'
      first
        | (rw [h]; rfl)
        | (rw [h']; rfl)
  · simp [hid]

/-- Witness for C12: a listing with a price and no image merged into row 1 of the
sample store; the price is replaced, the image is kept, the count grows by 1. -/
theorem updatePhone_merges_row_witness :
    quietWrite.rowError = none ∧
    (updatePhone sampleStore 1 sampleListing quietWrite).2.phones
      = [{ samplePhone 1 "Galaxy S21" with
           price := some 45000, image_url := some "https://img/1.jpg",
           source_url := some "https://www.ouedkniss.com/annonce/1",
           listing_count := 2, scraped_at := 1728000000000,
           updated_at := 1728000000000 }] ∧
    sampleStore.phones.length
      = (updatePhone sampleStore 1 sampleListing quietWrite).2.phones.length :=
  ⟨rfl, by decide,
   (updatePhone_merges_row sampleStore 1 sampleListing quietWrite rfl).length_eq⟩

end PhoneService

namespace PhoneService

/-! ### Same-day upserts -/

/-- Rewriting the rows of a key in place and then selecting that key is selecting
first and rewriting after, when the rewrite keeps the key. -/
theorem filter_map_bump {α : Type} (k : α → Bool) (bump : α → α)
    (hk : ∀ a, k (bump a) = k a) (rows : List α) :
    (rows.map (fun a => if k a then bump a else a)).filter k = (rows.filter k).map bump := by
  induction rows with
  | nil => rfl
  | cons a rest ih =>
    by_cases ha : k a = true
    · simp only [List.map_cons, ha, if_true, List.filter_cons, hk a, ih]
    · have ha' : k a = false := by simpa using ha
      simp only [List.map_cons, ha', Bool.false_eq_true, if_false, List.filter_cons, ih]

theorem filter_eq_nil_of_any_false {α : Type} (k : α → Bool) (rows : List α)
    (h : rows.any k = false) : rows.filter k = [] := by
  rw [List.filter_eq_nil_iff]
  intro a ha hka
  have : rows.any k = true := List.any_eq_true.mpr ⟨a, ha, hka⟩
  rw [h] at this
  exact absurd this (by decide)

theorem any_true_of_filter_cons {α : Type} (k : α → Bool) (rows : List α) (a : α)
    (rest : List α) (h : rows.filter k = a :: rest) : rows.any k = true := by
  have hmem : a ∈ rows.filter k := by rw [h]; exact List.mem_cons_self _ _
  obtain ⟨h1, h2⟩ := List.mem_filter.mp hmem
  exact List.any_eq_true.mpr ⟨a, h1, h2⟩

/-- A price-trend upsert when the day has no row for the key: one fresh row. -/
theorem upsertPriceTrend_fresh (rows : List PriceTrend) (d : Int) (phoneId : Nat)
    (m : String) (v : ℚ) (today : Int)
    (h : rows.filter (sameTrendKey phoneId m today) = []) :
    (upsertPriceTrend rows d phoneId m v today).filter (sameTrendKey phoneId m today)
      = [{ phone_id := phoneId, marketplace_name := m, price := v, recorded_date := today,
           availability_count := d }] := by
  unfold upsertPriceTrend
  have hany : rows.any (sameTrendKey phoneId m today) = false := by
    cases hb : rows.any (sameTrendKey phoneId m today) with
    | false => rfl
    | true =>
      obtain ⟨a, ha, hka⟩ := List.any_eq_true.mp hb
      have : a ∈ rows.filter (sameTrendKey phoneId m today) := List.mem_filter.mpr ⟨ha, hka⟩
      rw [h] at this
      exact absurd this (List.not_mem_nil _)
  simp only [hany, Bool.false_eq_true, if_false, List.filter_append, h, List.nil_append]
  simp [sameTrendKey]

/-- A price-trend upsert when the day has one row for the key: that row takes the
new price and its count grows by one; no row is added. -/
theorem upsertPriceTrend_existing (rows : List PriceTrend) (d : Int) (phoneId : Nat)
    (m : String) (v : ℚ) (today : Int) (t : PriceTrend)
    (h : rows.filter (sameTrendKey phoneId m today) = [t]) :
    (upsertPriceTrend rows d phoneId m v today).filter (sameTrendKey phoneId m today)
      = [{ t with price := v, availability_count := t.availability_count + 1 }] := by
  unfold upsertPriceTrend
  rw [if_pos (any_true_of_filter_cons _ rows t [] h)]
  rw [filter_map_bump (sameTrendKey phoneId m today)
    (fun t => { t with price := v, availability_count := t.availability_count + 1 })
    (fun a => rfl) rows, h]
  rfl

/-- A population upsert when the day has no row for the key: one fresh row. -/
theorem upsertPopulation_fresh (rows : List Population) (phoneId : Nat) (m : String)
    (total stock : Int) (today : Int)
    (h : rows.filter (samePopulationKey phoneId m today) = []) :
    (upsertPopulation rows phoneId m total stock today).filter
        (samePopulationKey phoneId m today)
      = [{ phone_id := phoneId, marketplace_source := m, total_listings := total,
           stock_count := stock, recorded_date := today }] := by
  unfold upsertPopulation
  have hany : rows.any (samePopulationKey phoneId m today) = false := by
    cases hb : rows.any (samePopulationKey phoneId m today) with
    | false => rfl
    | true =>
      obtain ⟨a, ha, hka⟩ := List.any_eq_true.mp hb
      have : a ∈ rows.filter (samePopulationKey phoneId m today) :=
        List.mem_filter.mpr ⟨ha, hka⟩
      rw [h] at this
      exact absurd this (List.not_mem_nil _)
  simp only [hany, Bool.false_eq_true, if_false, List.filter_append, h, List.nil_append]
  simp [samePopulationKey]

/-- A population upsert when the day has one row for the key: its totals grow by
the increments; no row is added. -/
theorem upsertPopulation_existing (rows : List Population) (phoneId : Nat) (m : String)
    (total stock : Int) (today : Int) (r : Population)
    (h : rows.filter (samePopulationKey phoneId m today) = [r]) :
    (upsertPopulation rows phoneId m total stock today).filter
        (samePopulationKey phoneId m today)
      = [{ r with total_listings := r.total_listings + total,
                  stock_count := r.stock_count + stock }] := by
  unfold upsertPopulation
  rw [if_pos (any_true_of_filter_cons _ rows r [] h)]
  rw [filter_map_bump (samePopulationKey phoneId m today)
    (fun r => { r with total_listings := r.total_listings + total,
                       stock_count := r.stock_count + stock })
    (fun a => rfl) rows, h]
  rfl

end PhoneService

namespace PhoneService

/-- The store after an `updatePhone` all of whose writes are accepted. -/
theorem updatePhone_accepted (db : Store) (phoneId : Nat) (phoneData : Listing)
    (env : WriteEnv) (today : Int) (h : env.acceptsOn today) :
    (updatePhone db phoneId phoneData env).2
      = { db with
          phones := db.phones.map (fun p =>
            if p.id = phoneId then mergeRow p phoneData env.now else p)
          price_trends :=
            if priceTruthy phoneData.price then
              upsertPriceTrend db.price_trends db.trendCountDefault phoneId
                phoneData.marketplace_name (phoneData.price.getD 0) today
            else db.price_trends
          phone_populations :=
            upsertPopulation db.phone_populations phoneId phoneData.marketplace_name 1
              (phoneData.stock_level.getD 0) today } := by
  obtain ⟨h1, h2, h3, h4⟩ := h
  unfold updatePhone recordTrendAndPopulation recordPriceTrend recordPopulationMetrics
  simp only [h1, h2, h3, h4]
  by_cases hp : priceTruthy phoneData.price = true
  · simp only [hp, if_true]
  · simp only [hp, Bool.false_eq_true, if_false]

theorem priceTruthy_some {v : ℚ} (hv : v ≠ 0) : priceTruthy (some v) = true := by
  unfold priceTruthy
  simpa using hv

/-- Listing counts after repeated accepted saves. -/
theorem updateRepeatedly_phones (phoneId : Nat) (phoneData : Listing) (today : Int)
    (envs : List WriteEnv) :
    ∀ db : Store, (∀ e ∈ envs, e.acceptsOn today) →
      List.Forall₂
        (fun p p' =>
          (p.id = phoneId → p'.listing_count = p.listing_count + envs.length ∧
            p'.id = p.id ∧ p'.model = p.model ∧ p'.brand = p.brand ∧
            p'.marketplace_name = p.marketplace_name) ∧
          (p.id ≠ phoneId → p' = p))
        db.phones (updateRepeatedly db phoneId phoneData envs).phones := by
  induction envs with
  | nil =>
    intro db _
    apply List.forall₂_same.mpr
    intro p _
    exact ⟨fun _ => ⟨rfl, rfl, rfl, rfl, rfl⟩, fun _ => rfl⟩
  | cons e rest ih =>
    intro db hall
    have he := hall e (List.mem_cons_self _ _)
    have hrest : ∀ e' ∈ rest, e'.acceptsOn today :=
      fun e' h' => hall e' (List.mem_cons_of_mem _ h')
    have hstep := ih (updatePhone db phoneId phoneData e).2 hrest
    unfold updateRepeatedly
    rw [updatePhone_accepted db phoneId phoneData e today he] at hstep ⊢
    simp only at hstep ⊢
    rw [List.forall₂_map_left_iff] at hstep
    refine hstep.imp ?_
    intro p p' ⟨h1, h2⟩
    by_cases hid : p.id = phoneId
    · simp only [hid, if_true] at h1 h2
      have hm : (mergeRow p phoneData e.now).id = phoneId := by
        unfold mergeRow; exact hid
      obtain ⟨c1, c2, c3, c4, c5⟩ := h1 hm
      refine ⟨fun _ => ⟨?_, ?_, ?_, ?_, ?_⟩, fun hne => absurd hid hne⟩
      · rw [c1]
        unfold mergeRow
        simp only [List.length_cons]
        omega
      · rw [c2]; rfl
      · rw [c3]; rfl
      · rw [c4]; rfl
      · rw [c5]; rfl
    · simp only [hid, if_false] at h1 h2
      exact ⟨fun h => absurd h hid, fun _ => h2 hid⟩

/-- Price-trend row of the key after repeated accepted saves, when the day already
has its row. -/
theorem updateRepeatedly_trend_existing (phoneId : Nat) (phoneData : Listing) (today : Int)
    (v : ℚ) (hprice : phoneData.price = some v) (hv : v ≠ 0) (envs : List WriteEnv) :
    ∀ (db : Store) (t : PriceTrend), (∀ e ∈ envs, e.acceptsOn today) →
      db.price_trends.filter (sameTrendKey phoneId phoneData.marketplace_name today) = [t] →
      (updateRepeatedly db phoneId phoneData envs).price_trends.filter
          (sameTrendKey phoneId phoneData.marketplace_name today)
        = [{ t with
             price := if envs.length = 0 then t.price else v
             availability_count := t.availability_count + envs.length }] := by
  induction envs with
  | nil =>
    intro db t _ ht
    simp only [updateRepeatedly, ht, List.length_nil, if_true, Nat.cast_zero, add_zero]
  | cons e rest ih =>
    intro db t hall ht
    have he := hall e (List.mem_cons_self _ _)
    have hrest : ∀ e' ∈ rest, e'.acceptsOn today :=
      fun e' h' => hall e' (List.mem_cons_of_mem _ h')
    have hone : (updatePhone db phoneId phoneData e).2.price_trends.filter
        (sameTrendKey phoneId phoneData.marketplace_name today)
        = [{ t with price := v, availability_count := t.availability_count + 1 }] := by
      rw [updatePhone_accepted db phoneId phoneData e today he]
      simp only [hprice, priceTruthy_some hv, if_true, Option.getD_some]
      exact upsertPriceTrend_existing _ _ _ _ _ _ t ht
    unfold updateRepeatedly
    rw [ih _ _ hrest hone]
    simp only [List.length_cons, Nat.succ_ne_zero, if_false, Nat.cast_add, Nat.cast_one,
      ite_self]
    congr 2
    ring

/-- Population row of the key after repeated accepted saves, when the day already
has its row. -/
theorem updateRepeatedly_population_existing (phoneId : Nat) (phoneData : Listing)
    (today : Int) (envs : List WriteEnv) :
    ∀ (db : Store) (r : Population), (∀ e ∈ envs, e.acceptsOn today) →
      db.phone_populations.filter
          (samePopulationKey phoneId phoneData.marketplace_name today) = [r] →
      (updateRepeatedly db phoneId phoneData envs).phone_populations.filter
          (samePopulationKey phoneId phoneData.marketplace_name today)
        = [{ r with
             total_listings := r.total_listings + envs.length
             stock_count := r.stock_count + envs.length * phoneData.stock_level.getD 0 }] := by
  induction envs with
  | nil =>
    intro db r _ hr
    simp only [updateRepeatedly, hr, List.length_nil, Nat.cast_zero, add_zero, zero_mul]
  | cons e rest ih =>
    intro db r hall hr
    have he := hall e (List.mem_cons_self _ _)
    have hrest : ∀ e' ∈ rest, e'.acceptsOn today :=
      fun e' h' => hall e' (List.mem_cons_of_mem _ h')
    have hone : (updatePhone db phoneId phoneData e).2.phone_populations.filter
        (samePopulationKey phoneId phoneData.marketplace_name today)
        = [{ r with total_listings := r.total_listings + 1,
                    stock_count := r.stock_count + phoneData.stock_level.getD 0 }] := by
      rw [updatePhone_accepted db phoneId phoneData e today he]
      exact upsertPopulation_existing _ _ _ _ _ _ r hr
    unfold updateRepeatedly
    rw [ih _ _ hrest hone]
    simp only [List.length_cons, Nat.cast_add, Nat.cast_one]
    congr 2 <;> ring

/-- With a `null` price no save writes a price-trend row. -/
theorem updateRepeatedly_trend_untouched (phoneId : Nat) (phoneData : Listing)
    (today : Int) (hprice : phoneData.price = none) (envs : List WriteEnv) :
    ∀ db : Store, (∀ e ∈ envs, e.acceptsOn today) →
      (updateRepeatedly db phoneId phoneData envs).price_trends = db.price_trends := by
  induction envs with
  | nil => intro db _; rfl
  | cons e rest ih =>
    intro db hall
    have he := hall e (List.mem_cons_self _ _)
    have hrest : ∀ e' ∈ rest, e'.acceptsOn today :=
      fun e' h' => hall e' (List.mem_cons_of_mem _ h')
    unfold updateRepeatedly
    rw [ih _ hrest, updatePhone_accepted db phoneId phoneData e today he]
    simp [hprice, priceTruthy]

end PhoneService

namespace PhoneService

/-- Counterexample to C13 as stated. One accepted save of a listing without a price
for phone 1: the listing count grows by 1 and the population row is written, but
no price-trend row exists for the (phone, marketplace, date) key, not exactly one;
and a second identical save changes nothing about that. -/
theorem unpriced_save_leaves_no_trend_row :
    ((updateRepeatedly sampleStore 1 unpricedListing [quietWrite]).price_trends.filter
      (sameTrendKey 1 "ouedkniss" 20000)).length = 0 ∧
    ((updateRepeatedly sampleStore 1 unpricedListing
        [quietWrite, quietWrite]).price_trends.filter
      (sameTrendKey 1 "ouedkniss" 20000)).length = 0 ∧
    ((updateRepeatedly sampleStore 1 unpricedListing [quietWrite]).phone_populations.filter
      (samePopulationKey 1 "ouedkniss" 20000)).length = 1 ∧
    (updateRepeatedly sampleStore 1 unpricedListing [quietWrite]).phones.map
      (fun p => p.listing_count) = [2] := by
  decide

/-- C13 as amended. For every phone, every item and every n ≥ 1, n accepted
`updatePhone` saves of the item on the same day raise the phone's listing_count by
exactly n and leave every other catalog row as it was. When the item's price is
present and not zero, they leave exactly one price-trend row for the
(phone, marketplace, date) key: the day's row with its count raised by n and the
item's price if the day had a row, else a fresh row whose count is the column
default raised by n - 1. When the price is `null` no price-trend row is written.
They leave exactly one population row for the key, with the listing total raised
by n and the stock total by n times the item's stock level, counted from zero if
the day had no row. -/
theorem repeated_saves_accumulate (db : Store) (phoneId : Nat) (phoneData : Listing)
    (today : Int) (envs : List WriteEnv) (haccept : ∀ e ∈ envs, e.acceptsOn today)
    (hn : 1 ≤ envs.length) :
    List.Forall₂
      (fun p p' =>
        (p.id = phoneId → p'.listing_count = p.listing_count + envs.length ∧
          p'.id = p.id ∧ p'.model = p.model ∧ p'.brand = p.brand ∧
          p'.marketplace_name = p.marketplace_name) ∧
        (p.id ≠ phoneId → p' = p))
      db.phones (updateRepeatedly db phoneId phoneData envs).phones ∧
    (∀ v, phoneData.price = some v → v ≠ 0 →
      (∀ t, db.price_trends.filter
            (sameTrendKey phoneId phoneData.marketplace_name today) = [t] →
        (updateRepeatedly db phoneId phoneData envs).price_trends.filter
            (sameTrendKey phoneId phoneData.marketplace_name today)
          = [{ t with price := v,
                      availability_count := t.availability_count + envs.length }]) ∧
      (db.price_trends.filter
            (sameTrendKey phoneId phoneData.marketplace_name today) = [] →
        (updateRepeatedly db phoneId phoneData envs).price_trends.filter
            (sameTrendKey phoneId phoneData.marketplace_name today)
          = [{ phone_id := phoneId, marketplace_name := phoneData.marketplace_name,
               price := v, recorded_date := today,
               availability_count := db.trendCountDefault + (envs.length - 1 : Nat) }])) ∧
    (phoneData.price = none →
      (updateRepeatedly db phoneId phoneData envs).price_trends = db.price_trends) ∧
    (∀ r, db.phone_populations.filter
          (samePopulationKey phoneId phoneData.marketplace_name today) = [r] →
      (updateRepeatedly db phoneId phoneData envs).phone_populations.filter
          (samePopulationKey phoneId phoneData.marketplace_name today)
        = [{ r with
             total_listings := r.total_listings + envs.length,
             stock_count := r.stock_count +
               envs.length * phoneData.stock_level.getD 0 }]) ∧
    (db.phone_populations.filter
          (samePopulationKey phoneId phoneData.marketplace_name today) = [] →
      (updateRepeatedly db phoneId phoneData envs).phone_populations.filter
          (samePopulationKey phoneId phoneData.marketplace_name today)
        = [{ phone_id := phoneId, marketplace_source := phoneData.marketplace_name,
             total_listings := envs.length,
             stock_count := envs.length * phoneData.stock_level.getD 0,
             recorded_date := today }]) := by
  refine ⟨updateRepeatedly_phones phoneId phoneData today envs db haccept, ?_, ?_, ?_, ?_⟩
  · intro v hprice hv
    constructor
    · intro t ht
      rw [updateRepeatedly_trend_existing phoneId phoneData today v hprice hv envs db t
        haccept ht]
      have : envs.length ≠ 0 := by omega
      simp only [this, if_false]
    · intro hnone
      cases envs with
      | nil => simp at hn
      | cons e rest =>
        have he := haccept e (List.mem_cons_self _ _)
        have hrest : ∀ e' ∈ rest, e'.acceptsOn today :=
          fun e' h' => haccept e' (List.mem_cons_of_mem _ h')
        have hone : (updatePhone db phoneId phoneData e).2.price_trends.filter
            (sameTrendKey phoneId phoneData.marketplace_name today)
            = [{ phone_id := phoneId, marketplace_name := phoneData.marketplace_name,
                 price := v, recorded_date := today,
                 availability_count := db.trendCountDefault }] := by
          rw [updatePhone_accepted db phoneId phoneData e today he]
          simp only [hprice, priceTruthy_some hv, if_true, Option.getD_some]
          exact upsertPriceTrend_fresh _ _ _ _ _ _ hnone
        unfold updateRepeatedly
        rw [updateRepeatedly_trend_existing phoneId phoneData today v hprice hv rest _ _
          hrest hone]
        simp only [List.length_cons, Nat.add_sub_cancel, ite_self]
  · intro hprice
    exact updateRepeatedly_trend_untouched phoneId phoneData today hprice envs db haccept
  · intro r hr
    exact updateRepeatedly_population_existing phoneId phoneData today envs db r haccept hr
  · intro hnone
    cases envs with
    | nil => simp at hn
    | cons e rest =>
      have he := haccept e (List.mem_cons_self _ _)
      have hrest : ∀ e' ∈ rest, e'.acceptsOn today :=
        fun e' h' => haccept e' (List.mem_cons_of_mem _ h')
      have hone : (updatePhone db phoneId phoneData e).2.phone_populations.filter
          (samePopulationKey phoneId phoneData.marketplace_name today)
          = [{ phone_id := phoneId, marketplace_source := phoneData.marketplace_name,
               total_listings := 1, stock_count := phoneData.stock_level.getD 0,
               recorded_date := today }] := by
        rw [updatePhone_accepted db phoneId phoneData e today he]
        exact upsertPopulation_fresh _ _ _ _ _ _ hnone
      unfold updateRepeatedly
      rw [updateRepeatedly_population_existing phoneId phoneData today rest _ _ hrest hone]
      simp only [List.length_cons, Nat.cast_add, Nat.cast_one]
      congr 2 <;> ring

/-- Witness for the amended C13: three accepted saves of a priced listing for phone 1
on day 20000, starting without time-series rows. -/
theorem repeated_saves_accumulate_witness :
    (∀ e ∈ [quietWrite, quietWrite, quietWrite], e.acceptsOn 20000) ∧
    (updateRepeatedly sampleStore 1 sampleListing
        [quietWrite, quietWrite, quietWrite]).price_trends.filter
        (sameTrendKey 1 sampleListing.marketplace_name 20000)
      = [{ phone_id := 1, marketplace_name := sampleListing.marketplace_name,
           price := 45000, recorded_date := 20000,
           availability_count :=
             sampleStore.trendCountDefault +
               (([quietWrite, quietWrite, quietWrite].length - 1 : Nat) : Int) }] :=
  have haccept : ∀ e ∈ [quietWrite, quietWrite, quietWrite], e.acceptsOn 20000 := by
    intro e he
    simp only [List.mem_cons, List.mem_singleton, List.not_mem_nil, or_false, or_self]
      at he
    rw [he]
    exact ⟨rfl, rfl, rfl, rfl⟩
  ⟨haccept,
   (repeated_saves_accumulate sampleStore 1 sampleListing 20000
      [quietWrite, quietWrite, quietWrite] haccept (by decide)).2.1 45000 rfl
      (by decide) |>.2 (by decide)⟩

/-- Three accepted saves of a priced listing, evaluated: one trend row counting 3
(column default 1), one population row with totals 3 and 3, listing count 4. -/
theorem repeated_saves_example :
    (updateRepeatedly sampleStore 1 sampleListing
        [quietWrite, quietWrite, quietWrite]).price_trends
      = [{ phone_id := 1, marketplace_name := "ouedkniss", price := 45000,
           recorded_date := 20000, availability_count := 3 }] ∧
    (updateRepeatedly sampleStore 1 sampleListing
        [quietWrite, quietWrite, quietWrite]).phone_populations
      = [{ phone_id := 1, marketplace_source := "ouedkniss", total_listings := 3,
           stock_count := 3, recorded_date := 20000 }] ∧
    (updateRepeatedly sampleStore 1 sampleListing
        [quietWrite, quietWrite, quietWrite]).phones.map (fun p => p.listing_count)
      = [4] := by
  decide

end PhoneService

namespace PhoneService

/-! ### `createPhone`: the price-trend point and partial writes -/

/-- The time-series writes of one create or update when the store accepts them:
a price-trend point exactly when the price is truthy, the population metric always. -/
theorem recordTrendAndPopulation_accepted (db : Store) (phoneId : Nat)
    (phoneData : Listing) (env : WriteEnv) (ht : env.trendError = none)
    (hp : env.populationError = none) :
    recordTrendAndPopulation db phoneId phoneData env
      = (.ok (),
          { db with
            price_trends :=
              if priceTruthy phoneData.price then
                upsertPriceTrend db.price_trends db.trendCountDefault phoneId
                  phoneData.marketplace_name (phoneData.price.getD 0) env.today
              else db.price_trends
            phone_populations :=
              upsertPopulation db.phone_populations phoneId phoneData.marketplace_name 1
                (phoneData.stock_level.getD 0) env.today }) := by
  unfold recordTrendAndPopulation recordPriceTrend recordPopulationMetrics
  simp only [ht, hp]
  by_cases h : priceTruthy phoneData.price = true
  · simp only [h, if_true]
  · simp only [h, Bool.false_eq_true, if_false]

/-- For a price that is present and not zero `createPhone` writes the day's
price-trend point for the new row, for a `null` price it writes none, and it writes
the population metric in both cases. -/
theorem createPhone_trend_point (db : Store) (phoneData : Listing) (env : WriteEnv)
    (hr : env.rowError = none) (ht : env.trendError = none)
    (hp : env.populationError = none) :
    (createPhone db phoneData env).1 = .ok db.nextId ∧
    (∀ v, phoneData.price = some v → v ≠ 0 →
      (createPhone db phoneData env).2.price_trends
        = upsertPriceTrend db.price_trends db.trendCountDefault db.nextId
            phoneData.marketplace_name v env.today) ∧
    (phoneData.price = none →
      (createPhone db phoneData env).2.price_trends = db.price_trends) ∧
    (createPhone db phoneData env).2.phone_populations
      = upsertPopulation db.phone_populations db.nextId phoneData.marketplace_name 1
          (phoneData.stock_level.getD 0) env.today := by
  unfold createPhone
  rw [hr]
  simp only [recordTrendAndPopulation_accepted _ _ _ _ ht hp]
  refine ⟨trivial, ?_, ?_, ?_⟩
  · intro v hv hne
    simp only [hv, priceTruthy_some hne, if_true, Option.getD_some]
  · intro hv
    simp [hv, priceTruthy]
  · trivial

/-- C14, evaluated at the failing input: a listing whose price is the number 0
(present, not `null`). `createPhone` stores the row with price 0 and writes the
population metric, but writes no price-trend point: the guard `if (phoneData.price)`
reads 0 as absent. -/
theorem createPhone_skips_trend_for_zero_price :
    zeroPricedListing.price = some 0 ∧
    (createPhone sampleStore zeroPricedListing quietWrite).1 = .ok 2 ∧
    ((createPhone sampleStore zeroPricedListing quietWrite).2.phones.filter
      (fun p => p.id = 2)).map (fun p => p.price) = [some 0] ∧
    (createPhone sampleStore zeroPricedListing quietWrite).2.price_trends = [] ∧
    (createPhone sampleStore zeroPricedListing quietWrite).2.phone_populations
      = [{ phone_id := 2, marketplace_source := "ouedkniss", total_listings := 1,
           stock_count := 1, recorded_date := 20000 }] :=
  ⟨rfl, rfl, by decide, by decide, by decide⟩

/-- The same call with the price 45000 writes the point. -/
theorem createPhone_example :
    (createPhone sampleStore sampleListing quietWrite).2.price_trends
      = [{ phone_id := 2, marketplace_name := "ouedkniss", price := 45000,
           recorded_date := 20000, availability_count := 1 }] ∧
    (createPhone sampleStore unpricedListing quietWrite).2.price_trends = [] := by
  decide

/-- Counterexample to C16 as stated. The price-trend write of a `createPhone` fails:
the call rejects, yet the new listing row is persisted, with no trend row and no
population row for it. -/
theorem createPhone_leaves_partial_state :
    (createPhone sampleStore sampleListing trendFails).1 = .error ⟨"ER_LOCK_DEADLOCK"⟩ ∧
    (createPhone sampleStore sampleListing trendFails).2 ≠ sampleStore ∧
    ((createPhone sampleStore sampleListing trendFails).2.phones.map (fun p => p.id))
      = [1, 2] ∧
    (createPhone sampleStore sampleListing trendFails).2.price_trends = [] ∧
    (createPhone sampleStore sampleListing trendFails).2.phone_populations = [] :=
  ⟨rfl, by decide, by decide, by decide, by decide⟩

/-- C16 as amended. A create-or-update applies its writes one after the other,
without a transaction, and stops at the first that fails. If the listing-row write
fails the persisted state is the same as before the call. If the price-trend write
fails, the call rejects with the listing row persisted (inserted, or merged) and
neither time-series table written. If the population write fails, the call
rejects with the listing row and the price-trend point persisted. -/
theorem writes_persist_up_to_failure (db : Store) (phoneId : Nat) (phoneData : Listing)
    (env : WriteEnv) :
    (∀ e, env.rowError = some e →
      createPhone db phoneData env = (.error e, db) ∧
      updatePhone db phoneId phoneData env = (.error e, db)) ∧
    (∀ e, env.rowError = none → priceTruthy phoneData.price = true →
      env.trendError = some e →
      (createPhone db phoneData env).1 = .error e ∧
      (createPhone db phoneData env).2.phones.length = db.phones.length + 1 ∧
      (createPhone db phoneData env).2.price_trends = db.price_trends ∧
      (createPhone db phoneData env).2.phone_populations = db.phone_populations ∧
      (updatePhone db phoneId phoneData env).1 = .error e ∧
      (updatePhone db phoneId phoneData env).2.phones
        = db.phones.map (fun p =>
            if p.id = phoneId then mergeRow p phoneData env.now else p) ∧
      (updatePhone db phoneId phoneData env).2.price_trends = db.price_trends ∧
      (updatePhone db phoneId phoneData env).2.phone_populations = db.phone_populations) ∧
    (∀ e, env.rowError = none → env.trendError = none → env.populationError = some e →
      (createPhone db phoneData env).1 = .error e ∧
      (createPhone db phoneData env).2.phones.length = db.phones.length + 1 ∧
      (createPhone db phoneData env).2.price_trends
        = (if priceTruthy phoneData.price then
            upsertPriceTrend db.price_trends db.trendCountDefault db.nextId
              phoneData.marketplace_name (phoneData.price.getD 0) env.today
          else db.price_trends) ∧
      (createPhone db phoneData env).2.phone_populations = db.phone_populations ∧
      (updatePhone db phoneId phoneData env).1 = .error e ∧
      (updatePhone db phoneId phoneData env).2.phones
        = db.phones.map (fun p =>
            if p.id = phoneId then mergeRow p phoneData env.now else p) ∧
      (updatePhone db phoneId phoneData env).2.price_trends
        = (if priceTruthy phoneData.price then
            upsertPriceTrend db.price_trends db.trendCountDefault phoneId
              phoneData.marketplace_name (phoneData.price.getD 0) env.today
          else db.price_trends) ∧
      (updatePhone db phoneId phoneData env).2.phone_populations = db.phone_populations) := by
  refine ⟨?_, ?_, ?_⟩
  · intro e he
    unfold createPhone updatePhone
    rw [he]
    exact ⟨rfl, rfl⟩
  · intro e hr hp ht
    unfold createPhone updatePhone recordTrendAndPopulation recordPriceTrend
    rw [hr, hp, ht]
    simp
  · intro e hr ht hp
    unfold createPhone updatePhone recordTrendAndPopulation recordPriceTrend
      recordPopulationMetrics
    rw [hr, ht, hp]
    by_cases h : priceTruthy phoneData.price = true
    · rw [h]
      simp
    · have h' : priceTruthy phoneData.price = false := by simpa using h
      rw [h']
      simp

/-- Witness for the amended C16: a rejected listing-row write leaves the store as
it was. -/
theorem writes_persist_up_to_failure_witness :
    rowFails.rowError = some ⟨"ER_LOCK_DEADLOCK"⟩ ∧
    createPhone sampleStore sampleListing rowFails
      = (.error ⟨"ER_LOCK_DEADLOCK"⟩, sampleStore) ∧
    updatePhone sampleStore 1 sampleListing rowFails
      = (.error ⟨"ER_LOCK_DEADLOCK"⟩, sampleStore) :=
  ⟨rfl,
   (writes_persist_up_to_failure sampleStore 1 sampleListing rowFails).1
     ⟨"ER_LOCK_DEADLOCK"⟩ rfl⟩

end PhoneService

namespace PhoneService

/-! ### The batch loop -/

/-- The item-by-item record lists the batch, in order. -/
theorem itemOutcomes_items (ratio : String → String → Nat) (lower : String → String)
    (envs : Nat → ItemEnv) (batch : List Listing) :
    ∀ (i : Nat) (db : Store),
      (itemOutcomes ratio lower envs batch i db).map (fun x => x.1) = batch := by
  induction batch with
  | nil => intro i db; rfl
  | cons phoneData rest ih =>
    intro i db
    unfold itemOutcomes
    rw [List.map_cons, ih]

/-- Every item is created, updated or failed: the three tallies add up to the batch. -/
theorem itemOutcomes_tally (l : List (Listing × ItemOutcome)) :
    l.countP (fun x => x.2 = .created) + l.countP (fun x => x.2 = .updated) +
      l.countP (fun x => x.2 = .failed) = l.length := by
  induction l with
  | nil => rfl
  | cons x rest ih =>
    rcases x with ⟨item, o⟩
    cases o <;> simp [List.countP_cons] <;> omega

/-- The counters of the loop are the tallies of the item-by-item record. -/
theorem saveLoop_counts (ratio : String → String → Nat) (lower : String → String)
    (envs : Nat → ItemEnv) (batch : List Listing) :
    ∀ (i : Nat) (db : Store) (counts : SaveCounts),
      (saveLoop ratio lower envs batch i db counts).1.newListings
        = counts.newListings +
          (itemOutcomes ratio lower envs batch i db).countP (fun x => x.2 = .created) ∧
      (saveLoop ratio lower envs batch i db counts).1.updatedListings
        = counts.updatedListings +
          (itemOutcomes ratio lower envs batch i db).countP (fun x => x.2 = .updated) := by
  induction batch with
  | nil => intro i db counts; exact ⟨rfl, rfl⟩
  | cons phoneData rest ih =>
    intro i db counts
    unfold saveLoop itemOutcomes
    rcases h : saveItem ratio lower db phoneData (envs i) with ⟨r, db1⟩
    cases r with
    | error e =>
      obtain ⟨h1, h2⟩ := ih (i + 1) db1 counts
      simp only [outcomeOf, List.countP_cons]
      rw [h1, h2]
      simp
    | ok b =>
      cases b with
      | updated =>
        obtain ⟨h1, h2⟩ := ih (i + 1) db1
          { counts with updatedListings := counts.updatedListings + 1 }
        simp only [outcomeOf, List.countP_cons]
        rw [h1, h2]
        simp
        omega
      | created =>
        obtain ⟨h1, h2⟩ := ih (i + 1) db1
          { counts with newListings := counts.newListings + 1 }
        simp only [outcomeOf, List.countP_cons]
        rw [h1, h2]
        simp
        omega

/-- The loop saves every item, failed or not, against the store left by the items
before it. -/
theorem saveLoop_store (ratio : String → String → Nat) (lower : String → String)
    (envs : Nat → ItemEnv) (batch : List Listing) :
    ∀ (i : Nat) (db : Store) (counts : SaveCounts),
      (saveLoop ratio lower envs batch i db counts).2
        = storeAfterItems ratio lower envs batch i db := by
  induction batch with
  | nil => intro i db counts; rfl
  | cons phoneData rest ih =>
    intro i db counts
    unfold saveLoop storeAfterItems
    rcases h : saveItem ratio lower db phoneData (envs i) with ⟨r, db1⟩
    cases r with
    | error e => exact ih (i + 1) db1 counts
    | ok b =>
      cases b with
      | updated => exact ih (i + 1) db1 _
      | created => exact ih (i + 1) db1 _

/-- C15. `saveScrapedData` goes through every item of the batch, in order, whatever
became of the items before it: each item is matched and saved against the store
left by its predecessors. The counts it computes are tallies of that record:
`newListings` counts the items that found no match and were created without an
error, `updatedListings` those that matched and were updated without an error, and
an item whose match, create or update threw is in neither, so that
`newListings + updatedListings + failed` is the batch length. These counts are what
the call returns once the marketplace rollup that follows the loop is written. -/
theorem saveScrapedData_counts (ratio : String → String → Nat) (lower : String → String)
    (db : Store) (batch : List Listing) (marketplace : String) (envs : Nat → ItemEnv)
    (clock : Int) (statsError : Option JsError) :
    (itemOutcomes ratio lower envs batch 0 db).map (fun x => x.1) = batch ∧
    (saveLoop ratio lower envs batch 0 db ⟨0, 0⟩).2
      = storeAfterItems ratio lower envs batch 0 db ∧
    (saveLoop ratio lower envs batch 0 db ⟨0, 0⟩).1.newListings
      = (itemOutcomes ratio lower envs batch 0 db).countP (fun x => x.2 = .created) ∧
    (saveLoop ratio lower envs batch 0 db ⟨0, 0⟩).1.updatedListings
      = (itemOutcomes ratio lower envs batch 0 db).countP (fun x => x.2 = .updated) ∧
    (saveLoop ratio lower envs batch 0 db ⟨0, 0⟩).1.newListings +
      (saveLoop ratio lower envs batch 0 db ⟨0, 0⟩).1.updatedListings +
      (itemOutcomes ratio lower envs batch 0 db).countP (fun x => x.2 = .failed)
      = batch.length ∧
    (statsError = none →
      (saveScrapedData ratio lower db batch marketplace envs clock statsError).1
        = .ok (saveLoop ratio lower envs batch 0 db ⟨0, 0⟩).1) := by
  obtain ⟨h1, h2⟩ := saveLoop_counts ratio lower envs batch 0 db ⟨0, 0⟩
  simp only [Nat.zero_add] at h1 h2
  have hlen : (itemOutcomes ratio lower envs batch 0 db).length = batch.length := by
    have := congrArg List.length (itemOutcomes_items ratio lower envs batch 0 db)
    simpa using this
  refine ⟨itemOutcomes_items ratio lower envs batch 0 db,
    saveLoop_store ratio lower envs batch 0 db ⟨0, 0⟩, h1, h2, ?_, ?_⟩
  · rw [h1, h2, itemOutcomes_tally, hlen]
  · intro hs
    unfold saveScrapedData updateMarketplaceStats
    rw [hs]

/-- Witness for C15: a batch of three in which the second item fails; the first
matches and is updated, the third is created, and the call returns 1 and 1. -/
theorem saveScrapedData_counts_witness :
    (itemOutcomes exactRatio BaseScraper.asciiLowerCase secondItemFails sampleBatch 0
        sampleStore).map (fun x => x.2) = [.updated, .failed, .created] ∧
    (saveScrapedData exactRatio BaseScraper.asciiLowerCase sampleStore sampleBatch
        "ouedkniss" secondItemFails 1728000000000 none).1
      = .ok (saveLoop exactRatio BaseScraper.asciiLowerCase secondItemFails sampleBatch 0
          sampleStore ⟨0, 0⟩).1 ∧
    (saveLoop exactRatio BaseScraper.asciiLowerCase secondItemFails sampleBatch 0
        sampleStore ⟨0, 0⟩).1 = { newListings := 1, updatedListings := 1 } :=
  ⟨by decide,
   (saveScrapedData_counts exactRatio BaseScraper.asciiLowerCase sampleStore sampleBatch
      "ouedkniss" secondItemFails 1728000000000 none).2.2.2.2.2 rfl,
   by decide⟩

/-- The rollup is written outside the `try`: when it is rejected the call rejects,
after every item has been processed. -/
theorem saveScrapedData_rejects_on_rollup (ratio : String → String → Nat)
    (lower : String → String) (db : Store) (batch : List Listing) (marketplace : String)
    (envs : Nat → ItemEnv) (clock : Int) (e : JsError) :
    saveScrapedData ratio lower db batch marketplace envs clock (some e)
      = (.error e, (saveLoop ratio lower envs batch 0 db ⟨0, 0⟩).2) := by
  unfold saveScrapedData updateMarketplaceStats
  rfl

end PhoneService

namespace BaseScraper

/-! ### Retry loops -/

/-- The request loop from iteration `attempt` on, when every remaining request
fails: it runs to `maxRetries`, sleeps after each failure but the last, and throws
the last error. -/
theorem makeRequestLoop_all_fail {ρ : Type} (maxRetries : Nat)
    (axios : Nat → Except JsError ρ) (errs : Nat → JsError) (remaining : Nat) :
    ∀ (attempt : Nat) (lastError : Option JsError) (trace : RetryTrace),
      attempt + remaining = maxRetries + 1 →
      (∀ a, attempt ≤ a → a ≤ maxRetries → axios a = .error (errs a)) →
      makeRequestLoop maxRetries axios remaining attempt lastError trace
        = (.error (if remaining = 0 then lastError else some (errs maxRetries)),
            { attempts := trace.attempts + remaining,
              sleeps := trace.sleeps ++
                (List.range' attempt (remaining - 1)).map (fun a => 2 ^ a * 1000) }) := by
  induction remaining with
  | zero =>
    intro attempt lastError trace _ _
    simp [makeRequestLoop]
  | succ k ih =>
    intro attempt lastError trace hsum hfail
    unfold makeRequestLoop
    rw [hfail attempt (le_refl _) (by omega)]
    simp only
    by_cases hk : k = 0
    · subst hk
      have hlast : attempt = maxRetries := by omega
      have hnot : ¬ attempt < maxRetries := by omega
      rw [if_neg hnot, ih (attempt + 1) _ _ (by omega)
        (fun a h1 h2 => hfail a (by omega) h2)]
      simp [hlast]
    · have hlt : attempt < maxRetries := by omega
      rw [if_pos hlt, ih (attempt + 1) _ _ (by omega)
        (fun a h1 h2 => hfail a (by omega) h2)]
      simp only [hk, if_false, Nat.succ_ne_zero, Nat.add_sub_cancel]
      obtain ⟨j, rfl⟩ : ∃ j, k = j + 1 := ⟨k - 1, by omega⟩
      congr 1
      simp only [Nat.add_sub_cancel, List.range'_succ, List.map_cons, List.append_assoc,
        List.singleton_append, RetryTrace.mk.injEq]
      constructor
      · omega
      · trivial

/-- The request loop from iteration `attempt` on, when request `k` is the first to
succeed: it stops there, having slept after each failure before it. -/
theorem makeRequestLoop_first_success {ρ : Type} (maxRetries : Nat)
    (axios : Nat → Except JsError ρ) (k : Nat) (response : ρ) (remaining : Nat) :
    ∀ (attempt : Nat) (lastError : Option JsError) (trace : RetryTrace),
      attempt + remaining = maxRetries + 1 → attempt ≤ k → k ≤ maxRetries →
      (∀ a, attempt ≤ a → a < k → ∃ e, axios a = .error e) → axios k = .ok response →
      makeRequestLoop maxRetries axios remaining attempt lastError trace
        = (.ok response,
            { attempts := trace.attempts + (k + 1 - attempt),
              sleeps := trace.sleeps ++
                (List.range' attempt (k - attempt)).map (fun a => 2 ^ a * 1000) }) := by
  induction remaining with
  | zero =>
    intro attempt lastError trace hsum hle hk _ _
    omega
  | succ j ih =>
    intro attempt lastError trace hsum hle hk hfail hok
    unfold makeRequestLoop
    by_cases heq : attempt = k
    · subst heq
      rw [hok]
      simp
    · obtain ⟨e, he⟩ := hfail attempt (le_refl _) (by omega)
      rw [he]
      simp only
      have hlt : attempt < maxRetries := by omega
      rw [if_pos hlt, ih (attempt + 1) _ _ (by omega) (by omega) hk
        (fun a h1 h2 => hfail a (by omega) h2) hok]
      obtain ⟨d, hd⟩ : ∃ d, k - attempt = d + 1 := ⟨k - attempt - 1, by omega⟩
      have hd' : k - (attempt + 1) = d := by omega
      congr 1
      simp only [hd, hd', List.range'_succ, List.map_cons, List.append_assoc,
        List.singleton_append, RetryTrace.mk.injEq]
      constructor
      · omega
      · trivial

/-- The backoffs `2^1, ..., 2^(n-1)` seconds add up to `2^n - 2` seconds. -/
theorem backoff_total (n : Nat) (hn : 1 ≤ n) :
    ((List.range' 1 (n - 1)).map (fun a => 2 ^ a * 1000)).sum = (2 ^ n - 2) * 1000 := by
  obtain ⟨m, rfl⟩ : ∃ m, n = m + 1 := ⟨n - 1, by omega⟩
  simp only [Nat.add_sub_cancel]
  induction m with
  | zero => rfl
  | succ j ih =>
    rw [List.range'_concat, List.map_append, List.sum_append, ih (by omega)]
    simp only [List.map_cons, List.map_nil, List.sum_cons, List.sum_nil, Nat.add_zero,
      Nat.one_mul]
    have h2 : 2 ≤ 2 ^ (j + 1) := by
      calc 2 = 2 ^ 1 := rfl
        _ ≤ 2 ^ (j + 1) := Nat.pow_le_pow_right (by decide) (by omega)
    have hpow : 2 ^ (j + 1 + 1) = 2 * 2 ^ (j + 1) := by ring
    have h1 : 1 + j = j + 1 := by omega
    rw [hpow, h1]
    omega

end BaseScraper

namespace BaseScraper

/-- C17. `makeRequest` with `maxRetries = n ≥ 1`. If every attempt fails it makes
exactly n attempts, sleeps `2^a` seconds after failed attempt a for a = 1..n-1 and
not after the last (in total `2^n - 2` seconds), and throws the error of the n-th
attempt. If attempt k ≤ n is the first to succeed it returns that response after
exactly k attempts, having slept after the k - 1 failures only. -/
theorem makeRequest_retries {ρ : Type} (n : Nat) (hn : 1 ≤ n)
    (axios : Nat → Except JsError ρ) :
    (∀ errs : Nat → JsError, (∀ a, 1 ≤ a → a ≤ n → axios a = .error (errs a)) →
      makeRequest n axios
        = (.error (some (errs n)),
            { attempts := n,
              sleeps := (List.range' 1 (n - 1)).map (fun a => 2 ^ a * 1000) }) ∧
      (makeRequest n axios).2.sleeps.sum = (2 ^ n - 2) * 1000) ∧
    (∀ (k : Nat) (response : ρ), 1 ≤ k → k ≤ n →
      (∀ a, 1 ≤ a → a < k → ∃ e, axios a = .error e) → axios k = .ok response →
      makeRequest n axios
        = (.ok response,
            { attempts := k,
              sleeps := (List.range' 1 (k - 1)).map (fun a => 2 ^ a * 1000) })) := by
  constructor
  · intro errs hfail
    have h := makeRequestLoop_all_fail n axios errs n 1 none
      { attempts := 0, sleeps := [] } (by omega) hfail
    have hne : n ≠ 0 := by omega
    simp only [hne, if_false, Nat.zero_add, List.nil_append] at h
    have heq : makeRequest n axios
        = (.error (some (errs n)),
            { attempts := n,
              sleeps := (List.range' 1 (n - 1)).map (fun a => 2 ^ a * 1000) }) := h
    refine ⟨heq, ?_⟩
    rw [heq]
    exact backoff_total n hn
  · intro k response hk1 hkn hfail hok
    have h := makeRequestLoop_first_success n axios k response n 1 none
      { attempts := 0, sleeps := [] } (by omega) hk1 hkn hfail hok
    simp only [Nat.zero_add, List.nil_append, Nat.add_sub_cancel] at h
    exact h

/-- Witness for C17: three retries against a server that is down, and against one
that answers the third request. -/
theorem makeRequest_retries_witness :
    makeRequest 3 alwaysDown
      = (.error (some ⟨"ECONNREFUSED #3"⟩), { attempts := 3, sleeps := [2000, 4000] }) ∧
    (makeRequest 3 alwaysDown).2.sleeps.sum = (2 ^ 3 - 2) * 1000 ∧
    makeRequest 3 upAtThird
      = (.ok "<html>", { attempts := 3, sleeps := [2000, 4000] }) :=
  have h := makeRequest_retries 3 (by decide) alwaysDown
  have h' := makeRequest_retries 3 (by decide) upAtThird
  ⟨(h.1 (fun a => ⟨"ECONNREFUSED #" ++ toString a⟩) (fun _ _ _ => rfl)).1,
   (h.1 (fun a => ⟨"ECONNREFUSED #" ++ toString a⟩) (fun _ _ _ => rfl)).2,
   h'.2 3 "<html>" (by decide) (by decide)
     (fun a _ h3 => ⟨⟨"ECONNREFUSED #" ++ toString a⟩, by
        unfold upAtThird
        rw [if_pos h3]⟩)
     rfl⟩

/-- C18. `initBrowser` is memoized and bounded. With a session stored it returns it
without a launch. Without one it launches at most 3 times: a launch that succeeds
is stored and returned, after a sleep of `2000 ms x attempt` for each failure
before it; when all three fail the sleeps are 2000 ms and 4000 ms (after attempts
1 and 2 only, 6000 ms in total), the call throws an error carrying the message of
the third failure, and no session is stored. -/
theorem initBrowser_memoized_bounded (self : Scraper) (launch : Nat → Except JsError Nat) :
    (∀ b, self.browser = some b →
      initBrowser self launch = (.ok b, self, { attempts := 0, sleeps := [] })) ∧
    (self.browser = none →
      (initBrowser self launch).2.2.attempts ≤ 3 ∧
      (∀ b, launch 1 = .ok b →
        initBrowser self launch
          = (.ok b, { self with browser := some b }, { attempts := 1, sleeps := [] })) ∧
      (∀ e1 b, launch 1 = .error e1 → launch 2 = .ok b →
        initBrowser self launch
          = (.ok b, { self with browser := some b },
              { attempts := 2, sleeps := [2000] })) ∧
      (∀ e1 e2 b, launch 1 = .error e1 → launch 2 = .error e2 → launch 3 = .ok b →
        initBrowser self launch
          = (.ok b, { self with browser := some b },
              { attempts := 3, sleeps := [2000, 4000] })) ∧
      (∀ e1 e2 e3, launch 1 = .error e1 → launch 2 = .error e2 → launch 3 = .error e3 →
        initBrowser self launch
          = (.error ⟨"Failed to launch browser after 3 attempts: " ++ e3.message⟩, self,
              { attempts := 3, sleeps := [2000, 4000] }) ∧
        (initBrowser self launch).2.2.sleeps.sum = 6000 ∧
        (initBrowser self launch).2.1.browser = none)) := by
  constructor
  · intro b hb
    unfold initBrowser
    rw [hb]
  · intro hnone
    have hunfold : initBrowser self launch
        = launchLoop launch 3 1 none self { attempts := 0, sleeps := [] } := by
      unfold initBrowser
      rw [hnone]
    refine ⟨?_, ?_, ?_, ?_, ?_⟩
    · rw [hunfold]
      simp only [launchLoop]
      cases launch 1 <;> cases launch 2 <;> cases launch 3 <;> simp
    · intro b h1
      rw [hunfold]
      simp [launchLoop, h1]
    · intro e1 b h1 h2
      rw [hunfold]
      simp [launchLoop, h1, h2]
    · intro e1 e2 b h1 h2 h3
      rw [hunfold]
      simp [launchLoop, h1, h2, h3]
    · intro e1 e2 e3 h1 h2 h3
      have heq : initBrowser self launch
          = (.error ⟨"Failed to launch browser after 3 attempts: " ++ e3.message⟩, self,
              { attempts := 3, sleeps := [2000, 4000] }) := by
        rw [hunfold]
        simp [launchLoop, h1, h2, h3]
      refine ⟨heq, ?_, ?_⟩
      · rw [heq]
        rfl
      · rw [heq]
        exact hnone

/-- Witness for C18: a browser that never launches. -/
theorem initBrowser_memoized_bounded_witness :
    idleScraper.browser = none ∧
    initBrowser idleScraper launchNever
      = (.error ⟨"Failed to launch browser after 3 attempts: " ++
            (⟨"spawn ENOENT #3"⟩ : JsError).message⟩, idleScraper,
          { attempts := 3, sleeps := [2000, 4000] }) ∧
    (initBrowser idleScraper launchNever).2.2.sleeps.sum = 6000 ∧
    (initBrowser idleScraper launchNever).2.1.browser = none :=
  ⟨rfl,
   (initBrowser_memoized_bounded idleScraper launchNever).2 rfl |>.2.2.2.2
     ⟨"spawn ENOENT #1"⟩ ⟨"spawn ENOENT #2"⟩ ⟨"spawn ENOENT #3"⟩ rfl rfl rfl⟩

end BaseScraper

namespace AIService

/-! ### The rule-based fallback -/

/-- A rule of an ordered table wins when one of its keywords occurs and no keyword
of an earlier rule does. -/
theorem firstMatchingRule_split (before after : List (String × List String))
    (rule : String × List String) (fallback text : String)
    (hrule : rule.2.any (fun kw => BaseScraper.includes text kw) = true)
    (hbefore : ∀ r ∈ before, r.2.any (fun kw => BaseScraper.includes text kw) = false) :
    BaseScraper.firstMatchingRule (before ++ rule :: after) fallback text = rule.1 := by
  unfold BaseScraper.firstMatchingRule
  have hnone : before.find?
      (fun r => r.2.any (fun kw => BaseScraper.includes text kw)) = none :=
    List.find?_eq_none.mpr (fun r hr => by simp [hbefore r hr])
  rw [List.find?_append, hnone, Option.none_or]
  simp only [List.find?, hrule]

/-- The category computed by the source is the first matching rule of the table,
with the stored category (or `smartphone`) when no rule matches. -/
theorem fallbackCategory_eq (title : String) (current : Option String) :
    fallbackCategory title current
      = BaseScraper.firstMatchingRule fallbackRules
          ((orElseTruthy current (some "smartphone")).getD "smartphone") title := by
  simp only [fallbackCategory, BaseScraper.firstMatchingRule, fallbackRules, List.find?,
    List.any, Bool.or_false, Bool.or_assoc]
  generalize (BaseScraper.includes title "écran" || (BaseScraper.includes title "screen" ||
    (BaseScraper.includes title "display" || (BaseScraper.includes title "afficheur" ||
      BaseScraper.includes title "lcd")))) = g1
  generalize (BaseScraper.includes title "laptop" ||
    (BaseScraper.includes title "macbook" || (BaseScraper.includes title "pc portable" ||
      BaseScraper.includes title "ordinateur"))) = g2
  generalize (BaseScraper.includes title "tablet" ||
    (BaseScraper.includes title "tablette" || BaseScraper.includes title "ipad")) = g3
  generalize (BaseScraper.includes title "buds" || (BaseScraper.includes title "ecouteur" ||
    (BaseScraper.includes title "earphone" || (BaseScraper.includes title "case" ||
      (BaseScraper.includes title "coque" || (BaseScraper.includes title "charger" ||
        (BaseScraper.includes title "cable" || (BaseScraper.includes title "câble" ||
          (BaseScraper.includes title "protection" ||
            BaseScraper.includes title "chargeur"))))))))) = g4
  cases g1 <;> cases g2 <;> cases g3 <;> cases g4 <;> rfl

/-- Counterexample to C19 as stated. A record stored as `accessory` whose title
holds none of the keywords keeps the category `accessory`: it does not become
`smartphone`. -/
theorem fallback_keeps_stored_category :
    (fallbackRules.all (fun rule => rule.2.all (fun kw =>
      !BaseScraper.includes
        (titleOf BaseScraper.asciiLowerCase strapProduct) kw))) = true ∧
    (fallbackCategorization BaseScraper.asciiLowerCase BaseScraper.asciiUpperCase
      strapProduct).category = "accessory" ∧
    (fallbackCategorization BaseScraper.asciiLowerCase BaseScraper.asciiUpperCase
      strapProduct).category ≠ "smartphone" := by
  decide

/-- C19 as amended. `fallbackCategorization` assigns the category by the ordered
keyword rules display > laptop > tablet > accessory on the lower-cased title: a rule
applies when one of its keywords occurs in the title and no keyword of an earlier
rule does. For a record whose title matches none of the rules the category is the
record's current category when that is a non-empty string, and `smartphone` when
it is missing or empty. -/
theorem fallbackCategorization_category (toLowerCase toUpperCase : String → String)
    (product : Product) :
    (fallbackCategorization toLowerCase toUpperCase product).category
      = BaseScraper.firstMatchingRule fallbackRules
          ((orElseTruthy product.category (some "smartphone")).getD "smartphone")
          (titleOf toLowerCase product) ∧
    (∀ before rule after, fallbackRules = before ++ rule :: after →
      rule.2.any (fun kw => BaseScraper.includes (titleOf toLowerCase product) kw) = true →
      (∀ r ∈ before,
        r.2.any (fun kw => BaseScraper.includes (titleOf toLowerCase product) kw) = false) →
      (fallbackCategorization toLowerCase toUpperCase product).category = rule.1) ∧
    ((∀ r ∈ fallbackRules,
        r.2.any (fun kw => BaseScraper.includes (titleOf toLowerCase product) kw) = false) →
      (∀ c, product.category = some c → c ≠ "" →
        (fallbackCategorization toLowerCase toUpperCase product).category = c) ∧
      (product.category = none ∨ product.category = some "" →
        (fallbackCategorization toLowerCase toUpperCase product).category
          = "smartphone")) := by
  have heq : (fallbackCategorization toLowerCase toUpperCase product).category
      = BaseScraper.firstMatchingRule fallbackRules
          ((orElseTruthy product.category (some "smartphone")).getD "smartphone")
          (titleOf toLowerCase product) :=
    fallbackCategory_eq (titleOf toLowerCase product) product.category
  refine ⟨heq, ?_, ?_⟩
  · intro before rule after hsplit hrule hbefore
    rw [heq, hsplit]
    exact firstMatchingRule_split before after rule _ _ hrule hbefore
  · intro hnone
    have hdefault : (fallbackCategorization toLowerCase toUpperCase product).category
        = (orElseTruthy product.category (some "smartphone")).getD "smartphone" := by
      rw [heq]
      unfold BaseScraper.firstMatchingRule
      rw [List.find?_eq_none.mpr (fun r hr => by simp [hnone r hr])]
    constructor
    · intro c hc hne
      rw [hdefault, hc]
      simp [orElseTruthy, hne]
    · rintro (hc | hc) <;>
      · rw [hdefault, hc]
        simp [orElseTruthy]

/-- Witness for the amended C19: a title holding `coque` and `tablette` is a tablet,
the earlier of the two rules. -/
theorem fallbackCategorization_category_witness :
    (fallbackCategorization BaseScraper.asciiLowerCase BaseScraper.asciiUpperCase
      { phoneProduct with model := some "Coque pour Tablette Samsung" }).category
      = "tablet" :=
  (fallbackCategorization_category BaseScraper.asciiLowerCase BaseScraper.asciiUpperCase
    { phoneProduct with model := some "Coque pour Tablette Samsung" }).2.1
    (fallbackRules.take 2) ("tablet", ["tablet", "tablette", "ipad"])
    (fallbackRules.drop 3) (by decide) (by decide) (by decide)

/-- The classifier on concrete records: keyword rules by priority, the stored
category kept when nothing matches, `smartphone` when there is none. -/
theorem fallbackCategorization_examples :
    (fallbackCategorization BaseScraper.asciiLowerCase BaseScraper.asciiUpperCase
      { phoneProduct with model := some "Ecran LCD pour laptop HP" }).category
      = "display" ∧
    (fallbackCategorization BaseScraper.asciiLowerCase BaseScraper.asciiUpperCase
      strapProduct).category = "accessory" ∧
    (fallbackCategorization BaseScraper.asciiLowerCase BaseScraper.asciiUpperCase
      phoneProduct).category = "smartphone" ∧
    (fallbackCategorization BaseScraper.asciiLowerCase BaseScraper.asciiUpperCase
      phoneProduct).brand = "Unknown" ∧
    (fallbackCategorization BaseScraper.asciiLowerCase BaseScraper.asciiUpperCase
      { phoneProduct with model := some "Samsung Galaxy A54" }).brand = "Samsung" := by
  decide

end AIService

namespace AIService

theorem fallbackPriceCheck_spec (category : String) (price : ℚ) :
    ((fallbackPriceCheck category price).1 = false ↔
      price ≤ 1 ∨ price ≥ 1000000 ∨ (category = "smartphone" ∧ price < 5000) ∨
        (category = "tablet" ∧ price < 10000) ∨ (category = "laptop" ∧ price < 50000)) ∧
    ((fallbackPriceCheck category price).2 ≠ "" ↔
      (fallbackPriceCheck category price).1 = false) := by
  unfold fallbackPriceCheck
  by_cases h1 : price ≤ 1 ∨ price ≥ 1000000
  · rw [if_pos h1]
    refine ⟨⟨fun _ => ?_, fun _ => rfl⟩, ⟨fun _ => rfl, fun _ => by decide⟩⟩
    rcases h1 with h | h
    · exact Or.inl h
    · exact Or.inr (Or.inl h)
  · rw [if_neg h1]
    have n1 : ¬ price ≤ 1 := fun h => h1 (Or.inl h)
    have n2 : ¬ price ≥ 1000000 := fun h => h1 (Or.inr h)
    by_cases h2 : category = "smartphone" ∧ price < 5000
    · rw [if_pos h2]
      exact ⟨⟨fun _ => Or.inr (Or.inr (Or.inl h2)), fun _ => rfl⟩,
        ⟨fun _ => rfl, fun _ => by decide⟩⟩
    · rw [if_neg h2]
      by_cases h3 : category = "tablet" ∧ price < 10000
      · rw [if_pos h3]
        exact ⟨⟨fun _ => Or.inr (Or.inr (Or.inr (Or.inl h3))), fun _ => rfl⟩,
          ⟨fun _ => rfl, fun _ => by decide⟩⟩
      · rw [if_neg h3]
        by_cases h4 : category = "laptop" ∧ price < 50000
        · rw [if_pos h4]
          exact ⟨⟨fun _ => Or.inr (Or.inr (Or.inr (Or.inr h4))), fun _ => rfl⟩,
            ⟨fun _ => rfl, fun _ => by decide⟩⟩
        · rw [if_neg h4]
          refine ⟨⟨fun h => absurd h (by decide), ?_⟩,
            ⟨fun h => absurd rfl h, fun h => absurd h (by decide)⟩⟩
          rintro (h | h | h | h | h)
          · exact absurd h n1
          · exact absurd h n2
          · exact absurd h h2
          · exact absurd h h3
          · exact absurd h h4

/-- C20. The price check of `fallbackCategorization`: for every record, with the
price taken as 0 when it is missing or unparsable, `isValidPrice` is false exactly
when the price is ≤ 1 or ≥ 1,000,000, or the resulting category is `smartphone` and
the price < 5,000, `tablet` and the price < 10,000, or `laptop` and the
price < 50,000; and `priceReason` is a non-empty string exactly when `isValidPrice`
is false. -/
theorem fallbackCategorization_price_check (toLowerCase toUpperCase : String → String)
    (product : Product) :
    ((fallbackCategorization toLowerCase toUpperCase product).isValidPrice = false ↔
      priceOr0 product.price ≤ 1 ∨ priceOr0 product.price ≥ 1000000 ∨
      ((fallbackCategorization toLowerCase toUpperCase product).category = "smartphone" ∧
        priceOr0 product.price < 5000) ∨
      ((fallbackCategorization toLowerCase toUpperCase product).category = "tablet" ∧
        priceOr0 product.price < 10000) ∨
      ((fallbackCategorization toLowerCase toUpperCase product).category = "laptop" ∧
        priceOr0 product.price < 50000)) ∧
    ((fallbackCategorization toLowerCase toUpperCase product).priceReason ≠ "" ↔
      (fallbackCategorization toLowerCase toUpperCase product).isValidPrice = false) ∧
    priceOr0 .nan = 0 ∧ (∀ v, priceOr0 (.finite v) = v) :=
  ⟨(fallbackPriceCheck_spec
      (fallbackCategorization toLowerCase toUpperCase product).category
      (priceOr0 product.price)).1,
   (fallbackPriceCheck_spec
      (fallbackCategorization toLowerCase toUpperCase product).category
      (priceOr0 product.price)).2,
   rfl, fun _ => rfl⟩

/-- The price check on concrete records: a phone at 3000 is too cheap, at 5000 it
passes; a missing price is unrealistic; an accessory at 2500 passes. -/
theorem fallbackCategorization_price_examples :
    (fallbackCategorization BaseScraper.asciiLowerCase BaseScraper.asciiUpperCase
      phoneProduct).isValidPrice = false ∧
    (fallbackCategorization BaseScraper.asciiLowerCase BaseScraper.asciiUpperCase
      phoneProduct).priceReason = "Price too low for a smartphone" ∧
    (fallbackCategorization BaseScraper.asciiLowerCase BaseScraper.asciiUpperCase
      { phoneProduct with price := .finite 5000 }).isValidPrice = true ∧
    (fallbackCategorization BaseScraper.asciiLowerCase BaseScraper.asciiUpperCase
      { phoneProduct with price := .nan }).priceReason
      = "Price is unrealistic (too low or too high)" ∧
    (fallbackCategorization BaseScraper.asciiLowerCase BaseScraper.asciiUpperCase
      strapProduct).isValidPrice = true := by
  decide

end AIService

namespace BaseScraper

/-! ### First comma or every comma -/

theorem replaceFirst_cons (t r c : Char) (cs : List Char) :
    replaceFirst t r (c :: cs) = if c = t then r :: cs else c :: replaceFirst t r cs :=
  rfl

theorem takeWhile_isDigit_replaceFirst (l : List Char) :
    (replaceFirst ',' '.' l).takeWhile Char.isDigit = l.takeWhile Char.isDigit := by
  induction l with
  | nil => rfl
  | cons c cs ih =>
    by_cases hc : c = ','
    · subst hc
      rw [replaceFirst_cons, if_pos rfl, List.takeWhile_cons, List.takeWhile_cons]
      simp
    · rw [replaceFirst_cons, if_neg hc, List.takeWhile_cons, List.takeWhile_cons, ih]

theorem takeWhile_isDigit_dotted (l : List Char) :
    (l.map (fun c => if c = ',' then '.' else c)).takeWhile Char.isDigit
      = l.takeWhile Char.isDigit := by
  induction l with
  | nil => rfl
  | cons c cs ih =>
    by_cases hc : c = ','
    · subst hc
      simp [List.takeWhile_cons]
    · simp only [List.map_cons, hc, if_false, List.takeWhile_cons, ih]

/-- Reading a text whose leading digits are followed by a dot. -/
theorem parseFloat_of_dot (l r : List Char) (h : l.dropWhile Char.isDigit = '.' :: r) :
    parseFloat l
      = if (l.takeWhile Char.isDigit).isEmpty && (r.takeWhile Char.isDigit).isEmpty then
          .nan
        else .finite (mkRat
          (digitsToNat (l.takeWhile Char.isDigit) * 10 ^ (r.takeWhile Char.isDigit).length +
            digitsToNat (r.takeWhile Char.isDigit))
          (10 ^ (r.takeWhile Char.isDigit).length)) := by
  unfold parseFloat
  rw [h]
  rfl

/-- Reading a text whose leading digits are not followed by a dot. -/
theorem parseFloat_of_no_dot (l : List Char)
    (h : ∀ r, l.dropWhile Char.isDigit ≠ '.' :: r) :
    parseFloat l
      = if (l.takeWhile Char.isDigit).isEmpty then .nan
        else .finite (digitsToNat (l.takeWhile Char.isDigit)) := by
  unfold parseFloat
  split
  · next r hr => exact absurd hr (h r)
  · rfl

/-- What `parseFloat` reads of a text: its leading digits, whether a dot follows
them, and the digits after that dot. -/
theorem parseFloat_congr (l l' : List Char)
    (hint : l.takeWhile Char.isDigit = l'.takeWhile Char.isDigit)
    (hrest : (∃ r r', l.dropWhile Char.isDigit = '.' :: r ∧
        l'.dropWhile Char.isDigit = '.' :: r' ∧
        r.takeWhile Char.isDigit = r'.takeWhile Char.isDigit) ∨
      ((∀ r, l.dropWhile Char.isDigit ≠ '.' :: r) ∧
        (∀ r', l'.dropWhile Char.isDigit ≠ '.' :: r'))) :
    parseFloat l = parseFloat l' := by
  rcases hrest with ⟨r, r', h1, h2, h3⟩ | ⟨h1, h2⟩
  · rw [parseFloat_of_dot l r h1, parseFloat_of_dot l' r' h2, hint, h3]
  · rw [parseFloat_of_no_dot l h1, parseFloat_of_no_dot l' h2, hint]

/-- Reading a number after replacing the first comma is reading it after replacing
every comma: the literal ends at the latest at the second separator. -/
theorem parseFloat_replaceFirst_eq_dotted (l : List Char) :
    parseFloat (replaceFirst ',' '.' l)
      = parseFloat (l.map (fun c => if c = ',' then '.' else c)) := by
  apply parseFloat_congr
  · rw [takeWhile_isDigit_replaceFirst, takeWhile_isDigit_dotted]
  · induction l with
    | nil =>
      right
      exact ⟨fun r h => by simp [replaceFirst] at h, fun r h => by simp at h⟩
    | cons c cs ih =>
      by_cases hd : c.isDigit = true
      · have hc : c ≠ ',' := ne_comma_of_isDigit hd
        have e1 : (replaceFirst ',' '.' (c :: cs)).dropWhile Char.isDigit
            = (replaceFirst ',' '.' cs).dropWhile Char.isDigit := by
          rw [replaceFirst_cons, if_neg hc, List.dropWhile_cons, if_pos hd]
        have e2 : ((c :: cs).map (fun c => if c = ',' then '.' else c)).dropWhile
            Char.isDigit
            = (cs.map (fun c => if c = ',' then '.' else c)).dropWhile Char.isDigit := by
          rw [List.map_cons, if_neg hc, List.dropWhile_cons, if_pos hd]
        rw [e1, e2]
        exact ih
      · by_cases hcomma : c = ','
        · subst hcomma
          left
          refine ⟨cs, cs.map (fun c => if c = ',' then '.' else c), ?_, ?_, ?_⟩
          · rw [replaceFirst_cons, if_pos rfl, List.dropWhile_cons]
            simp
          · rw [List.map_cons, if_pos rfl, List.dropWhile_cons]
            simp
          · rw [takeWhile_isDigit_dotted]
        · by_cases hdot : c = '.'
          · subst hdot
            left
            refine ⟨replaceFirst ',' '.' cs, cs.map (fun c => if c = ',' then '.' else c),
              ?_, ?_, ?_⟩
            · rw [replaceFirst_cons, if_neg (by decide), List.dropWhile_cons]
              simp
            · rw [List.map_cons, if_neg (by decide), List.dropWhile_cons]
              simp
            · rw [takeWhile_isDigit_replaceFirst, takeWhile_isDigit_dotted]
          · right
            constructor
            · intro r h
              rw [replaceFirst_cons, if_neg hcomma, List.dropWhile_cons, if_neg hd] at h
              exact hdot (List.cons.inj h).1
            · intro r h
              rw [List.map_cons, if_neg hcomma, List.dropWhile_cons, if_neg hd] at h
              exact hdot (List.cons.inj h).1

/-- C28. `normalizePrice`, which replaces only the first comma, equals on every input
the reference that strips all characters except digits, dot and comma, replaces
every comma by a dot, and reads the longest leading decimal literal (`null` when
there is none). -/
theorem normalizePrice_eq_reference (priceString : Option String) :
    normalizePrice priceString = normalizePriceReference priceString := by
  cases priceString with
  | none => rfl
  | some s =>
    unfold normalizePrice normalizePriceReference
    by_cases hs : s = ""
    · subst hs
      rfl
    · simp only [if_neg hs, parseFloat_replaceFirst_eq_dotted]

/-- The two readings agree on prices with several separators. -/
theorem normalizePrice_reference_examples :
    normalizePrice (some "1,234,56 DA") = some (mkRat 1234 1000) ∧
    normalizePriceReference (some "1,234,56 DA") = some (mkRat 1234 1000) ∧
    normalizePrice (some "12.500,00") = some (mkRat 125 10) ∧
    normalizePriceReference (some "12.500,00") = some (mkRat 125 10) ∧
    normalizePriceReference (some "") = none := by
  decide

/-! ### Condition keywords that contain one another -/

/-- A text that contains a needle contains every part of the needle. -/
theorem includes_of_includes_longer (text longer needle : String)
    (hpart : ∃ pre post, longer.toList = pre ++ needle.toList ++ post)
    (h : includes text longer = true) : includes text needle = true := by
  obtain ⟨pre, post, htext⟩ := (includes_iff text longer).mp h
  obtain ⟨p, q, hl⟩ := hpart
  apply (includes_iff text needle).mpr
  refine ⟨pre ++ p, q ++ post, ?_⟩
  rw [htext, hl]
  simp only [List.append_assoc]

/-- C30. `detectCondition` returns `like_new` exactly when the lower-cased text
contains `excellent` and none of `neuf`, `new`, `nouveau`; consequently every text
containing `comme neuf` or `like new` is classified `new`, never `like_new`. -/
theorem detectCondition_like_new_iff (toLowerCase : String → String)
    (title description : String) :
    (detectCondition toLowerCase title description = "like_new" ↔
      includes (toLowerCase (title ++ " " ++ description)) "excellent" = true ∧
      includes (toLowerCase (title ++ " " ++ description)) "neuf" = false ∧
      includes (toLowerCase (title ++ " " ++ description)) "new" = false ∧
      includes (toLowerCase (title ++ " " ++ description)) "nouveau" = false) ∧
    ((includes (toLowerCase (title ++ " " ++ description)) "comme neuf" = true ∨
      includes (toLowerCase (title ++ " " ++ description)) "like new" = true) →
      detectCondition toLowerCase title description = "new" ∧
      detectCondition toLowerCase title description ≠ "like_new") := by
  have hcomme : includes (toLowerCase (title ++ " " ++ description)) "comme neuf" = true →
      includes (toLowerCase (title ++ " " ++ description)) "neuf" = true :=
    includes_of_includes_longer _ "comme neuf" "neuf" ⟨"comme ".toList, [], by decide⟩
  have hlike : includes (toLowerCase (title ++ " " ++ description)) "like new" = true →
      includes (toLowerCase (title ++ " " ++ description)) "new" = true :=
    includes_of_includes_longer _ "like new" "new" ⟨"like ".toList, [], by decide⟩
  simp only [detectCondition]
  generalize toLowerCase (title ++ " " ++ description) = text at hcomme hlike ⊢
  generalize includes text "neuf" = b1 at hcomme ⊢
  generalize includes text "new" = b2 at hlike ⊢
  generalize includes text "nouveau" = b3
  generalize includes text "comme neuf" = b4 at hcomme ⊢
  generalize includes text "like new" = b5 at hlike ⊢
  generalize includes text "excellent" = b6
  generalize includes text "pièces" = b7
  generalize includes text "parts" = b8
  generalize includes text "défectueux" = b9
  cases b1 <;> cases b2 <;> cases b3 <;> cases b4 <;> cases b5 <;> cases b6 <;>
    cases b7 <;> cases b8 <;> cases b9 <;> simp at hcomme hlike ⊢

/-- Witness for C30: a title with `comme neuf`. -/
theorem detectCondition_like_new_iff_witness :
    includes (asciiLowerCase ("iPhone 11 comme neuf" ++ " " ++ "")) "comme neuf" = true ∧
    detectCondition asciiLowerCase "iPhone 11 comme neuf" "" = "new" ∧
    detectCondition asciiLowerCase "iPhone 11 comme neuf" "" ≠ "like_new" :=
  ⟨by decide,
   (detectCondition_like_new_iff asciiLowerCase "iPhone 11 comme neuf" "").2
     (Or.inl (by decide))⟩

/-- The consequence on concrete titles. -/
theorem detectCondition_like_new_examples :
    detectCondition asciiLowerCase "iPhone 11 comme neuf" = "new" ∧
    detectCondition asciiLowerCase "Galaxy S20 Like New" = "new" ∧
    detectCondition asciiLowerCase "Pixel 6 excellent etat" = "like_new" ∧
    detectCondition asciiLowerCase "Pixel 6 excellent, batterie neuve" = "like_new" ∧
    detectCondition asciiLowerCase "Pixel 6 excellent, ecran neuf" = "new" := by
  decide

end BaseScraper

namespace BaseScraper

/-! ### The delay in rounded arithmetic -/

theorem excessBits_spec (fuel : Nat) :
    ∀ M, M < 2 ^ 53 * 2 ^ fuel →
      (M < 2 ^ 53 → excessBits fuel M = 0) ∧
      (2 ^ 53 ≤ M → 1 ≤ excessBits fuel M ∧ 2 ^ (excessBits fuel M + 52) ≤ M ∧
        M < 2 ^ (excessBits fuel M + 53)) := by
  induction fuel with
  | zero =>
    intro M hM
    refine ⟨fun _ => rfl, fun h => ?_⟩
    omega
  | succ fuel ih =>
    intro M hM
    constructor
    · intro h
      unfold excessBits
      rw [if_pos h]
    · intro h
      have hnot : ¬ M < 2 ^ 53 := Nat.not_lt.mpr h
      have hhalf : M / 2 < 2 ^ 53 * 2 ^ fuel := by
        rw [pow_succ] at hM
        omega
      obtain ⟨h0, h1⟩ := ih (M / 2) hhalf
      have hs : excessBits (fuel + 1) M = excessBits fuel (M / 2) + 1 := by
        show (if M < 2 ^ 53 then 0 else excessBits fuel (M / 2) + 1) = _
        rw [if_neg hnot]
      rw [hs]
      by_cases hsmall : M / 2 < 2 ^ 53
      · rw [h0 hsmall]
        refine ⟨le_refl _, ?_, ?_⟩
        · exact h
        · have : (2 : Nat) ^ (0 + 1 + 53) = 2 * 2 ^ 53 := by rw [pow_succ]; ring
          rw [this]
          omega
      · obtain ⟨_, hlo, hhi⟩ := h1 (Nat.not_lt.mp hsmall)
        refine ⟨by omega, ?_, ?_⟩
        · have : (2 : Nat) ^ (excessBits fuel (M / 2) + 1 + 52)
              = 2 * 2 ^ (excessBits fuel (M / 2) + 52) := by
            rw [show excessBits fuel (M / 2) + 1 + 52 = excessBits fuel (M / 2) + 52 + 1
              by omega, pow_succ]
            ring
          rw [this]
          omega
        · have : (2 : Nat) ^ (excessBits fuel (M / 2) + 1 + 53)
              = 2 * 2 ^ (excessBits fuel (M / 2) + 53) := by
            rw [show excessBits fuel (M / 2) + 1 + 53 = excessBits fuel (M / 2) + 53 + 1
              by omega, pow_succ]
            ring
          rw [this]
          omega

theorem lt_fuel (M : Nat) : M < 2 ^ 53 * 2 ^ M := by
  have h1 : M < 2 ^ M := Nat.lt_two_pow M
  have h2 : 2 ^ M ≤ 2 ^ 53 * 2 ^ M := Nat.le_mul_of_pos_left _ (by positivity)
  omega

/-- Magnitudes with at most 53 bits are kept. -/
theorem roundBits_small (M : Nat) (h : M < 2 ^ 53) : roundBits M = M := by
  unfold roundBits
  simp only [(excessBits_spec M M (lt_fuel M)).1 h, if_true]

/-- A larger magnitude is rounded to a multiple of `2^s`, its `s` excess bits cut:
not below the multiple under it and at most half a step above it. -/
theorem roundBits_large (M : Nat) (h : 2 ^ 53 ≤ M) :
    ∃ s, 1 ≤ s ∧ 2 ^ (s + 52) ≤ M ∧ M < 2 ^ (s + 53) ∧ 2 ^ s ∣ roundBits M ∧
      M / 2 ^ s * 2 ^ s ≤ roundBits M ∧ roundBits M ≤ M + 2 ^ (s - 1) := by
  obtain ⟨hs1, hlo, hhi⟩ := (excessBits_spec M M (lt_fuel M)).2 h
  refine ⟨excessBits M M, hs1, hlo, hhi, ?_⟩
  have hne : excessBits M M ≠ 0 := by omega
  have hsplit : 2 ^ excessBits M M * (M / 2 ^ excessBits M M) + M % 2 ^ excessBits M M = M :=
    Nat.div_add_mod M _
  have hpow : (2 : Nat) ^ excessBits M M = 2 * 2 ^ (excessBits M M - 1) := by
    rw [show excessBits M M = excessBits M M - 1 + 1 by omega, pow_succ]
    simp only [Nat.add_sub_cancel]
    ring
  have hcomm : M / 2 ^ excessBits M M * 2 ^ excessBits M M
      = 2 ^ excessBits M M * (M / 2 ^ excessBits M M) := Nat.mul_comm _ _
  have hsucc : (M / 2 ^ excessBits M M + 1) * 2 ^ excessBits M M
      = 2 ^ excessBits M M * (M / 2 ^ excessBits M M) + 2 ^ excessBits M M := by ring
  unfold roundBits
  simp only [hne, if_false]
  split
  · exact ⟨Dvd.intro_left _ rfl, le_refl _, by omega⟩
  · split
    · exact ⟨Dvd.intro_left _ rfl, by omega, by omega⟩
    · split
      · exact ⟨Dvd.intro_left _ rfl, le_refl _, by omega⟩
      · exact ⟨Dvd.intro_left _ rfl, by omega, by omega⟩

/-- The rounded product of a draw below 1 and a span stays below the span. -/
theorem roundBits_product_lt (m n k : Nat) (hm : m < 2 ^ 53) (hn : 1 ≤ n) (hk : 53 ≤ k) :
    roundBits (m * n) / 2 ^ k < n := by
  apply Nat.div_lt_of_lt_mul
  have hpow : 2 ^ 53 * n ≤ 2 ^ k * n :=
    Nat.mul_le_mul_right n (Nat.pow_le_pow_right (by decide) hk)
  have hmn : m * n ≤ (2 ^ 53 - 1) * n := Nat.mul_le_mul_right n (by omega)
  have hexp : (2 ^ 53 - 1) * n = 2 ^ 53 * n - n := by
    rw [Nat.sub_mul, Nat.one_mul]
  by_cases hsmall : m * n < 2 ^ 53
  · rw [roundBits_small _ hsmall]
    omega
  · obtain ⟨s, hs1, hlo, _, _, _, hup⟩ := roundBits_large (m * n) (Nat.not_lt.mp hsmall)
    have hH : (2 : Nat) ^ (s + 52) = 2 ^ 53 * 2 ^ (s - 1) := by
      rw [← pow_add]
      exact congrArg (fun e => (2 : Nat) ^ e) (by omega)
    rw [hH] at hlo
    omega

/-- Every count below the span is the floor of the rounded product for some draw on
the grid of step `g / 2^53`, when `(g + 1) * span ≤ 2^53`. -/
theorem roundBits_product_onto (g n t : Nat) (hg : 1 ≤ g) (hn : (g + 1) * n ≤ 2 ^ 53)
    (ht : t < n) :
    ∃ j, g * j < 2 ^ 53 ∧ roundBits (g * j * n) / 2 ^ 53 = t := by
  have hgn : (g + 1) * n = g * n + n := by ring
  rw [hgn] at hn
  have hnpos : 0 < g * n := Nat.mul_pos (by omega) (by omega)
  have hdm : g * n * ((t * 2 ^ 53 + g * n - 1) / (g * n))
      + (t * 2 ^ 53 + g * n - 1) % (g * n) = t * 2 ^ 53 + g * n - 1 :=
    Nat.div_add_mod _ _
  have hr : (t * 2 ^ 53 + g * n - 1) % (g * n) < g * n := Nat.mod_lt _ hnpos
  have hM : g * ((t * 2 ^ 53 + g * n - 1) / (g * n)) * n
      = g * n * ((t * 2 ^ 53 + g * n - 1) / (g * n)) := by ring
  have htn : t * 2 ^ 53 + 2 ^ 53 ≤ n * 2 ^ 53 := by
    have : (t + 1) * 2 ^ 53 ≤ n * 2 ^ 53 := Nat.mul_le_mul_right _ ht
    rw [Nat.add_mul, Nat.one_mul] at this
    exact this
  refine ⟨(t * 2 ^ 53 + g * n - 1) / (g * n), ?_, ?_⟩
  · apply Nat.lt_of_mul_lt_mul_right (a := n)
    rw [hM]
    omega
  · rw [hM]
    by_cases hsmall : g * n * ((t * 2 ^ 53 + g * n - 1) / (g * n)) < 2 ^ 53
    · rw [roundBits_small _ hsmall]
      apply Nat.div_eq_of_lt_le <;> omega
    · obtain ⟨s, hs1, hlo, hhi, _, hdown, hup⟩ :=
        roundBits_large (g * n * ((t * 2 ^ 53 + g * n - 1) / (g * n))) (Nat.not_lt.mp hsmall)
      have hH : (2 : Nat) ^ (s + 52) = 2 ^ 53 * 2 ^ (s - 1) := by
        rw [← pow_add]
        exact congrArg (fun e => (2 : Nat) ^ e) (by omega)
      rw [hH] at hlo
      have hs52 : s ≤ 53 := by
        by_contra hcon
        have h106 : (2 : Nat) ^ 106 ≤ 2 ^ (s + 52) :=
          Nat.pow_le_pow_right (by decide) (by omega)
        rw [hH] at h106
        have hn53 : n * 2 ^ 53 ≤ 2 ^ 53 * 2 ^ 53 := Nat.mul_le_mul_right _ (by omega)
        omega
      have hp : (2 : Nat) ^ (53 - s) * 2 ^ s = 2 ^ 53 := by
        rw [← pow_add]
        exact congrArg (fun e => (2 : Nat) ^ e) (by omega)
      have hdvd : t * 2 ^ 53 = t * 2 ^ (53 - s) * 2 ^ s := by
        rw [Nat.mul_assoc, hp]
      have hfloor : t * 2 ^ 53
          ≤ g * n * ((t * 2 ^ 53 + g * n - 1) / (g * n)) / 2 ^ s * 2 ^ s := by
        rw [hdvd]
        apply Nat.mul_le_mul_right
        rw [Nat.le_div_iff_mul_le (by positivity), ← hdvd]
        omega
      apply Nat.div_eq_of_lt_le <;> omega

/-- Values of magnitude below `2^53` are kept. -/
theorem roundInt_of_lt (z : Int) (h1 : -2 ^ 53 < z) (h2 : z < 2 ^ 53) : roundInt z = z := by
  unfold roundInt
  by_cases hz : 0 ≤ z
  · rw [if_pos hz, roundBits_small _ (by omega)]
    omega
  · rw [if_neg hz, roundBits_small _ (by omega)]
    omega

theorem roundInt_natCast (M : Nat) : roundInt (M : Int) = (roundBits M : Int) := by
  unfold roundInt
  rw [if_pos (Int.natCast_nonneg M), Int.toNat_natCast]

/-- The delay, computed on naturals, when the bounds are safe integers. -/
theorem getRandomDelay_eq (min max : Int) (m k : Nat) (hle : min ≤ max)
    (hspan : max - min + 1 < 2 ^ 53) :
    getRandomDelay min max m k
      = roundInt (((roundBits (m * (max - min + 1).toNat) / 2 ^ k : Nat) : Int) + min) := by
  unfold getRandomDelay
  have h1 : roundInt (max - min) = max - min := roundInt_of_lt _ (by omega) (by omega)
  have h2 : roundInt (max - min + 1) = max - min + 1 := roundInt_of_lt _ (by omega) (by omega)
  have hn : ((max - min + 1).toNat : Int) = max - min + 1 := Int.toNat_of_nonneg (by omega)
  simp only [h1, h2]
  have hprod : (m : Int) * (max - min + 1) = ((m * (max - min + 1).toNat : Nat) : Int) := by
    rw [Nat.cast_mul, hn]
  rw [hprod, roundInt_natCast]
  rw [Int.natCast_div]

/-- No result of the rounding is the odd number `2^53 + 1`. -/
theorem roundInt_ne (z : Int) : roundInt z ≠ 2 ^ 53 + 1 := by
  unfold roundInt
  by_cases hz : 0 ≤ z
  · rw [if_pos hz]
    by_cases hsmall : z.toNat < 2 ^ 53
    · rw [roundBits_small _ hsmall]
      omega
    · obtain ⟨s, hs1, _, _, hdvd, _, _⟩ := roundBits_large z.toNat (Nat.not_lt.mp hsmall)
      have h2 : 2 ∣ roundBits z.toNat :=
        Dvd.dvd.trans (dvd_pow_self 2 (by omega)) hdvd
      omega
  · rw [if_neg hz]
    omega

/-- Counterexample to C27 as stated. With the bounds 2000 and `2^53 + 2`, both
integers the host holds exactly, the integer `2^53 + 1` lies in the range and is the
delay of no draw: it is not a value of the host's number type. -/
theorem getRandomDelay_misses_integer :
    (2000 : Int) ≤ 2 ^ 53 + 1 ∧ (2 ^ 53 + 1 : Int) ≤ 2 ^ 53 + 2 ∧
    roundInt 2000 = 2000 ∧ roundInt (2 ^ 53 + 2) = 2 ^ 53 + 2 ∧
    ∀ m k, getRandomDelay 2000 (2 ^ 53 + 2) m k ≠ 2 ^ 53 + 1 :=
  ⟨by decide, by decide, by decide, by decide, fun _ _ => roundInt_ne _⟩

/-- C27 as amended. `getRandomDelay` in the host's rounded arithmetic stays in the
configured range: for integer bounds `min ≤ max` of magnitude below `2^53` with
`max - min + 1 < 2^53` and every draw that is a double in `[0, 1)`, the delay is an
integer `d` with `min ≤ d ≤ max`. Every integer of `[min, max]` is the delay of
some draw: of a multiple of `2^-53` below 1 when `max - min + 1 ≤ 2^52`, and of a
multiple of `2^-52` below 1 when `max - min + 1 ≤ 2^51`. -/
theorem getRandomDelay_range (min max : Int) (hle : min ≤ max) (hmin : -2 ^ 53 < min)
    (hmax : max < 2 ^ 53) (hspan : max - min + 1 < 2 ^ 53) :
    (∀ m k, m < 2 ^ 53 → 53 ≤ k →
      min ≤ getRandomDelay min max m k ∧ getRandomDelay min max m k ≤ max) ∧
    (max - min + 1 ≤ 2 ^ 52 → ∀ d : Int, min ≤ d → d ≤ max →
      ∃ m, m < 2 ^ 53 ∧ getRandomDelay min max m 53 = d) ∧
    (max - min + 1 ≤ 2 ^ 51 → ∀ d : Int, min ≤ d → d ≤ max →
      ∃ j, j < 2 ^ 52 ∧ getRandomDelay min max (2 * j) 53 = d) := by
  have hn : ((max - min + 1).toNat : Int) = max - min + 1 := Int.toNat_of_nonneg (by omega)
  refine ⟨?_, ?_, ?_⟩
  · intro m k hm hk
    have hlt := roundBits_product_lt m (max - min + 1).toNat k hm (by omega) hk
    rw [getRandomDelay_eq min max m k hle hspan]
    generalize roundBits (m * (max - min + 1).toNat) / 2 ^ k = count at hlt ⊢
    rw [roundInt_of_lt _ (by omega) (by omega)]
    omega
  · intro h52 d hd1 hd2
    obtain ⟨m, hm, hfloor⟩ := roundBits_product_onto 1 (max - min + 1).toNat
      (d - min).toNat (le_refl 1) (by omega) (by omega)
    rw [Nat.one_mul] at hm hfloor
    refine ⟨m, hm, ?_⟩
    rw [getRandomDelay_eq min max m 53 hle hspan, hfloor,
      roundInt_of_lt _ (by omega) (by omega)]
    omega
  · intro h51 d hd1 hd2
    obtain ⟨j, hj, hfloor⟩ := roundBits_product_onto 2 (max - min + 1).toNat
      (d - min).toNat (by decide) (by omega) (by omega)
    refine ⟨j, by omega, ?_⟩
    rw [getRandomDelay_eq min max (2 * j) 53 hle hspan, hfloor,
      roundInt_of_lt _ (by omega) (by omega)]
    omega

/-- Witness for C27 as amended: the configured default range of 2000 to 5000 ms. -/
theorem getRandomDelay_range_witness :
    (∀ m k, m < 2 ^ 53 → 53 ≤ k →
      (2000 : Int) ≤ getRandomDelay 2000 5000 m k ∧ getRandomDelay 2000 5000 m k ≤ 5000) ∧
    (∀ d : Int, 2000 ≤ d → d ≤ 5000 →
      ∃ m, m < 2 ^ 53 ∧ getRandomDelay 2000 5000 m 53 = d) ∧
    (∀ d : Int, 2000 ≤ d → d ≤ 5000 →
      ∃ j, j < 2 ^ 52 ∧ getRandomDelay 2000 5000 (2 * j) 53 = d) :=
  have h := getRandomDelay_range 2000 5000 (by decide) (by decide) (by decide) (by decide)
  ⟨h.1, h.2.1 (by decide), h.2.2 (by decide)⟩

/-- Delays of the default range, evaluated. The draw `9004197855455840 / 2^53` times
3001 is `3000 - 80 / 2^52`, which the host rounds to 3000: the delay is 5000. -/
theorem getRandomDelay_examples :
    getRandomDelay 2000 5000 0 53 = 2000 ∧
    getRandomDelay 2000 5000 (2 ^ 52) 53 = 3500 ∧
    getRandomDelay 2000 5000 9004197855455840 53 = 5000 ∧
    getRandomDelay 2000 5000 (2 ^ 53 - 1) 53 = 5000 ∧
    getRandomDelay 2000 5000 (2 ^ 53 - 1) 200 = 2000 ∧
    getRandomDelay 7 7 (2 ^ 53 - 1) 53 = 7 ∧
    roundBits (2 ^ 53 + 1) = 2 ^ 53 ∧ roundBits (2 ^ 53 + 3) = 2 ^ 53 + 4 := by
  refine ⟨?_, ?_, ?_, ?_, ?_, ?_, ?_, ?_⟩ <;> decide

end BaseScraper

namespace JobManager

/-! ### Rescheduling and the next run -/

/-- A completion that the store accepts writes, on every row of the marketplace,
`next_run = now + scheduleHours` of the startup configuration, whatever interval
the row holds in `schedule_frequency`. -/
theorem updateJobCompletion_next_run (config : Config) (w : Manager) (marketplace : String)
    (status : JobStatus) (itemsScraped duration : Int) (errorMessage : Option String)
    (env : CompletionEnv) (cfg : MarketplaceConfig) (hcfg : config marketplace = some cfg)
    (hupd : env.updateError = none) :
    ∀ r ∈ (updateJobCompletion config w marketplace status itemsScraped duration
        errorMessage env).2.scraping_jobs,
      r.marketplace_name = marketplace →
        r.next_run = env.now + cfg.scheduleHours * 60 * 60 * 1000 := by
  have hjobs : (updateJobCompletion config w marketplace status itemsScraped duration
        errorMessage env).2.scraping_jobs
      = updateWhere w.scraping_jobs marketplace (fun r =>
          { r with
            status := status, last_run := some env.dbNow,
            next_run := env.now + cfg.scheduleHours * 60 * 60 * 1000,
            items_scraped := itemsScraped, duration := duration,
            error_message := errorMessage, updated_at := env.dbNow }) := by
    simp only [updateJobCompletion, hcfg, hupd, logJob, getJobRecord]
    cases env.selectError with
    | some e => rfl
    | none =>
      simp only
      split
      · rfl
      · cases env.insertError <;> rfl
  rw [hjobs]
  intro r hr hm
  unfold updateWhere at hr
  rw [List.mem_map] at hr
  obtain ⟨r0, _, h0⟩ := hr
  by_cases hm0 : r0.marketplace_name = marketplace
  · rw [if_pos hm0] at h0
    rw [← h0]
  · rw [if_neg hm0] at h0
    rw [h0] at hm0
    exact absurd hm hm0

/-- Instance of `updateJobCompletion_next_run`: the default configuration. -/
theorem updateJobCompletion_next_run_example :
    ∀ r ∈ (updateJobCompletion defaultConfig freshManager "ouedkniss" .completed 3 7 none
        healthyCompletion).2.scraping_jobs,
      r.marketplace_name = "ouedkniss" → r.next_run = 7200000 + 6 * 60 * 60 * 1000 :=
  updateJobCompletion_next_run defaultConfig freshManager "ouedkniss" .completed 3 7 none
    healthyCompletion { scheduleHours := 6, enabled := true } rfl rfl

/-- C25, evaluated at the failing input. The interval of `ouedkniss` is changed from
6 to 12 hours and a run then completes at time 7200000: the row holds
`schedule_frequency = 12` and the timer is registered for 12 hours, yet the
completion persists `next_run = 7200000 + 6 h = 28800000`, the startup interval,
not `7200000 + 12 h = 50400000`. `updateJobSchedule` itself had persisted
`next_run = now + 12 h`. -/
theorem completion_uses_startup_interval :
    (runCalls defaultConfig freshManager rescheduleOnly).scraping_jobs.map
      (fun r => (r.schedule_frequency, r.next_run)) = [(12, 3600000 + 12 * 3600000)] ∧
    (runCalls defaultConfig freshManager rescheduleThenRun).jobs = [("ouedkniss", 12)] ∧
    (runCalls defaultConfig freshManager rescheduleThenRun).scraping_jobs.map
      (fun r => (r.schedule_frequency, r.status, r.last_run, r.next_run))
      = [(12, .completed, some 7200000, 7200000 + 6 * 3600000)] ∧
    (7200000 + 6 * 3600000 : Int) ≠ 7200000 + 12 * 3600000 := by
  decide

/-! ### The cron timer -/

theorem cronFires_iff (hours t : Nat) :
    cronFires hours t = true ↔ t % 60 = 0 ∧ (t / 60 % 24) % hours = 0 := by
  unfold cronFires
  exact decide_eq_true_iff

theorem cronFires_eq_false_iff (hours t : Nat) :
    cronFires hours t = false ↔ ¬ (t % 60 = 0 ∧ (t / 60 % 24) % hours = 0) := by
  unfold cronFires
  exact decide_eq_false_iff_not

/-- The timer fires at top-of-hour instants only, and always at midnight. -/
theorem cronFires_top_of_hour (hours t : Nat) (h : cronFires hours t = true) :
    t % 60 = 0 :=
  ((cronFires_iff hours t).mp h).1

theorem cronFires_midnight (hours day : Nat) : cronFires hours (1440 * day) = true := by
  rw [cronFires_iff]
  have h1 : 1440 * day % 60 = 0 := by omega
  have h2 : 1440 * day / 60 % 24 = 0 := by omega
  rw [h1, h2]
  exact ⟨rfl, Nat.zero_mod _⟩

/-- For an interval that divides 24, consecutive firings are exactly `hours` hours
apart. -/
theorem consecutiveFirings_of_dvd (hours t t' : Nat) (hdvd : hours ∣ 24)
    (h : consecutiveFirings hours t t') : t' = t + 60 * hours := by
  obtain ⟨h1, h2, hlt, hgap⟩ := h
  rw [cronFires_iff] at h1 h2
  have hle : hours ≤ 24 := Nat.le_of_dvd (by decide) hdvd
  have hpos : 0 < hours := Nat.pos_of_dvd_of_pos hdvd (by decide)
  have hnext : cronFires hours (t + 60 * hours) = true := by
    rw [cronFires_iff]
    interval_cases hours <;> omega
  have hnot : ¬ (t + 60 * hours < t') := by
    intro hlt'
    have := hgap (t + 60 * hours) (by omega) hlt'
    rw [hnext] at this
    exact Bool.noConfusion this
  have hge : t + 60 * hours ≤ t' := by
    interval_cases hours <;> omega
  omega

/-- Instance of `consecutiveFirings_of_dvd`: every 6 hours, from 18:00 to midnight. -/
theorem consecutiveFirings_of_dvd_example :
    consecutiveFirings 6 1080 1440 → 1440 = 1080 + 60 * 6 :=
  consecutiveFirings_of_dvd 6 1080 1440 (by decide)

/-- For an interval in 1..24 that does not divide 24, the last firing of a day and
the midnight after it are consecutive and less than `hours` hours apart. -/
theorem consecutiveFirings_short_gap (hours : Nat) (h1 : 1 ≤ hours) (h24 : hours ≤ 24)
    (hndvd : ¬ hours ∣ 24) :
    consecutiveFirings hours (60 * (hours * (23 / hours))) 1440 ∧
      1440 < 60 * (hours * (23 / hours)) + 60 * hours := by
  unfold consecutiveFirings
  simp only [cronFires_iff, cronFires_eq_false_iff]
  interval_cases hours <;>
    first
    | (exact absurd (by decide) hndvd)
    | (refine ⟨⟨⟨by decide, by decide⟩, ⟨by decide, by decide⟩, by decide, ?_⟩, by decide⟩
       rintro s hs1 hs2 ⟨hm, hh⟩
       simp only [Nat.reduceDiv, Nat.reduceMul] at hs1
       have hk : s / 60 < 24 := by omega
       rw [Nat.mod_eq_of_lt hk] at hh
       omega)

/-- Instance of `consecutiveFirings_short_gap`: every 5 hours. -/
theorem consecutiveFirings_short_gap_example :
    consecutiveFirings 5 (60 * (5 * (23 / 5))) 1440 ∧
      1440 < 60 * (5 * (23 / 5)) + 60 * 5 :=
  consecutiveFirings_short_gap 5 (by decide) (by decide) (by decide)

/-- C26, evaluated at the failing input `hours = 5`. The timer is registered with
the expression `0 */5 * * *`; it fires at 20:00 (minute 1200 of the day) and next
at 00:00 (minute 1440), with no firing in between: 4 hours apart, not 5. -/
theorem every_five_hours_fires_after_four :
    cronExpression 5 = "0 */5 * * *" ∧
    consecutiveFirings 5 1200 1440 ∧
    1440 - 1200 = 60 * 4 ∧ 1440 ≠ 1200 + 60 * 5 := by
  refine ⟨by decide, ⟨by decide, by decide, by decide, ?_⟩, by decide, by decide⟩
  intro s hs1 hs2
  rw [cronFires_eq_false_iff]
  rintro ⟨hm, hh⟩
  have hk : s / 60 < 24 := by omega
  rw [Nat.mod_eq_of_lt hk] at hh
  omega

end JobManager

namespace BaseScraper

/-! ### Removing the common words -/

theorem matchesIgnoreCase_eq (text word : List Char) :
    matchesIgnoreCase text word
      = startsWithChars (text.map Char.toLower) (word.map Char.toLower) := by
  induction word generalizing text with
  | nil => cases text <;> rfl
  | cons d ds ih =>
    cases text with
    | nil => rfl
    | cons c cs =>
      simp only [matchesIgnoreCase, List.map_cons, startsWithChars, ih]

/-- A pass only deletes characters. -/
theorem removeMatches_sublist (word : List Char) (skip : Nat) (text : List Char) :
    (removeMatches word skip text).Sublist text := by
  induction text generalizing skip with
  | nil =>
    cases skip <;> exact List.Sublist.refl _
  | cons c cs ih =>
    cases skip with
    | succ n => exact (ih n).cons c
    | zero =>
      unfold removeMatches
      split
      · exact (ih _).cons c
      · exact (ih 0).cons₂ c

/-- A pass over a text in which the word does not occur changes nothing. -/
theorem removeMatches_of_not_includes (word text : List Char)
    (h : includesChars (text.map Char.toLower) (word.map Char.toLower) = false) :
    removeMatches word 0 text = text := by
  induction text with
  | nil => rfl
  | cons c cs ih =>
    rw [List.map_cons, includesChars, Bool.or_eq_false_iff] at h
    have hm : matchesIgnoreCase (c :: cs) word = false := by
      rw [matchesIgnoreCase_eq]
      exact h.1
    unfold removeMatches
    rw [hm, ih h.2]
    rfl

theorem removeAllWords_sublist (words : List String) (title : List Char) :
    (removeAllWords words title).Sublist title := by
  unfold removeAllWords
  induction words generalizing title with
  | nil => exact List.Sublist.refl _
  | cons w ws ih =>
    rw [List.foldl_cons]
    exact (ih _).trans (removeMatches_sublist _ _ _)

theorem removeAllWords_of_not_includes (words : List String) (title : List Char)
    (h : ∀ w ∈ words,
      includesChars (title.map Char.toLower) (w.toList.map Char.toLower) = false) :
    removeAllWords words title = title := by
  unfold removeAllWords
  induction words with
  | nil => rfl
  | cons w ws ih =>
    rw [List.foldl_cons, removeMatches_of_not_includes _ _ (h w (List.mem_cons_self _ _))]
    exact ih (fun w' hw' => h w' (List.mem_cons_of_mem _ hw'))

theorem trim_sublist (s : List Char) : (trim s).Sublist s :=
  ((List.rdropWhile_prefix jsWhiteSpace _).sublist).trans
    (List.dropWhile_suffix jsWhiteSpace).sublist

/-- A trimmed text does not start with a white-space character. -/
theorem trim_head (s : List Char) (c : Char) (h : (trim s).head? = some c) :
    jsWhiteSpace c = false := by
  have hp : trim s <+: s.dropWhile jsWhiteSpace := List.rdropWhile_prefix jsWhiteSpace _
  obtain ⟨t, ht⟩ := hp
  cases hts : trim s with
  | nil =>
    rw [hts] at h
    exact absurd h (by simp)
  | cons a as =>
    rw [hts] at h ht
    have ha : a = c := by simpa using h
    subst ha
    have hd := List.head?_dropWhile_not jsWhiteSpace s
    rw [← ht] at hd
    simpa using hd

/-- A trimmed text does not end with a white-space character. -/
theorem trim_getLast (s : List Char) (c : Char) (h : (trim s).getLast? = some c) :
    jsWhiteSpace c = false := by
  have hne : trim s ≠ [] := by
    intro hnil
    rw [hnil] at h
    exact absurd h (by simp)
  have hl := List.rdropWhile_last_not jsWhiteSpace (s.dropWhile jsWhiteSpace) hne
  rw [List.getLast?_eq_getLast _ hne] at h
  have hc : (trim s).getLast hne = c := Option.some.inj h
  have hl' : ¬ jsWhiteSpace ((trim s).getLast hne) = true := hl
  rw [hc] at hl'
  exact Bool.eq_false_iff.mpr hl'

/-- Counterexample to C29 as stated. Removing `new` from `nenewuf` leaves `neuf`,
whose own pass is already over: the returned model name contains `neuf`. A single
pass can leave its own word as well: removing `neuf` from `nneufeuf` leaves `neuf`. -/
theorem cleanModelName_leaves_neuf :
    cleanModelName "iPhone 12 nenewuf" = "iPhone 12 neuf" ∧
    includes (asciiLowerCase (cleanModelName "iPhone 12 nenewuf")) "neuf" = true ∧
    "neuf" ∈ removeWords ∧
    cleanModelName "iPhone 12 nneufeuf" = "iPhone 12 neuf" := by
  decide

/-- What `cleanModelName` does to ordinary titles. -/
theorem cleanModelName_examples :
    cleanModelName "iPhone 12 Pro NEUF" = "iPhone 12 Pro" ∧
    cleanModelName "Samsung S21 comme neuf original" = "Samsung S21 comme" ∧
    cleanModelName " Used Galaxy A52 " = "Galaxy A52" ∧
    cleanModelName "Renewed Pixel 6" = "Reed Pixel 6" := by
  decide

end BaseScraper

namespace OuedknissScraper

open BaseScraper

/-! ### The page loop of the general-search scraper -/

theorem noteWarning_phones (pageNum : Nat) (pageContent : String) (tr : PageTrace) :
    (noteWarning pageNum pageContent tr).phones = tr.phones := by
  unfold noteWarning
  split <;> rfl

theorem noteWarning_visited (pageNum : Nat) (pageContent : String) (tr : PageTrace) :
    (noteWarning pageNum pageContent tr).visited = tr.visited := by
  unfold noteWarning
  split <;> rfl

theorem noteWarning_warnings (pageNum : Nat) (pageContent : String) (tr : PageTrace) :
    (noteWarning pageNum pageContent tr).warnings
      = tr.warnings ++ (if antiBotSignature pageContent then [pageNum] else []) := by
  unfold noteWarning
  split <;> simp

/-- The loop enters one iteration per page number at most, in order. -/
theorem pageLoop_visited_prefix (process : Item → ScrapedPhone) (visit : Nat → PageVisit)
    (pages : List Nat) (tr : PageTrace) :
    ∃ done, done <+: pages ∧ (pageLoop process visit pages tr).visited = tr.visited ++ done := by
  induction pages generalizing tr with
  | nil => exact ⟨[], List.prefix_refl _, by simp [pageLoop]⟩
  | cons p rest ih =>
    unfold pageLoop
    cases hv : visit p with
    | failed e =>
      obtain ⟨done, hd, he⟩ := ih { tr with visited := tr.visited ++ [p] }
      refine ⟨p :: done, (List.prefix_cons_inj p).mpr hd, ?_⟩
      simp only [he, List.append_assoc, List.singleton_append]
    | failedAfterContent content e =>
      obtain ⟨done, hd, he⟩ := ih (noteWarning p content { tr with visited := tr.visited ++ [p] })
      refine ⟨p :: done, (List.prefix_cons_inj p).mpr hd, ?_⟩
      simp only [he, noteWarning_visited, List.append_assoc, List.singleton_append]
    | loaded content items =>
      simp only
      split
      · refine ⟨[p], ?_, ?_⟩
        · exact ⟨rest, rfl⟩
        · rw [noteWarning_visited]
      · obtain ⟨done, hd, he⟩ := ih
          { noteWarning p content { tr with visited := tr.visited ++ [p] } with
            phones := (noteWarning p content { tr with visited := tr.visited ++ [p] }).phones
              ++ items.map process }
        refine ⟨p :: done, (List.prefix_cons_inj p).mpr hd, ?_⟩
        rw [he]
        simp only [noteWarning_visited, List.append_assoc, List.singleton_append]

/-- The loop over pages `a, a + 1, ...` when pages `a .. k - 1` load with items and
page `k` loads with none: it enters the iterations `a .. k` and pushes the items of
pages `a .. k - 1` in page order. -/
theorem pageLoop_stops_at_empty (process : Item → ScrapedPhone) (visit : Nat → PageVisit)
    (k : Nat) (n a : Nat) (tr : PageTrace) (hak : a ≤ k) (hkn : k < a + n)
    (hload : ∀ j, a ≤ j → j < k →
      ∃ content items, visit j = .loaded content items ∧ items ≠ [])
    (hempty : ∃ content, visit k = .loaded content []) :
    (pageLoop process visit (List.range' a n) tr).visited
        = tr.visited ++ List.range' a (k + 1 - a) ∧
    (pageLoop process visit (List.range' a n) tr).phones
        = tr.phones ++
          ((List.range' a (k - a)).map (fun j => (visit j).items.map process)).flatten := by
  induction n generalizing a tr with
  | zero => omega
  | succ n ih =>
    rw [List.range'_succ]
    unfold pageLoop
    by_cases hk : a = k
    · subst hk
      obtain ⟨content, hc⟩ := hempty
      rw [hc]
      simp only [List.isEmpty_nil, if_true, noteWarning_visited, noteWarning_phones]
      have e1 : a + 1 - a = 1 := by omega
      rw [e1, Nat.sub_self]
      simp
    · have hlt : a < k := by omega
      obtain ⟨content, items, hv, hne⟩ := hload a (le_refl a) hlt
      rw [hv]
      have hie : items.isEmpty = false := by
        cases items with
        | nil => exact absurd rfl hne
        | cons _ _ => rfl
      simp only [hie, Bool.false_eq_true, if_false]
      have h := ih (a + 1)
        { noteWarning a content { tr with visited := tr.visited ++ [a] } with
          phones := (noteWarning a content { tr with visited := tr.visited ++ [a] }).phones
            ++ items.map process }
        (by omega) (by omega) (fun j hj1 hj2 => hload j (by omega) hj2)
      have e1 : k + 1 - a = (k + 1 - (a + 1)) + 1 := by omega
      have e2 : k - a = (k - (a + 1)) + 1 := by omega
      rw [h.1, h.2, e1, e2, List.range'_succ, List.range'_succ]
      simp only [noteWarning_visited, noteWarning_phones, List.append_assoc,
        List.singleton_append, List.map_cons, List.flatten_cons, hv, PageVisit.items]
      exact ⟨trivial, trivial⟩

/-- The page contents do not steer the loop: replacing them changes neither the
iterations entered nor the phones pushed. -/
theorem pageLoop_withContent (process : Item → ScrapedPhone) (visit : Nat → PageVisit)
    (content : Nat → String) (pages : List Nat) (tr tr' : PageTrace)
    (hp : tr'.phones = tr.phones) (hv : tr'.visited = tr.visited) :
    (pageLoop process (withContent content visit) pages tr').phones
        = (pageLoop process visit pages tr).phones ∧
    (pageLoop process (withContent content visit) pages tr').visited
        = (pageLoop process visit pages tr).visited := by
  induction pages generalizing tr tr' with
  | nil => exact ⟨hp, hv⟩
  | cons p rest ih =>
    unfold pageLoop withContent
    cases hvis : visit p with
    | failed e =>
      simp only
      exact ih _ _ hp (by simp only [hv])
    | failedAfterContent c e =>
      simp only
      exact ih _ _ (by simp only [noteWarning_phones, hp])
        (by simp only [noteWarning_visited, hv])
    | loaded c items =>
      simp only
      split
      · simp only [noteWarning_phones, noteWarning_visited, hp, hv]
        exact ⟨trivial, trivial⟩
      · apply ih
        · simp only [noteWarning_phones, hp]
        · simp only [noteWarning_visited, hv]

/-- The warnings logged are the iterations entered whose page carries a signature. -/
theorem pageLoop_warnings (process : Item → ScrapedPhone) (visit : Nat → PageVisit)
    (pages : List Nat) (tr : PageTrace)
    (h : tr.warnings = tr.visited.filter (fun j => (visit j).flagged)) :
    (pageLoop process visit pages tr).warnings
      = (pageLoop process visit pages tr).visited.filter (fun j => (visit j).flagged) := by
  induction pages generalizing tr with
  | nil => exact h
  | cons p rest ih =>
    unfold pageLoop
    cases hvis : visit p with
    | failed e =>
      simp only
      apply ih
      simp only [List.filter_append, h, List.filter_cons, List.filter_nil, hvis,
        PageVisit.flagged, Bool.false_eq_true, if_false, List.append_nil]
    | failedAfterContent c e =>
      simp only
      apply ih
      rw [noteWarning_warnings, noteWarning_visited, List.filter_append, h]
      simp only [List.filter_cons, List.filter_nil, hvis, PageVisit.flagged]
    | loaded c items =>
      have hstep : (noteWarning p c { tr with visited := tr.visited ++ [p] }).warnings
          = (tr.visited ++ [p]).filter (fun j => (visit j).flagged) := by
        rw [noteWarning_warnings, List.filter_append, h]
        simp only [List.filter_cons, List.filter_nil, hvis, PageVisit.flagged]
      simp only
      split
      · rw [hstep, noteWarning_visited]
      · apply ih
        simp only [hstep, noteWarning_visited]

end OuedknissScraper

namespace OuedknissScraper

open BaseScraper

/-- The phones pushed are the items of the iterations entered, in order. -/
theorem pageLoop_phones (process : Item → ScrapedPhone) (visit : Nat → PageVisit)
    (pages : List Nat) (tr : PageTrace)
    (h : tr.phones = (tr.visited.map (fun j => (visit j).items.map process)).flatten) :
    (pageLoop process visit pages tr).phones
      = ((pageLoop process visit pages tr).visited.map
          (fun j => (visit j).items.map process)).flatten := by
  induction pages generalizing tr with
  | nil => exact h
  | cons p rest ih =>
    unfold pageLoop
    cases hvis : visit p with
    | failed e =>
      simp only
      apply ih
      simp [h, hvis, PageVisit.items]
    | failedAfterContent c e =>
      simp only
      apply ih
      simp [noteWarning_phones, noteWarning_visited, h, hvis, PageVisit.items]
    | loaded c items =>
      simp only
      split
      · next hie =>
        have hnil : items = [] := List.isEmpty_iff.mp hie
        simp [noteWarning_phones, noteWarning_visited, h, hvis, PageVisit.items, hnil]
      · apply ih
        simp [noteWarning_phones, noteWarning_visited, h, hvis, PageVisit.items]

/-- C22. Early stop of the general-search scraper. No run enters more than 5 page
iterations, and they are pages 1, 2, ... in order. For every k in 1..5, when the
setup succeeds, pages 1..k-1 each load with at least one item and page k loads with
zero items, exactly the pages 1..k are visited and the phones collected are the
items of pages 1..k-1 in page order; they are what `scrape` returns when the final
`page.close()` succeeds. -/
theorem scrape_stops_at_first_empty_page (toLowerCase toUpperCase : String → String)
    (env : ScrapeEnv) :
    ((scrape toLowerCase toUpperCase env).2.visited.length ≤ 5 ∧
      (scrape toLowerCase toUpperCase env).2.visited <+: [1, 2, 3, 4, 5]) ∧
    (∀ k, 1 ≤ k → k ≤ 5 → env.setupError = none →
      (∀ j, 1 ≤ j → j < k →
        ∃ content items, env.visit j = .loaded content items ∧ items ≠ []) →
      (∃ content, env.visit k = .loaded content []) →
      (scrape toLowerCase toUpperCase env).2.visited = List.range' 1 k ∧
      (scrape toLowerCase toUpperCase env).2.phones
        = ((List.range' 1 (k - 1)).map
            (fun j => (env.visit j).items.map (toPhone toLowerCase toUpperCase))).flatten ∧
      (env.closeError = none →
        (scrape toLowerCase toUpperCase env).1
          = .ok ((List.range' 1 (k - 1)).map
              (fun j => (env.visit j).items.map (toPhone toLowerCase toUpperCase))).flatten)) := by
  constructor
  · have hpre : (scrape toLowerCase toUpperCase env).2.visited <+: [1, 2, 3, 4, 5] := by
      unfold scrape
      cases env.setupError with
      | some e => exact List.nil_prefix
      | none =>
        obtain ⟨done, hd, he⟩ := pageLoop_visited_prefix (toPhone toLowerCase toUpperCase)
          env.visit (List.range' 1 maxPages) { phones := [], visited := [], warnings := [] }
        have htr : (match env.closeError with
            | some e => ((Except.error e : Except JsError (List ScrapedPhone)),
                pageLoop (toPhone toLowerCase toUpperCase) env.visit (List.range' 1 maxPages)
                  { phones := [], visited := [], warnings := [] })
            | none => (.ok (pageLoop (toPhone toLowerCase toUpperCase) env.visit
                  (List.range' 1 maxPages)
                  { phones := [], visited := [], warnings := [] }).phones,
                pageLoop (toPhone toLowerCase toUpperCase) env.visit (List.range' 1 maxPages)
                  { phones := [], visited := [], warnings := [] })).2
            = pageLoop (toPhone toLowerCase toUpperCase) env.visit (List.range' 1 maxPages)
                { phones := [], visited := [], warnings := [] } := by
          cases env.closeError <;> rfl
        simp only [htr, he, List.nil_append]
        exact hd
    exact ⟨by simpa using hpre.length_le, hpre⟩
  · intro k hk1 hk5 hsetup hload hempty
    have h := pageLoop_stops_at_empty (toPhone toLowerCase toUpperCase) env.visit k maxPages 1
      { phones := [], visited := [], warnings := [] } hk1
      (by unfold maxPages; omega) hload hempty
    simp only [List.nil_append, Nat.add_sub_cancel] at h
    unfold scrape
    rw [hsetup]
    cases hclose : env.closeError with
    | some e => exact ⟨h.1, h.2, fun hc => absurd hc (by simp)⟩
    | none => exact ⟨h.1, h.2, fun _ => congrArg Except.ok h.2⟩

/-- Witness for C22: pages 1 and 2 carry a listing each and page 3 none; page 4,
which has a listing, is never visited. -/
theorem scrape_stops_at_first_empty_page_witness :
    (scrape asciiLowerCase asciiUpperCase threePages).2.visited = [1, 2, 3] ∧
    (scrape asciiLowerCase asciiUpperCase threePages).1
      = .ok [toPhone asciiLowerCase asciiUpperCase galaxyItem,
             toPhone asciiLowerCase asciiUpperCase redmiItem] :=
  have h := (scrape_stops_at_first_empty_page asciiLowerCase asciiUpperCase threePages).2 3
    (by decide) (by decide) rfl
    (fun j h1 h3 => by
      interval_cases j
      · exact ⟨"<html>1</html>", [galaxyItem], rfl, by simp⟩
      · exact ⟨"<html>2</html>", [redmiItem], rfl, by simp⟩)
    ⟨"<html>3</html>", rfl⟩
  ⟨h.1, h.2.2 rfl⟩

/-- Counterexample to C23 as stated. Page 1 carries the text `captcha` and one
listing, page 2 is empty: the warning is logged for page 1, the loop goes on to
page 2, and the listing of page 1 is returned. -/
theorem captcha_page_is_scraped :
    antiBotSignature "<html>Please solve the captcha</html>" = true ∧
    (scrape asciiLowerCase asciiUpperCase captchaFirstPage).2.warnings = [1] ∧
    (scrape asciiLowerCase asciiUpperCase captchaFirstPage).2.visited = [1, 2] ∧
    (scrape asciiLowerCase asciiUpperCase captchaFirstPage).1
      = .ok [toPhone asciiLowerCase asciiUpperCase galaxyItem] ∧
    (toPhone asciiLowerCase asciiUpperCase galaxyItem).source_url
      = some "https://www.ouedkniss.com/annonce/1" :=
  ⟨by decide, by decide, by decide, rfl, by decide⟩

theorem pageLoop_step (process : Item → ScrapedPhone) (visit : Nat → PageVisit)
    (p : Nat) (rest : List Nat) (tr : PageTrace) :
    pageLoop process visit (p :: rest) tr
      = match visit p with
        | .failed _ =>
          pageLoop process visit rest { tr with visited := tr.visited ++ [p] }
        | .failedAfterContent pageContent _ =>
          pageLoop process visit rest
            (noteWarning p pageContent { tr with visited := tr.visited ++ [p] })
        | .loaded pageContent items =>
          if items.isEmpty then
            noteWarning p pageContent { tr with visited := tr.visited ++ [p] }
          else
            pageLoop process visit rest
              { noteWarning p pageContent { tr with visited := tr.visited ++ [p] } with
                phones :=
                  (noteWarning p pageContent { tr with visited := tr.visited ++ [p] }).phones
                    ++ items.map process } :=
  rfl

/-- One iteration of the loop: a page that loads with no items ends the loop after
its iteration; any other page hands over to the rest of the loop. -/
theorem pageLoop_cons (process : Item → ScrapedPhone) (visit : Nat → PageVisit)
    (p : Nat) (rest : List Nat) (tr : PageTrace) :
    ((visit p).stops = true →
      (pageLoop process visit (p :: rest) tr).visited = tr.visited ++ [p]) ∧
    ((visit p).stops = false →
      ∃ tr', tr'.visited = tr.visited ++ [p] ∧
        pageLoop process visit (p :: rest) tr = pageLoop process visit rest tr') := by
  rw [pageLoop_step]
  cases hvis : visit p with
  | failed e =>
    exact ⟨fun h => by simp [PageVisit.stops] at h, fun _ => ⟨_, rfl, rfl⟩⟩
  | failedAfterContent c e =>
    exact ⟨fun h => by simp [PageVisit.stops] at h,
      fun _ => ⟨_, noteWarning_visited _ _ _, rfl⟩⟩
  | loaded c items =>
    constructor
    · intro h
      have hie : items.isEmpty = true := h
      simp only [hie, if_true, noteWarning_visited]
    · intro h
      have hie : items.isEmpty = false := h
      simp only [hie, Bool.false_eq_true, if_false]
      exact ⟨_, by simp only [noteWarning_visited], rfl⟩

/-- The iterations entered over the pages `a, a + 1, ..., a + len - 1`: the pages up
to the first that loads with no items, or all of them when there is none. -/
theorem pageLoop_visited_range (process : Item → ScrapedPhone) (visit : Nat → PageVisit)
    (len a : Nat) (tr : PageTrace) (hlen : 1 ≤ len) :
    ∃ m, 1 ≤ m ∧ m ≤ len ∧
      (pageLoop process visit (List.range' a len) tr).visited
        = tr.visited ++ List.range' a m ∧
      (∀ j, a ≤ j → j + 1 < a + m → (visit j).stops = false) ∧
      (m < len → (visit (a + m - 1)).stops = true) := by
  induction len generalizing a tr with
  | zero => omega
  | succ n ih =>
    rw [List.range'_succ]
    have hcons := pageLoop_cons process visit a (List.range' (a + 1) n) tr
    cases hstop : (visit a).stops with
    | true =>
      refine ⟨1, le_refl 1, by omega, hcons.1 hstop, fun j h1 h2 => by omega, fun _ => ?_⟩
      rw [Nat.add_sub_cancel]
      exact hstop
    | false =>
      obtain ⟨tr', hv', hloop⟩ := hcons.2 hstop
      rw [hloop]
      by_cases hn : n = 0
      · subst hn
        refine ⟨1, le_refl 1, le_refl 1, ?_, fun j h1 h2 => by omega, fun h => by omega⟩
        simp only [List.range', pageLoop, hv']
      · obtain ⟨m, hm1, hmn, hvis, hbefore, hlast⟩ := ih (a + 1) tr' (by omega)
        refine ⟨m + 1, by omega, by omega, ?_, ?_, ?_⟩
        · rw [hvis, hv', List.range'_succ, List.append_assoc, List.singleton_append]
        · intro j h1 h2
          by_cases hj : j = a
          · rw [hj]
            exact hstop
          · exact hbefore j (by omega) (by omega)
        · intro h
          have := hlast (by omega)
          have e : a + (m + 1) - 1 = a + 1 + m - 1 := by omega
          rw [e]
          exact this

/-- C23 as amended. The anti-bot test only logs a warning. Replacing every page
content that was read by any other changes neither the outcome of `scrape` nor the
pages visited; the warnings are exactly the visited pages whose content carries a
signature; every item of every visited page is collected, in page order. When the
setup succeeds the pages visited are 1..n, where n is the first page in 1..5 that
loads with zero items, or 5 when there is none: no page before n ends the loop, and
the loop ends before page 5 only at a page that loaded with zero items. The phones
collected are returned when the final `page.close()` succeeds. -/
theorem antiBotSignature_only_warns (toLowerCase toUpperCase : String → String)
    (env : ScrapeEnv) (content : Nat → String) :
    (scrape toLowerCase toUpperCase { env with visit := withContent content env.visit }).1
        = (scrape toLowerCase toUpperCase env).1 ∧
    (scrape toLowerCase toUpperCase { env with visit := withContent content env.visit }).2.visited
        = (scrape toLowerCase toUpperCase env).2.visited ∧
    (scrape toLowerCase toUpperCase env).2.warnings
        = (scrape toLowerCase toUpperCase env).2.visited.filter
            (fun j => (env.visit j).flagged) ∧
    (scrape toLowerCase toUpperCase env).2.phones
        = ((scrape toLowerCase toUpperCase env).2.visited.map
            (fun j => (env.visit j).items.map (toPhone toLowerCase toUpperCase))).flatten ∧
    (env.setupError = none →
      (∃ n, 1 ≤ n ∧ n ≤ 5 ∧
        (scrape toLowerCase toUpperCase env).2.visited = List.range' 1 n ∧
        (∀ j, 1 ≤ j → j < n → (env.visit j).stops = false) ∧
        (n < 5 → (env.visit n).stops = true)) ∧
      (env.closeError = none →
        (scrape toLowerCase toUpperCase env).1
          = .ok (scrape toLowerCase toUpperCase env).2.phones)) := by
  have hc := pageLoop_withContent (toPhone toLowerCase toUpperCase) env.visit content
    (List.range' 1 maxPages) { phones := [], visited := [], warnings := [] }
    { phones := [], visited := [], warnings := [] } rfl rfl
  have hw := pageLoop_warnings (toPhone toLowerCase toUpperCase) env.visit
    (List.range' 1 maxPages) { phones := [], visited := [], warnings := [] } rfl
  have hp := pageLoop_phones (toPhone toLowerCase toUpperCase) env.visit
    (List.range' 1 maxPages) { phones := [], visited := [], warnings := [] } rfl
  have hr : ∃ n, 1 ≤ n ∧ n ≤ 5 ∧
      (pageLoop (toPhone toLowerCase toUpperCase) env.visit (List.range' 1 maxPages)
        { phones := [], visited := [], warnings := [] }).visited = List.range' 1 n ∧
      (∀ j, 1 ≤ j → j < n → (env.visit j).stops = false) ∧
      (n < 5 → (env.visit n).stops = true) := by
    obtain ⟨m, hm1, hm5, hvis, hbefore, hlast⟩ :=
      pageLoop_visited_range (toPhone toLowerCase toUpperCase) env.visit maxPages 1
        { phones := [], visited := [], warnings := [] } (by decide)
    refine ⟨m, hm1, hm5, by simpa using hvis, fun j h1 h2 => hbefore j h1 (by omega),
      fun h => ?_⟩
    have := hlast h
    rw [Nat.add_sub_cancel_left] at this
    exact this
  unfold scrape
  cases env.setupError with
  | some e => exact ⟨rfl, rfl, rfl, rfl, fun h => Option.noConfusion h⟩
  | none =>
    cases env.closeError with
    | some e => exact ⟨rfl, hc.2, hw, hp, fun _ => ⟨hr, fun h => Option.noConfusion h⟩⟩
    | none => exact ⟨by simp only [hc.1], hc.2, hw, hp, fun _ => ⟨hr, fun _ => rfl⟩⟩

/-- Witness for C23 as amended: page 1 carries a block notice and its extraction
rejects, page 2 has one listing, page 3 rejects, page 4 is empty. -/
theorem antiBotSignature_only_warns_witness :
    blockedThenOpen.setupError = none ∧
    (∃ n, 1 ≤ n ∧ n ≤ 5 ∧
      (scrape asciiLowerCase asciiUpperCase blockedThenOpen).2.visited = List.range' 1 n ∧
      (∀ j, 1 ≤ j → j < n → (blockedThenOpen.visit j).stops = false) ∧
      (n < 5 → (blockedThenOpen.visit n).stops = true)) ∧
    (scrape asciiLowerCase asciiUpperCase blockedThenOpen).1
      = .ok (scrape asciiLowerCase asciiUpperCase blockedThenOpen).2.phones :=
  have h := (antiBotSignature_only_warns asciiLowerCase asciiUpperCase blockedThenOpen
    (fun _ => "")).2.2.2.2 rfl
  ⟨rfl, h.1, h.2 rfl⟩

/-- The run of the witness, evaluated: pages 1 to 4 are visited, the warning is
logged for page 1 although its extraction rejects, and the listing of page 2 is
returned. -/
theorem scrape_blocked_then_open :
    (scrape asciiLowerCase asciiUpperCase blockedThenOpen).2.visited = [1, 2, 3, 4] ∧
    (scrape asciiLowerCase asciiUpperCase blockedThenOpen).2.warnings = [1] ∧
    (scrape asciiLowerCase asciiUpperCase blockedThenOpen).1
      = .ok [toPhone asciiLowerCase asciiUpperCase redmiItem] :=
  ⟨by decide, by decide, rfl⟩

end OuedknissScraper

namespace FacebookScraper

open BaseScraper

/-! ### The scroll loop of the infinite-scroll scraper -/

theorem any_source_url (process : Item → ScrapedPhone)
    (hurl : ∀ item, (process item).source_url = some item.link)
    (kept : List Item) (link : String) :
    (kept.map process).any (fun p => p.source_url == some link)
      = kept.any (fun k => k.link == link) := by
  induction kept with
  | nil => rfl
  | cons k ks ih =>
    rw [List.map_cons, List.any_cons, List.any_cons, ih, hurl k]
    congr 1

/-- The items behind the collected phones: `addNew` on the item level. -/
theorem addNew_map (process : Item → ScrapedPhone)
    (hurl : ∀ item, (process item).source_url = some item.link)
    (newPhones kept : List Item) :
    addNew process (kept.map process) newPhones
      = (kept ++ (keepFirstByLink newPhones).filter
          (fun item => !kept.any (fun k => k.link == item.link))).map process := by
  unfold addNew
  induction newPhones generalizing kept with
  | nil => simp [keepFirstByLink]
  | cons x xs ih =>
    rw [List.foldl_cons, any_source_url process hurl kept x.link]
    cases hk : kept.any (fun k => k.link == x.link) with
    | true =>
      simp only [if_true]
      rw [ih kept]
      congr 2
      simp only [keepFirstByLink, List.filter_cons, hk, Bool.not_true, Bool.false_eq_true,
        if_false, List.filter_filter]
      apply List.filter_congr
      intro y _
      cases hy : kept.any (fun k => k.link == y.link) with
      | true => simp
      | false =>
        have hne : y.link ≠ x.link := by
          intro hxy
          rw [hxy] at hy
          rw [hy] at hk
          exact Bool.noConfusion hk
        simp [hne]
    | false =>
      simp only [Bool.false_eq_true, if_false]
      have hm : kept.map process ++ [process x] = (kept ++ [x]).map process := by simp
      rw [hm, ih (kept ++ [x])]
      congr 1
      simp only [keepFirstByLink, List.filter_cons, hk, Bool.not_false, if_true,
        List.append_assoc, List.singleton_append, List.filter_filter]
      congr 2
      apply List.filter_congr
      intro y _
      simp only [List.any_append, List.any_cons, List.any_nil, Bool.or_false, Bool.not_or]
      cases kept.any (fun k => k.link == y.link) <;> simp [bne, eq_comm]

theorem addNew_nil (process : Item → ScrapedPhone)
    (hurl : ∀ item, (process item).source_url = some item.link) (items : List Item) :
    addNew process [] items = (keepFirstByLink items).map process := by
  have h := addNew_map process hurl items []
  simpa using h

theorem addNew_append (process : Item → ScrapedPhone) (phones : List ScrapedPhone)
    (xs ys : List Item) :
    addNew process phones (xs ++ ys) = addNew process (addNew process phones xs) ys := by
  unfold addNew
  exact List.foldl_append _ _ _ _

/-- The links kept are pairwise distinct. -/
theorem keepFirstByLink_pairwise (items : List Item) :
    (keepFirstByLink items).Pairwise (fun a b => a.link ≠ b.link) := by
  induction items with
  | nil => exact List.Pairwise.nil
  | cons x xs ih =>
    unfold keepFirstByLink
    rw [List.pairwise_cons]
    constructor
    · intro y hy
      have := (List.mem_filter.mp hy).2
      simp only [bne_iff_ne, ne_eq] at this
      exact fun h => this h.symm
    · exact ih.sublist (List.filter_sublist _)

theorem keepFirstByLink_sublist (items : List Item) :
    (keepFirstByLink items).Sublist items := by
  induction items with
  | nil => exact List.Sublist.refl _
  | cons x xs ih =>
    unfold keepFirstByLink
    exact ((List.filter_sublist _).trans ih).cons₂ x

/-- Every link extracted is the link of a kept item. -/
theorem keepFirstByLink_covers (items : List Item) (item : Item) (h : item ∈ items) :
    ∃ kept ∈ keepFirstByLink items, kept.link = item.link := by
  induction items with
  | nil => exact absurd h (List.not_mem_nil _)
  | cons x xs ih =>
    unfold keepFirstByLink
    by_cases hx : item.link = x.link
    · exact ⟨x, List.mem_cons_self _ _, hx.symm⟩
    · rcases List.mem_cons.mp h with rfl | hmem
      · exact absurd rfl hx
      · obtain ⟨kept, hk, hl⟩ := ih hmem
        refine ⟨kept, List.mem_cons_of_mem _ (List.mem_filter.mpr ⟨hk, ?_⟩), hl⟩
        simp only [bne_iff_ne, ne_eq, hl]
        exact hx

/-- The kept item with a given link is the first extracted with that link. -/
theorem keepFirstByLink_first (pre post : List Item) (item : Item)
    (hfirst : ∀ earlier ∈ pre, earlier.link ≠ item.link) :
    item ∈ keepFirstByLink (pre ++ item :: post) := by
  induction pre with
  | nil =>
    unfold keepFirstByLink
    exact List.mem_cons_self _ _
  | cons x xs ih =>
    rw [List.cons_append]
    unfold keepFirstByLink
    refine List.mem_cons_of_mem _ (List.mem_filter.mpr ⟨?_, ?_⟩)
    · exact ih (fun e he => hfirst e (List.mem_cons_of_mem _ he))
    · simp only [bne_iff_ne, ne_eq]
      exact fun h => hfirst x (List.mem_cons_self _ _) h.symm

/-- Invariant of the loop: the phones are the items seen so far, deduplicated, and
the iterations entered never exceed the start count plus the fuel. -/
theorem scrollLoop_spec (process : Item → ScrapedPhone)
    (scroll : Nat → Except JsError (List Item × Nat))
    (fuel scrollCount previousHeight : Nat) (phones : List ScrapedPhone) (tr : ScrollTrace)
    (hinv : phones = addNew process [] tr.seen) :
    (scrollLoop process scroll fuel scrollCount previousHeight phones tr).2.iterations
        ≤ tr.iterations + fuel ∧
    ∀ result, (scrollLoop process scroll fuel scrollCount previousHeight phones tr).1
        = .ok result →
      result = addNew process []
        (scrollLoop process scroll fuel scrollCount previousHeight phones tr).2.seen := by
  induction fuel generalizing scrollCount previousHeight phones tr with
  | zero =>
    unfold scrollLoop
    refine ⟨le_refl _, fun result h => ?_⟩
    rw [← hinv]
    exact (Except.ok.inj h).symm
  | succ fuel ih =>
    unfold scrollLoop
    cases hs : scroll scrollCount with
    | error e =>
      refine ⟨by simp only; omega, fun result h => ?_⟩
      exact Except.noConfusion h
    | ok step =>
      obtain ⟨newPhones, currentHeight⟩ := step
      simp only
      have hinv1 : addNew process phones newPhones
          = addNew process [] (tr.seen ++ newPhones) := by
        rw [addNew_append, ← hinv]
      split
      · refine ⟨by simp only; omega, fun result h => ?_⟩
        rw [← hinv1]
        exact (Except.ok.inj h).symm
      · have h := ih (scrollCount + 1) currentHeight (addNew process phones newPhones)
          { iterations := tr.iterations + 1, seen := tr.seen ++ newPhones } hinv1
        exact ⟨by have := h.1; simp only at this; omega, h.2⟩

end FacebookScraper

namespace FacebookScraper

open BaseScraper

/-- C24. Within-run dedup of the infinite-scroll scraper. For every behaviour of the
scrolls, at most 20 scroll iterations are entered; and when `scrape` returns a list,
its `source_url` values are pairwise distinct and it is, in extraction order, the
phone of the first item extracted with each link: an item with no earlier item of
the same link is in the list, and the list has one phone per kept item. -/
theorem scrape_dedups_by_source_url (toLowerCase toUpperCase : String → String)
    (env : ScrapeEnv) :
    (scrape toLowerCase toUpperCase env).2.iterations ≤ 20 ∧
    ∀ phones, (scrape toLowerCase toUpperCase env).1 = .ok phones →
      (phones.map (fun p => p.source_url)).Nodup ∧
      phones = (keepFirstByLink (scrape toLowerCase toUpperCase env).2.seen).map
        (toPhone toLowerCase toUpperCase) ∧
      ∀ pre item post, (scrape toLowerCase toUpperCase env).2.seen = pre ++ item :: post →
        (∀ earlier ∈ pre, earlier.link ≠ item.link) →
        toPhone toLowerCase toUpperCase item ∈ phones := by
  have hurl : ∀ item, (toPhone toLowerCase toUpperCase item).source_url = some item.link :=
    fun _ => rfl
  have hloop := scrollLoop_spec (toPhone toLowerCase toUpperCase) env.scroll maxScrolls 0 0 []
    { iterations := 0, seen := [] } rfl
  have hfinal : ∀ (phones : List ScrapedPhone) (seen : List Item),
      phones = addNew (toPhone toLowerCase toUpperCase) [] seen →
      (phones.map (fun p => p.source_url)).Nodup ∧
      phones = (keepFirstByLink seen).map (toPhone toLowerCase toUpperCase) ∧
      ∀ pre item post, seen = pre ++ item :: post →
        (∀ earlier ∈ pre, earlier.link ≠ item.link) →
        toPhone toLowerCase toUpperCase item ∈ phones := by
    intro phones seen hp
    rw [addNew_nil _ hurl] at hp
    refine ⟨?_, hp, ?_⟩
    · rw [hp, List.map_map]
      unfold List.Nodup
      rw [List.pairwise_map]
      exact (keepFirstByLink_pairwise seen).imp
        (fun hne he => hne (Option.some.inj he))
    · intro pre item post hseen hfirst
      rw [hp, hseen]
      exact List.mem_map_of_mem _ (keepFirstByLink_first pre post item hfirst)
  unfold scrape
  cases env.setupError with
  | some e =>
    exact ⟨Nat.zero_le _, fun phones h => Except.noConfusion h⟩
  | none =>
    simp only
    generalize scrollLoop (toPhone toLowerCase toUpperCase) env.scroll maxScrolls 0 0 []
      { iterations := 0, seen := [] } = out at hloop
    obtain ⟨res, tr⟩ := out
    have hit : tr.iterations ≤ 20 := by
      have := hloop.1
      simpa [maxScrolls] using this
    cases res with
    | error e => exact ⟨hit, fun phones h => Except.noConfusion h⟩
    | ok collected =>
      have hc := hloop.2 collected rfl
      cases env.closeError with
      | some e => exact ⟨hit, fun phones h => Except.noConfusion h⟩
      | none =>
        refine ⟨hit, fun phones h => ?_⟩
        have he : collected = phones := Except.ok.inj h
        rw [← he]
        exact hfinal collected tr.seen hc

/-- Witness for C24: the second scroll extracts the first listing again, under
another title, and a new listing twice. -/
theorem scrape_dedups_by_source_url_witness :
    (scrape asciiLowerCase asciiUpperCase twoScrolls).1
      = .ok [toPhone asciiLowerCase asciiUpperCase pixelItem,
             toPhone asciiLowerCase asciiUpperCase nokiaItem] ∧
    (scrape asciiLowerCase asciiUpperCase twoScrolls).2.seen
      = [pixelItem, pixelItemAgain, nokiaItem, nokiaItem] ∧
    ([toPhone asciiLowerCase asciiUpperCase pixelItem,
      toPhone asciiLowerCase asciiUpperCase nokiaItem].map (fun p => p.source_url)).Nodup :=
  ⟨rfl, by decide,
   ((scrape_dedups_by_source_url asciiLowerCase asciiUpperCase twoScrolls).2
      [toPhone asciiLowerCase asciiUpperCase pixelItem,
       toPhone asciiLowerCase asciiUpperCase nokiaItem] rfl).1⟩

/-- A feed that never stops growing is left after 20 scrolls. -/
theorem scrape_endless_feed :
    (scrape asciiLowerCase asciiUpperCase endlessFeed).2.iterations = 20 ∧
    (scrape asciiLowerCase asciiUpperCase endlessFeed).1
      = .ok [toPhone asciiLowerCase asciiUpperCase pixelItem] :=
  ⟨by decide, rfl⟩

end FacebookScraper

namespace AIService

/-! ### AI analysis with rule-based fallback -/

/-- After validation the category is a string of the valid list. -/
theorem validateCategory_category (analysis : AiAnalysis) :
    ∃ c ∈ validCategories, (validateCategory analysis).category = some (.string c) := by
  unfold validateCategory
  split
  · next c hc =>
    split
    · next hv =>
      exact ⟨c, by simpa using hv, hc⟩
    · exact ⟨"other", by decide, rfl⟩
  · exact ⟨"other", by decide, rfl⟩

/-- Validation touches the category only. -/
theorem validateCategory_rest (analysis : AiAnalysis) :
    validateCategory analysis
      = { analysis with category := (validateCategory analysis).category } := by
  unfold validateCategory
  split
  · split <;> rfl
  · rfl

/-- Counterexample to C21 as stated. The AI is reachable and answers with a JSON
object that has a category only: that object is returned, with `brand`,
`isValidPrice`, `priceReason`, `cleanedTitle` and `confidence` undefined. And for a
record with neither model nor title the rule-based result has no `cleanedTitle`. -/
theorem analyzeWithFallback_unpopulated :
    analyzeWithFallback BaseScraper.asciiLowerCase BaseScraper.asciiUpperCase terseAi
        phoneProduct
      = .ai { category := some (.string "tablet"), brand := none, isValidPrice := none,
              priceReason := none, cleanedTitle := none, confidence := none } ∧
    (analyzeWithFallback BaseScraper.asciiLowerCase BaseScraper.asciiUpperCase terseAi
        phoneProduct).populated = false ∧
    (analyzeWithFallback BaseScraper.asciiLowerCase BaseScraper.asciiUpperCase unreachableAi
        untitledProduct).populated = false := by
  decide

/-- Validation spelled out: a category that is a string of the valid list is kept,
anything else becomes `other`; the other five fields are not touched. -/
theorem validateCategory_spec (analysis : AiAnalysis) :
    ∃ c ∈ validCategories,
      validateCategory analysis = { analysis with category := some (.string c) } ∧
      (analysis.category = some (.string c) ∨
        (c = "other" ∧ ∀ c' ∈ validCategories, analysis.category ≠ some (.string c'))) := by
  unfold validateCategory
  split
  · next c hc =>
    split
    · next hv =>
      have hmem : c ∈ validCategories := by simpa using hv
      refine ⟨c, hmem, ?_, Or.inl hc⟩
      cases analysis
      simp only at hc
      simp only [hc]
    · next hv =>
      refine ⟨"other", by decide, rfl, Or.inr ⟨rfl, fun c' hc' h => ?_⟩⟩
      rw [hc] at h
      have hcc : c = c' := JsonValue.string.inj (Option.some.inj h)
      rw [hcc] at hv
      exact hv (by simpa using hc')
  · next hne =>
    exact ⟨"other", by decide, rfl, Or.inr ⟨rfl, fun c' _ h => hne c' h⟩⟩

/-- When the AI is available and its reply parses, the validated object is returned. -/
theorem analyzeWithFallback_of_parsed (toLowerCase toUpperCase : String → String)
    (env : AiEnv) (product : Product) (aiResponse : String) (jsonMatch : List Char)
    (parsed : AiAnalysis) (htags : env.tags = .ok 200)
    (hgen : env.generate product = .ok (some aiResponse))
    (hspan : jsonSpan aiResponse.toList = some jsonMatch)
    (hparse : env.jsonParse (String.mk jsonMatch) = .ok parsed) :
    analyzeWithFallback toLowerCase toUpperCase env product
      = .ai (validateCategory parsed) := by
  have hav : checkOllamaAvailability env = true := by
    unfold checkOllamaAvailability
    rw [htags]
    rfl
  have hai : analyzeProduct env product = some (validateCategory parsed) := by
    unfold analyzeProduct
    rw [hgen]
    simp only [hspan, hparse]
  unfold analyzeWithFallback
  rw [hav, hai]
  rfl

/-- Instance of `analyzeWithFallback_of_parsed`: the one-field answer. -/
theorem analyzeWithFallback_of_parsed_example :
    analyzeWithFallback BaseScraper.asciiLowerCase BaseScraper.asciiUpperCase terseAi
        phoneProduct
      = .ai (validateCategory
          { category := some (.string "tablet"), brand := none, isValidPrice := none,
            priceReason := none, cleanedTitle := none, confidence := none }) :=
  analyzeWithFallback_of_parsed BaseScraper.asciiLowerCase BaseScraper.asciiUpperCase
    terseAi phoneProduct "Here you are: \x7b\"category\": \"tablet\"\x7d."
    "\x7b\"category\": \"tablet\"\x7d".toList _ rfl rfl (by decide) rfl

/-- C21 as amended. `analyzeWithFallback` returns for every record and every
behaviour of the AI. When the AI is available (status 200), the generation request
gives a text, the text holds a brace-delimited span and `JSON.parse` accepts the
span, the result is the parsed object with `category` kept when it is a string of
the valid list and set to `other` otherwise, and every other field as the AI gave
it: that result has all six fields defined exactly when the AI's object carries
`brand`, `isValidPrice`, `priceReason`, `cleanedTitle` and `confidence`. In every
other case (the availability request rejects or its status is not 200, the
generation request rejects, its reply is not a text, the text holds no span, or
`JSON.parse` throws) the result is `fallbackCategorization(record)`: its
`category`, `brand`, `isValidPrice`, `priceReason` and `confidence` are defined,
and `cleanedTitle` is `record.model || record.title`, defined when the record has a
non-empty model or a title. An AI object is returned in no other way. -/
theorem analyzeWithFallback_result (toLowerCase toUpperCase : String → String)
    (env : AiEnv) (product : Product) :
    (∀ aiResponse jsonMatch parsed, env.tags = .ok 200 →
      env.generate product = .ok (some aiResponse) →
      jsonSpan aiResponse.toList = some jsonMatch →
      env.jsonParse (String.mk jsonMatch) = .ok parsed →
      ∃ c ∈ validCategories,
        analyzeWithFallback toLowerCase toUpperCase env product
          = .ai { parsed with category := some (.string c) } ∧
        (parsed.category = some (.string c) ∨
          (c = "other" ∧ ∀ c' ∈ validCategories, parsed.category ≠ some (.string c'))) ∧
        ((analyzeWithFallback toLowerCase toUpperCase env product).populated = true ↔
          parsed.brand.isSome = true ∧ parsed.isValidPrice.isSome = true ∧
          parsed.priceReason.isSome = true ∧ parsed.cleanedTitle.isSome = true ∧
          parsed.confidence.isSome = true)) ∧
    ((checkOllamaAvailability env = false ∨ analyzeProduct env product = none) →
      analyzeWithFallback toLowerCase toUpperCase env product
        = .rules (fallbackCategorization toLowerCase toUpperCase product)) ∧
    (∀ r, analyzeWithFallback toLowerCase toUpperCase env product = .rules r →
      r.cleanedTitle = orElseTruthy product.model product.title ∧
      ((∃ m, product.model = some m ∧ m ≠ "") ∨ product.title ≠ none →
        (AnalysisResult.rules r).populated = true)) ∧
    (∀ a, analyzeWithFallback toLowerCase toUpperCase env product = .ai a →
      env.tags = .ok 200 ∧
      (∃ c ∈ validCategories, a.category = some (.string c)) ∧
      ∃ aiResponse jsonMatch parsed,
        env.generate product = .ok (some aiResponse) ∧
        jsonSpan aiResponse.toList = some jsonMatch ∧
        env.jsonParse (String.mk jsonMatch) = .ok parsed ∧
        a = { parsed with category := a.category }) ∧
    ((∃ e, env.tags = .error e) ∨ (∃ status, env.tags = .ok status ∧ status ≠ 200) ∨
      (∃ e, env.generate product = .error e) ∨ env.generate product = .ok none ∨
      (∃ aiResponse, env.generate product = .ok (some aiResponse) ∧
        (jsonSpan aiResponse.toList = none ∨
          ∃ jsonMatch e, jsonSpan aiResponse.toList = some jsonMatch ∧
            env.jsonParse (String.mk jsonMatch) = .error e)) →
      analyzeWithFallback toLowerCase toUpperCase env product
        = .rules (fallbackCategorization toLowerCase toUpperCase product)) := by
  have hfall : (checkOllamaAvailability env = false ∨ analyzeProduct env product = none) →
      analyzeWithFallback toLowerCase toUpperCase env product
        = .rules (fallbackCategorization toLowerCase toUpperCase product) := by
    intro h
    unfold analyzeWithFallback
    rcases h with h | h
    · rw [h]
      rfl
    · rw [h]
      split <;> rfl
  refine ⟨?_, hfall, ?_, ?_, ?_⟩
  · intro aiResponse jsonMatch parsed htags hgen hspan hparse
    have hres := analyzeWithFallback_of_parsed toLowerCase toUpperCase env product aiResponse
      jsonMatch parsed htags hgen hspan hparse
    obtain ⟨c, hc, hval, hcat⟩ := validateCategory_spec parsed
    refine ⟨c, hc, by rw [hres, hval], hcat, ?_⟩
    rw [hres, hval]
    simp only [AnalysisResult.populated, Option.isSome_some, Bool.true_and, Bool.and_eq_true,
      and_assoc]
  · intro r hr
    have hr' : r = fallbackCategorization toLowerCase toUpperCase product := by
      unfold analyzeWithFallback at hr
      split at hr
      · split at hr
        · exact AnalysisResult.noConfusion hr
        · exact (AnalysisResult.rules.inj hr).symm
      · exact (AnalysisResult.rules.inj hr).symm
    subst hr'
    refine ⟨rfl, fun h => ?_⟩
    show (orElseTruthy product.model product.title).isSome = true
    rcases h with ⟨m, hm, hne⟩ | h
    · simp [orElseTruthy, hm, hne]
    · unfold orElseTruthy
      cases hmod : product.model with
      | none =>
        exact Option.isSome_iff_ne_none.mpr h
      | some s =>
        simp only
        split
        · exact Option.isSome_iff_ne_none.mpr h
        · rfl
  · intro a ha
    unfold analyzeWithFallback at ha
    split at ha
    · next hav =>
      have htags : env.tags = .ok 200 := by
        unfold checkOllamaAvailability at hav
        split at hav
        · next status hs =>
          rw [hs, beq_iff_eq.mp hav]
        · exact Bool.noConfusion hav
      split at ha
      · next aiAnalysis hai =>
        have haa : aiAnalysis = a := AnalysisResult.ai.inj ha
        subst haa
        unfold analyzeProduct at hai
        split at hai
        · exact Option.noConfusion hai
        · exact Option.noConfusion hai
        · next aiResponse hgen =>
          split at hai
          · exact Option.noConfusion hai
          · next jsonMatch hspan =>
            split at hai
            · exact Option.noConfusion hai
            · next parsed hparse =>
              have hv : validateCategory parsed = aiAnalysis := Option.some.inj hai
              subst hv
              exact ⟨htags, validateCategory_category parsed, aiResponse, jsonMatch, parsed,
                hgen, hspan, hparse, validateCategory_rest parsed⟩
      · exact AnalysisResult.noConfusion ha
    · exact AnalysisResult.noConfusion ha
  · intro h
    apply hfall
    rcases h with ⟨e, h⟩ | ⟨status, h, hne⟩ | ⟨e, h⟩ | h | ⟨aiResponse, hgen, h⟩
    · left
      unfold checkOllamaAvailability
      rw [h]
    · left
      unfold checkOllamaAvailability
      rw [h]
      exact beq_eq_false_iff_ne.mpr hne
    · right
      unfold analyzeProduct
      rw [h]
    · right
      unfold analyzeProduct
      rw [h]
    · right
      unfold analyzeProduct
      rw [hgen]
      rcases h with h | ⟨jsonMatch, e, hspan, hparse⟩
      · simp only [h]
      · simp only [hspan, hparse]

/-- Witness for C21 as amended: an AI that answers with a one-field object, whose
object is returned; an unreachable AI and an AI that answers with prose, for which
the rule-based result is returned. -/
theorem analyzeWithFallback_result_witness :
    (∃ c ∈ validCategories,
      analyzeWithFallback BaseScraper.asciiLowerCase BaseScraper.asciiUpperCase terseAi
          phoneProduct
        = .ai { category := some (.string c), brand := none, isValidPrice := none,
                priceReason := none, cleanedTitle := none, confidence := none } ∧
      ((some (JsonValue.string "tablet") = some (.string c)) ∨
        (c = "other" ∧
          ∀ c' ∈ validCategories, some (JsonValue.string "tablet") ≠ some (.string c')))) ∧
    analyzeWithFallback BaseScraper.asciiLowerCase BaseScraper.asciiUpperCase unreachableAi
        phoneProduct
      = .rules (fallbackCategorization BaseScraper.asciiLowerCase BaseScraper.asciiUpperCase
          phoneProduct) ∧
    analyzeWithFallback BaseScraper.asciiLowerCase BaseScraper.asciiUpperCase chattyAi
        phoneProduct
      = .rules (fallbackCategorization BaseScraper.asciiLowerCase BaseScraper.asciiUpperCase
          phoneProduct) :=
  have h := (analyzeWithFallback_result BaseScraper.asciiLowerCase BaseScraper.asciiUpperCase
    terseAi phoneProduct).1 "Here you are: \x7b\"category\": \"tablet\"\x7d."
    "\x7b\"category\": \"tablet\"\x7d".toList
    { category := some (.string "tablet"), brand := none, isValidPrice := none,
      priceReason := none, cleanedTitle := none, confidence := none }
    rfl rfl (by decide) rfl
  ⟨(let ⟨c, hc, hres, hcat, _⟩ := h; ⟨c, hc, hres, hcat⟩),
   (analyzeWithFallback_result BaseScraper.asciiLowerCase BaseScraper.asciiUpperCase
      unreachableAi phoneProduct).2.2.2.2 (Or.inl ⟨⟨"ECONNREFUSED"⟩, rfl⟩),
   (analyzeWithFallback_result BaseScraper.asciiLowerCase BaseScraper.asciiUpperCase
      chattyAi phoneProduct).2.2.2.2
        (Or.inr (Or.inr (Or.inr (Or.inr ⟨"I cannot tell.", rfl, Or.inl (by decide)⟩))))⟩

/-- The span `analyzeProduct` hands to `JSON.parse`. -/
theorem jsonSpan_examples :
    jsonSpan "Here you are: \x7b\"category\": \"tablet\"\x7d.".toList
      = some "\x7b\"category\": \"tablet\"\x7d".toList ∧
    jsonSpan "I cannot tell.".toList = none ∧
    jsonSpan "\x7d \x7b".toList = none ∧
    jsonSpan "\x7ba\x7d \x7bb\x7d".toList = some "\x7ba\x7d \x7bb\x7d".toList := by
  decide

end AIService

namespace BaseScraper

/-! ### Which characters of the title survive -/

theorem removeMatchesOn_map {α : Type} (key : α → Char) (word : List Char) (skip : Nat)
    (l : List α) :
    (removeMatchesOn key word skip l).map key = removeMatches word skip (l.map key) := by
  induction l generalizing skip with
  | nil => cases skip <;> rfl
  | cons c cs ih =>
    cases skip with
    | succ n => exact ih n
    | zero =>
      rw [List.map_cons]
      unfold removeMatchesOn removeMatches
      rw [List.map_cons]
      split
      · exact ih _
      · rw [List.map_cons, ih 0]

theorem removeMatchesOn_sublist {α : Type} (key : α → Char) (word : List Char) (skip : Nat)
    (l : List α) : (removeMatchesOn key word skip l).Sublist l := by
  induction l generalizing skip with
  | nil => cases skip <;> exact List.Sublist.refl _
  | cons c cs ih =>
    cases skip with
    | succ n => exact (ih n).cons c
    | zero =>
      unfold removeMatchesOn
      split
      · exact (ih _).cons c
      · exact (ih 0).cons₂ c

/-- Characters still to be skipped are dropped before the scan resumes. -/
theorem removeMatchesOn_skip {α : Type} (key : α → Char) (word : List Char) (skip : Nat)
    (l : List α) :
    removeMatchesOn key word skip l = removeMatchesOn key word 0 (l.drop skip) := by
  induction l generalizing skip with
  | nil => cases skip <;> rfl
  | cons c cs ih =>
    cases skip with
    | zero => rfl
    | succ n => exact ih n

theorem removeMatchesOn_cons_match {α : Type} (key : α → Char) (word : List Char) (c : α)
    (cs : List α) (h : matchesIgnoreCase ((c :: cs).map key) word = true) :
    removeMatchesOn key word 0 (c :: cs)
      = removeMatchesOn key word 0 (cs.drop (word.length - 1)) := by
  rw [← removeMatchesOn_skip]
  show (if matchesIgnoreCase ((c :: cs).map key) word then
      removeMatchesOn key word (word.length - 1) cs
    else c :: removeMatchesOn key word 0 cs) = _
  rw [if_pos h]

theorem removeMatchesOn_cons_no_match {α : Type} (key : α → Char) (word : List Char) (c : α)
    (cs : List α) (h : matchesIgnoreCase ((c :: cs).map key) word = false) :
    removeMatchesOn key word 0 (c :: cs) = c :: removeMatchesOn key word 0 cs := by
  show (if matchesIgnoreCase ((c :: cs).map key) word then
      removeMatchesOn key word (word.length - 1) cs
    else c :: removeMatchesOn key word 0 cs) = _
  rw [h]
  rfl

/-- A text that starts with an occurrence of the word is matched at its head. -/
theorem matchesIgnoreCase_of_prefix (occ rest word : List Char)
    (h : occ.map Char.toLower = word.map Char.toLower) :
    matchesIgnoreCase (occ ++ rest) word = true := by
  rw [matchesIgnoreCase_eq, startsWithChars_iff]
  exact ⟨rest.map Char.toLower, by rw [List.map_append, h]⟩

/-- A pass hits every occurrence it meets: of a stretch of the text that spells the
word, at least one entry is deleted. -/
theorem removeMatchesOn_hits {α : Type} (key : α → Char) (word : List Char)
    (hw : word ≠ []) (n : Nat) :
    ∀ (l A S B : List α), l.length ≤ n → l.Nodup → l = A ++ S ++ B →
      (S.map key).map Char.toLower = word.map Char.toLower →
      ∃ x ∈ S, x ∉ removeMatchesOn key word 0 l := by
  induction n with
  | zero =>
    intro l A S B hlen _ hl hS
    have hnil : l = [] := List.length_eq_zero.mp (Nat.le_zero.mp hlen)
    rw [hnil] at hl
    have hSnil : S = [] := by
      have := List.append_eq_nil.mp hl.symm
      exact (List.append_eq_nil.mp this.1).2
    rw [hSnil] at hS
    exact absurd (List.map_eq_nil_iff.mp hS.symm) hw
  | succ n ih =>
    intro l A S B hlen hnd hl hS
    have hSne : S ≠ [] := by
      intro hSnil
      rw [hSnil] at hS
      exact absurd (List.map_eq_nil_iff.mp hS.symm) hw
    cases l with
    | nil =>
      have := List.append_eq_nil.mp hl.symm
      exact absurd (List.append_eq_nil.mp this.1).2 hSne
    | cons c cs =>
      have hcs : c ∉ cs := (List.nodup_cons.mp hnd).1
      have hndcs : cs.Nodup := (List.nodup_cons.mp hnd).2
      cases hm : matchesIgnoreCase ((c :: cs).map key) word with
      | true =>
        rw [removeMatchesOn_cons_match key word c cs hm]
        have hout : ∀ x, x ∈ removeMatchesOn key word 0 (cs.drop (word.length - 1)) →
            x ∈ cs.drop (word.length - 1) :=
          fun x hx => (removeMatchesOn_sublist key word 0 _).subset hx
        cases A with
        | nil =>
          cases S with
          | nil => exact absurd rfl hSne
          | cons s S1 =>
            have hsc : c = s := by
              simp only [List.nil_append, List.cons_append] at hl
              exact (List.cons.inj hl).1
            refine ⟨s, List.mem_cons_self _ _, fun hx => ?_⟩
            rw [← hsc] at hx
            exact hcs ((List.drop_sublist _ _).subset (hout c hx))
        | cons a A1 =>
          have hcs' : cs = A1 ++ S ++ B := by
            simp only [List.cons_append] at hl
            exact (List.cons.inj hl).2
          by_cases hA : word.length - 1 ≤ A1.length
          · have hdrop : cs.drop (word.length - 1)
                = A1.drop (word.length - 1) ++ S ++ B := by
              rw [hcs', List.append_assoc, List.drop_append_of_le_length hA,
                List.append_assoc]
            exact ih (cs.drop (word.length - 1)) (A1.drop (word.length - 1)) S B
              (by
                have := (List.drop_sublist (word.length - 1) cs).length_le
                simp only [List.length_cons] at hlen
                omega)
              (hndcs.sublist (List.drop_sublist _ _)) hdrop hS
          · cases S with
            | nil => exact absurd rfl hSne
            | cons s S1 =>
              refine ⟨s, List.mem_cons_self _ _, fun hx => ?_⟩
              have hin : s ∈ cs.take (word.length - 1) := by
                rw [hcs', List.append_assoc, List.take_append_eq_append_take]
                apply List.mem_append_right
                have hpos : 0 < word.length - 1 - A1.length := by omega
                obtain ⟨m, hm'⟩ := Nat.exists_eq_succ_of_ne_zero (Nat.pos_iff_ne_zero.mp hpos)
                rw [hm', List.cons_append, List.take_succ_cons]
                exact List.mem_cons_self _ _
              have hsplit : (cs.take (word.length - 1) ++ cs.drop (word.length - 1)).Nodup := by
                rw [List.take_append_drop]
                exact hndcs
              exact (List.nodup_append.mp hsplit).2.2 hin (hout s hx)
      | false =>
        rw [removeMatchesOn_cons_no_match key word c cs hm]
        cases A with
        | nil =>
          have hl' : (c :: cs).map key = S.map key ++ B.map key := by
            rw [hl, List.nil_append, List.map_append]
          rw [hl', matchesIgnoreCase_of_prefix _ _ _ hS] at hm
          exact Bool.noConfusion hm
        | cons a A1 =>
          have hac : c = a := by
            simp only [List.cons_append] at hl
            exact (List.cons.inj hl).1
          have hcs' : cs = A1 ++ S ++ B := by
            simp only [List.cons_append] at hl
            exact (List.cons.inj hl).2
          obtain ⟨x, hxS, hxout⟩ := ih cs A1 S B
            (by simp only [List.length_cons] at hlen; omega) hndcs hcs' hS
          refine ⟨x, hxS, fun hx => ?_⟩
          rcases List.mem_cons.mp hx with hxc | hx'
          · apply hcs
            rw [← hxc, hcs']
            exact List.mem_append_left _ (List.mem_append_right _ hxS)
          · exact hxout hx'

/-- A stretch of a duplicate-free text whose entries all survive in a sublist is a
stretch of the sublist. -/
theorem contiguous_of_sublist {α : Type} (X A S B : List α) (hnd : (A ++ S ++ B).Nodup)
    (hX : X.Sublist (A ++ S ++ B)) (hS : ∀ x ∈ S, x ∈ X) :
    ∃ A' B', X = A' ++ S ++ B' := by
  obtain ⟨X12, X3, hX', h12, h3⟩ := List.sublist_append_iff.mp hX
  obtain ⟨X1, X2, hX12, h1, h2⟩ := List.sublist_append_iff.mp h12
  have hndAS := (List.nodup_append.mp hnd).1
  have hdisj3 := (List.nodup_append.mp hnd).2.2
  have hdisj1 := (List.nodup_append.mp hndAS).2.2
  have hSnd : S.Nodup := (List.nodup_append.mp hndAS).2.1
  have hsub : S ⊆ X2 := by
    intro x hx
    have hxX := hS x hx
    rw [hX', hX12] at hxX
    rcases List.mem_append.mp hxX with h | h
    · rcases List.mem_append.mp h with h | h
      · exact absurd hx (fun hxS => hdisj1 (h1.subset h) hxS)
      · exact h
    · exact absurd (h3.subset h) (fun hxB => hdisj3 (List.mem_append_right _ hx) hxB)
  have hlen : S.length ≤ X2.length := (List.subperm_of_subset hSnd hsub).length_le
  have hX2 : X2 = S := h2.eq_of_length_le hlen
  exact ⟨X1, X3, by rw [hX', hX12, hX2]⟩

theorem foldl_removeMatchesOn_sublist {α : Type} (key : α → Char) (words : List String)
    (l : List α) :
    (words.foldl (fun cleaned word => removeMatchesOn key word.toList 0 cleaned) l).Sublist
      l := by
  induction words generalizing l with
  | nil => exact List.Sublist.refl _
  | cons w ws ih =>
    rw [List.foldl_cons]
    exact (ih _).trans (removeMatchesOn_sublist _ _ _ _)

/-- The passes hit every occurrence of every word of the list in the tagged text: of
a stretch that spells a word at least one entry is gone after the passes. -/
theorem foldl_removeMatchesOn_hits {α : Type} (key : α → Char) (words : List String)
    (hne : ∀ w ∈ words, w.toList ≠ []) (E A S B : List α) (hnd : E.Nodup)
    (hE : E = A ++ S ++ B) (w : String) (hw : w ∈ words)
    (hS : (S.map key).map Char.toLower = w.toList.map Char.toLower) (l : List α)
    (hl : l.Sublist E) :
    ∃ x ∈ S, x ∉ words.foldl
      (fun cleaned word => removeMatchesOn key word.toList 0 cleaned) l := by
  induction words generalizing l with
  | nil => exact absurd hw (List.not_mem_nil _)
  | cons v rest ih =>
    rw [List.foldl_cons]
    have hl1 : (removeMatchesOn key v.toList 0 l).Sublist E :=
      (removeMatchesOn_sublist _ _ _ _).trans hl
    by_cases hwv : w = v
    · by_cases hall : ∀ x ∈ S, x ∈ l
      · rw [hE] at hnd hl
        obtain ⟨A', B', hl'⟩ := contiguous_of_sublist l A S B hnd hl hall
        rw [hwv] at hS
        obtain ⟨x, hxS, hx⟩ := removeMatchesOn_hits key v.toList
          (hne v (List.mem_cons_self _ _)) l.length l A' S B' (le_refl _)
          (hnd.sublist hl) hl' hS
        exact ⟨x, hxS, fun h => hx ((foldl_removeMatchesOn_sublist key rest _).subset h)⟩
      · push_neg at hall
        obtain ⟨x, hxS, hx⟩ := hall
        refine ⟨x, hxS, fun h => hx ?_⟩
        exact (removeMatchesOn_sublist _ _ _ _).subset
          ((foldl_removeMatchesOn_sublist key rest _).subset h)
    · have hw' : w ∈ rest := by
        rcases List.mem_cons.mp hw with h | h
        · exact absurd h hwv
        · exact h
      exact ih (fun w' hw'' => hne w' (List.mem_cons_of_mem _ hw'')) hw' _ hl1

theorem foldl_removeMatchesOn_map {α : Type} (key : α → Char) (words : List String)
    (l : List α) :
    (words.foldl (fun cleaned word => removeMatchesOn key word.toList 0 cleaned) l).map key
      = removeAllWords words (l.map key) := by
  unfold removeAllWords
  induction words generalizing l with
  | nil => rfl
  | cons w ws ih =>
    rw [List.foldl_cons, List.foldl_cons, ih, removeMatchesOn_map]

theorem rdropWhile_map {α β : Type} (f : α → β) (p : β → Bool) (l : List α) :
    (l.map f).rdropWhile p = (l.rdropWhile (p ∘ f)).map f := by
  unfold List.rdropWhile
  rw [← List.map_reverse, List.dropWhile_map, List.map_reverse]

/-- The tagged run spells the returned model name. -/
theorem cleanTrace_map (title : String) :
    (cleanTrace title).map Prod.snd = (cleanModelName title).toList := by
  unfold cleanTrace cleanModelName trim
  have h1 := rdropWhile_map (Prod.snd : Nat × Char → Char) jsWhiteSpace
  have h2 := List.dropWhile_map (Prod.snd : Nat × Char → Char) jsWhiteSpace
  show List.map Prod.snd (List.rdropWhile (jsWhiteSpace ∘ Prod.snd)
      (List.dropWhile (jsWhiteSpace ∘ Prod.snd) _)) = _
  rw [← h1, ← h2, foldl_removeMatchesOn_map, List.enum_map_snd]
  rfl

theorem cleanTrace_sublist (title : String) :
    (cleanTrace title).Sublist title.toList.enum := by
  unfold cleanTrace
  exact ((List.rdropWhile_prefix _ _).sublist.trans (List.dropWhile_suffix _).sublist).trans
    (foldl_removeMatchesOn_sublist _ _ _)

theorem nodup_enum {α : Type} (l : List α) : l.enum.Nodup := by
  apply List.Nodup.of_map Prod.fst
  rw [List.enum_map_fst]
  exact List.nodup_range _

/-- No occurrence of a listed word in the title survives intact. -/
theorem cleanTrace_hits (title : String) (w : String) (hw : w ∈ removeWords)
    (A S B : List (Nat × Char)) (hE : title.toList.enum = A ++ S ++ B)
    (hS : (S.map Prod.snd).map Char.toLower = w.toList) :
    ∃ x ∈ S, x ∉ cleanTrace title := by
  have hne : ∀ v ∈ removeWords, v.toList ≠ [] := by decide
  have hlow : ∀ v ∈ removeWords, v.toList.map Char.toLower = v.toList := by decide
  obtain ⟨x, hxS, hx⟩ := foldl_removeMatchesOn_hits Prod.snd removeWords hne
    title.toList.enum A S B (nodup_enum _) hE w hw (by rw [hS, hlow w hw])
    title.toList.enum (List.Sublist.refl _)
  refine ⟨x, hxS, fun h => hx ?_⟩
  unfold cleanTrace at h
  exact (List.dropWhile_suffix _).sublist.subset
    ((List.rdropWhile_prefix _ _).sublist.subset h)

end BaseScraper

namespace BaseScraper

/-! ### What the passes guarantee -/

/-- A pass over a text in which the word occurs makes the text shorter. -/
theorem removeMatches_length_lt (word text : List Char) (hw : word ≠ [])
    (h : includesChars (text.map Char.toLower) (word.map Char.toLower) = true) :
    (removeMatches word 0 text).length < text.length := by
  induction text with
  | nil =>
    rw [List.map_nil, includesChars, List.isEmpty_iff] at h
    exact absurd (List.map_eq_nil_iff.mp h) hw
  | cons c cs ih =>
    unfold removeMatches
    cases hm : matchesIgnoreCase (c :: cs) word with
    | true =>
      rw [if_pos rfl]
      have := (removeMatches_sublist word (word.length - 1) cs).length_le
      rw [List.length_cons]
      omega
    | false =>
      rw [if_neg Bool.false_ne_true, List.length_cons, List.length_cons]
      rw [List.map_cons, includesChars, Bool.or_eq_true] at h
      rcases h with h | h
      · rw [← List.map_cons, ← matchesIgnoreCase_eq, hm] at h
        exact Bool.noConfusion h
      · have := ih h
        omega

/-- The passes leave a text as it is exactly when none of the words occurs in it. -/
theorem removeAllWords_eq_self_iff (words : List String) (hne : ∀ w ∈ words, w.toList ≠ [])
    (text : List Char) :
    removeAllWords words text = text ↔
      ∀ w ∈ words,
        includesChars (text.map Char.toLower) (w.toList.map Char.toLower) = false := by
  constructor
  · intro h
    induction words generalizing text with
    | nil => exact fun w hw => absurd hw (List.not_mem_nil _)
    | cons v rest ih =>
      have hfold : removeAllWords (v :: rest) text
          = removeAllWords rest (removeMatches v.toList 0 text) := rfl
      rw [hfold] at h
      have h1 := removeMatches_sublist v.toList 0 text
      have h2 := removeAllWords_sublist rest (removeMatches v.toList 0 text)
      have hlen : text.length ≤ (removeMatches v.toList 0 text).length := by
        have := h2.length_le
        rw [h] at this
        exact this
      have hpass : removeMatches v.toList 0 text = text := h1.eq_of_length_le hlen
      rw [hpass] at h
      intro w hw
      rcases List.mem_cons.mp hw with hwv | hw'
      · rw [hwv]
        cases hinc : includesChars (text.map Char.toLower) (v.toList.map Char.toLower) with
        | false => rfl
        | true =>
          have := removeMatches_length_lt v.toList text
            (hne v (List.mem_cons_self _ _)) hinc
          rw [hpass] at this
          exact absurd this (lt_irrefl _)
      · exact ih (fun w' hw'' => hne w' (List.mem_cons_of_mem _ hw'')) text h w hw'
  · exact removeAllWords_of_not_includes words text

/-- A text that neither starts nor ends with white space is left as it is by `trim`. -/
theorem trim_eq_self (s : List Char) (hhead : ∀ c, s.head? = some c → jsWhiteSpace c = false)
    (hlast : ∀ c, s.getLast? = some c → jsWhiteSpace c = false) : trim s = s := by
  unfold trim
  have hdrop : s.dropWhile jsWhiteSpace = s := by
    cases s with
    | nil => rfl
    | cons c cs =>
      rw [List.dropWhile_cons, hhead c rfl]
      rfl
  rw [hdrop, List.rdropWhile_eq_self_iff]
  intro hne
  rw [hlast _ (List.getLast?_eq_getLast _ hne)]
  exact Bool.false_ne_true

theorem trim_trim (s : List Char) : trim (trim s) = trim s :=
  trim_eq_self _ (trim_head s) (trim_getLast s)

/-- The strings `cleanModelName` returns unchanged: the trimmed strings in which
none of the words occurs. -/
theorem cleanModelName_eq_self_iff (s : String) :
    cleanModelName s = s ↔
      trim s.toList = s.toList ∧
        ∀ w ∈ removeWords, includes (asciiLowerCase s) w = false := by
  have hne : ∀ v ∈ removeWords, v.toList ≠ [] := by decide
  have hlow : ∀ v ∈ removeWords, v.toList.map Char.toLower = v.toList := by decide
  have hfree : (∀ w ∈ removeWords, includes (asciiLowerCase s) w = false) ↔
      removeAllWords removeWords s.toList = s.toList := by
    rw [removeAllWords_eq_self_iff removeWords hne]
    constructor
    · intro h w hw
      rw [hlow w hw]
      exact h w hw
    · intro h w hw
      have := h w hw
      rw [hlow w hw] at this
      exact this
  constructor
  · intro h
    have hl : trim (removeAllWords removeWords s.toList) = s.toList := by
      have := congrArg String.toList h
      exact this
    have h1 := removeAllWords_sublist removeWords s.toList
    have h2 := trim_sublist (removeAllWords removeWords s.toList)
    have hlen : s.toList.length ≤ (removeAllWords removeWords s.toList).length := by
      have := h2.length_le
      rw [hl] at this
      exact this
    have hX : removeAllWords removeWords s.toList = s.toList := h1.eq_of_length_le hlen
    rw [hX] at hl
    exact ⟨hl, hfree.mpr hX⟩
  · rintro ⟨htrim, hw⟩
    unfold cleanModelName
    rw [hfree.mp hw, htrim]
    rfl

end BaseScraper

namespace BaseScraper

/-- C29 as amended. `cleanModelName` returns the title with characters deleted and no
leading or trailing white space. No occurrence of a listed word in the title
survives intact: of every stretch of the title that spells one of the words, letter
case ignored, at least one character is not among the characters the returned string
is made of, so a word can stand in the returned string only where a deletion has
joined characters that were apart in the title. The returned string is free of the
words exactly when cleaning it again changes nothing; a title in which a word occurs
comes back strictly shorter, and a title in which none occurs comes back trimmed and
otherwise unchanged. -/
theorem cleanModelName_hits_every_occurrence (title : String) :
    ((cleanTrace title).map Prod.snd = (cleanModelName title).toList ∧
      (cleanTrace title).Sublist title.toList.enum ∧
      (cleanModelName title).toList.Sublist title.toList) ∧
    (∀ w ∈ removeWords, ∀ A S B, title.toList.enum = A ++ S ++ B →
      (S.map Prod.snd).map Char.toLower = w.toList → ∃ x ∈ S, x ∉ cleanTrace title) ∧
    ((∀ c, (cleanModelName title).toList.head? = some c → jsWhiteSpace c = false) ∧
      (∀ c, (cleanModelName title).toList.getLast? = some c → jsWhiteSpace c = false)) ∧
    ((∀ w ∈ removeWords, includes (asciiLowerCase (cleanModelName title)) w = false) ↔
      cleanModelName (cleanModelName title) = cleanModelName title) ∧
    ((∃ w ∈ removeWords, includes (asciiLowerCase title) w = true) →
      (cleanModelName title).length < title.length) ∧
    ((∀ w ∈ removeWords, includes (asciiLowerCase title) w = false) →
      cleanModelName title = String.mk (trim title.toList)) := by
  have hlow : ∀ w ∈ removeWords, w.toList.map Char.toLower = w.toList := by decide
  have hne : ∀ v ∈ removeWords, v.toList ≠ [] := by decide
  have hsub : (cleanModelName title).toList.Sublist title.toList :=
    (trim_sublist _).trans (removeAllWords_sublist _ _)
  refine ⟨⟨cleanTrace_map title, cleanTrace_sublist title, hsub⟩,
    fun w hw A S B hE hS => cleanTrace_hits title w hw A S B hE hS,
    ⟨fun c h => trim_head _ c h, fun c h => trim_getLast _ c h⟩, ?_, ?_, ?_⟩
  · rw [cleanModelName_eq_self_iff]
    constructor
    · intro h
      exact ⟨trim_trim _, h⟩
    · intro h
      exact h.2
  · rintro ⟨w, hw, hinc⟩
    by_contra hlen
    have hle : title.toList.length ≤ (cleanModelName title).toList.length :=
      Nat.le_of_not_lt hlen
    have h1 := removeAllWords_sublist removeWords title.toList
    have h2 := trim_sublist (removeAllWords removeWords title.toList)
    have hX : removeAllWords removeWords title.toList = title.toList :=
      h1.eq_of_length_le (le_trans hle h2.length_le)
    have hfree := (removeAllWords_eq_self_iff removeWords hne title.toList).mp hX w hw
    rw [hlow w hw] at hfree
    have hinc' : includesChars (title.toList.map Char.toLower) w.toList = true := hinc
    rw [hfree] at hinc'
    exact Bool.noConfusion hinc'
  · intro h
    unfold cleanModelName
    rw [removeAllWords_of_not_includes]
    intro w hw
    have hw' := h w hw
    unfold includes asciiLowerCase at hw'
    rw [hlow w hw]
    exact hw'

/-- Witness for C29 as amended: a title that ends with `NEUF`. One of the four
letters (here all four) is gone from the characters kept, the name comes back
shorter, and cleaning it again changes nothing. -/
theorem cleanModelName_hits_every_occurrence_witness :
    (∃ x ∈ [(14, 'N'), (15, 'E'), (16, 'U'), (17, 'F')],
      x ∉ cleanTrace "iPhone 12 Pro NEUF") ∧
    (cleanModelName "iPhone 12 Pro NEUF").length < "iPhone 12 Pro NEUF".length ∧
    (∀ w ∈ removeWords,
      includes (asciiLowerCase (cleanModelName "iPhone 12 Pro NEUF")) w = false) :=
  have h := cleanModelName_hits_every_occurrence "iPhone 12 Pro NEUF"
  ⟨h.2.1 "neuf" (by decide) "iPhone 12 Pro ".toList.enum
      [(14, 'N'), (15, 'E'), (16, 'U'), (17, 'F')] [] (by decide) (by decide),
   h.2.2.2.2.1 ⟨"neuf", by decide, by decide⟩,
   h.2.2.2.1.mpr (by decide)⟩

/-- The characters kept in three runs: the whole word is deleted from an ordinary
title; in the counterexample the `neuf` that is returned is made of the characters
at positions 10, 11, 15 and 16 of the title, which the deleted `new` kept apart. -/
theorem cleanTrace_examples :
    cleanTrace "Redmi NEUF" = [(0, 'R'), (1, 'e'), (2, 'd'), (3, 'm'), (4, 'i')] ∧
    (cleanTrace "iPhone 12 nenewuf").drop 10 = [(10, 'n'), (11, 'e'), (15, 'u'), (16, 'f')] ∧
    (cleanTrace "nneufeuf") = [(0, 'n'), (5, 'e'), (6, 'u'), (7, 'f')] := by
  decide

end BaseScraper

end PhoneMarket
